import Mathlib

/-!
# A verification development for the torrent engine

Shallow embedding of parts of the repository (tracker client, peer records,
peer pool, piece and chunk arithmetic, backoff strategies, the state machine
runner, the DHT node table) together with theorems about them.

Conventions of the embedding:
* Go `int`, `int64` and `time.Duration` values are `Int`; where the source
  does arithmetic that could leave the 64-bit range the result is wrapped
  with `wrapInt64`.
* A method with a pointer receiver that mutates the receiver becomes a
  function returning the new value of the receiver.
* Bytes are `Fin 256`.
-/

set_option autoImplicit false

/-! ## Machine integers -/

/-- Wrap an integer into the range of a Go `int64` (two's complement). -/
def wrapInt64 (x : Int) : Int := (x + 2 ^ 63) % 2 ^ 64 - 2 ^ 63

/-- Conversion `uint64(x)` of a Go integer. -/
def toUint64 (x : Int) : Int := x % 2 ^ 64

/-- Conversion `uint16(x)` of a Go integer. -/
def toUint16 (x : Int) : Int := x % 2 ^ 16

/-- The constant `math.MaxInt64`. -/
def MaxInt64 : Int := 9223372036854775807

/-- A Go `[20]byte`. -/
abbrev Bytes20 := { bs : List (Fin 256) // bs.length = 20 }

/-- The zero value of `[20]byte`. -/
def Bytes20.zero : Bytes20 := ⟨List.replicate 20 0, by simp⟩

/-! ## Package `time` (the parts the sources use) -/

namespace time

/-- One nanosecond is the unit of `time.Duration`. -/
def Second : Int := 1000000000

/-- The constant `time.Minute`. -/
def Minute : Int := 60 * Second

/-! A `time.Time` is an instant, given as the integer number of nanoseconds
since the zero time. -/

/-- `Time.IsZero`. -/
def Time.IsZero (t : Int) : Bool := decide (t = 0)

/-- `Time.Add(d)`. -/
def Time.Add (t : Int) (d : Int) : Int := t + d

/-- `Time.Before(u)`. -/
def Time.Before (t u : Int) : Bool := decide (t < u)

end time

/-! ## Package `tracker` -/

namespace tracker

/-- The loop `for ; contiguousTimeouts > 0; contiguousTimeouts-- { d *= 2 }`
of `timeout`: the first argument is the number of iterations still to run. -/
def timeoutLoop : Nat → Int → Int
  | 0, d => d
  | k + 1, d => timeoutLoop k (wrapInt64 (d * 2))

/-- `timeout` of `tracker/udp.go`: the read timeout after the given number of
contiguous timeouts, in nanoseconds. -/
def timeout (contiguousTimeouts : Int) : Int :=
  let contiguousTimeouts := if contiguousTimeouts > 8 then 8 else contiguousTimeouts
  timeoutLoop contiguousTimeouts.toNat (15 * time.Second)

/-- `AnnounceEvent` is an `int32`. -/
abbrev AnnounceEvent := Int

/-- `None`, the first `AnnounceEvent` constant. -/
def None : AnnounceEvent := 0
/-- `Completed`: the local peer just completed the torrent. -/
def Completed : AnnounceEvent := 1
/-- `Started`: the local peer has just resumed this torrent. -/
def Started : AnnounceEvent := 2
/-- `Stopped`: the local peer is leaving the swarm. -/
def Stopped : AnnounceEvent := 3

/-- `AnnounceRequest` of `tracker/tracker.go`. -/
structure AnnounceRequest where
  InfoHash : Bytes20
  PeerId : Bytes20
  Downloaded : Int
  Left : Int
  Uploaded : Int
  Event : AnnounceEvent
  IPAddress : Int
  Key : Int
  NumWant : Int
  Port : Int
  deriving DecidableEq

/-- `AnnounceOption` is `func(*AnnounceRequest)`: it becomes the function from
the request before the call to the request after it. -/
abbrev AnnounceOption := AnnounceRequest → AnnounceRequest

/-- `AnnounceOptionUploaded`. -/
def AnnounceOptionUploaded (n : Int) : AnnounceOption :=
  fun ar => { ar with Uploaded := n }

/-- `AnnounceOptionDownloaded`. -/
def AnnounceOptionDownloaded (n : Int) : AnnounceOption :=
  fun ar => { ar with Downloaded := n }

/-- `AnnounceOptionRemaining`. -/
def AnnounceOptionRemaining (n : Int) : AnnounceOption :=
  fun ar => { ar with Left := n }

/-- `AnnounceOptionEventStarted`. -/
def AnnounceOptionEventStarted : AnnounceOption :=
  fun ar => { ar with Event := Started }

/-- `AnnounceOptionEventStopped`. -/
def AnnounceOptionEventStopped : AnnounceOption :=
  fun ar => { ar with Event := Stopped }

/-- `AnnounceOptionEventCompleted`. -/
def AnnounceOptionEventCompleted : AnnounceOption :=
  fun ar => { ar with Event := Completed }

/-- `AnnounceOptionSeeding`. -/
def AnnounceOptionSeeding : AnnounceOption :=
  fun ar => { ar with Left := 0 }

/-- Modelled from the spec: `langx.Clone` (package `internal/langx`, whose
source is not available) takes a value and options and returns the copy of
the value to which every option has been applied, in the order given; a
field is changed only by an option that sets it. -/
def langx.Clone {α : Type} (v : α) (options : List (α → α)) : α :=
  options.foldl (fun acc opt => opt acc) v

/-- `int160.T` holds 160 bits; `int160.ByteArray` returns them as `[20]byte`. -/
structure int160.T where
  bits : Bytes20
  deriving DecidableEq

/-- `int160.ByteArray`. -/
def int160.ByteArray (id : int160.T) : Bytes20 := id.bits

/-- `NewAccounceRequest` of `tracker/tracker.go`. The fields the composite
literal leaves out have their zero value. -/
def NewAccounceRequest (id : int160.T) (port : Int) (hash : int160.T)
    (options : List AnnounceOption) : AnnounceRequest :=
  langx.Clone
    { PeerId := int160.ByteArray id
      Port := toUint16 port
      InfoHash := int160.ByteArray hash
      Event := None
      Left := MaxInt64
      NumWant := -1
      Downloaded := 0
      Uploaded := 0
      IPAddress := 0
      Key := 0 }
    options

/-! ### `Announce.Do`: choice of the implementation by URL scheme -/

/-- The error values the tracker client returns. `other` stands for an error
made by a library call (URL parsing, dialing, the socket). -/
inductive Error where
  /-- `ErrBadScheme = errors.New("unknown scheme")`. -/
  | ErrBadScheme
  /-- `io.EOF`. -/
  | EOF
  /-- `io.ErrUnexpectedEOF`. -/
  | ErrUnexpectedEOF
  /-- `errorsx.New(msg)`, the message given as bytes. -/
  | New (msg : List (Fin 256))
  /-- `errorsx.Wrap(err, msg)`. -/
  | Wrap (err : Error) (msg : String)
  /-- A `*net.OpError` whose `Timeout()` is true. -/
  | opTimeout
  /-- Any other error of a library call. -/
  | other (descr : String)
  deriving DecidableEq

/-- `krpc.NodeAddr`: an address (the bytes `Addr().AsSlice()` returns) and a
16-bit port. -/
structure krpc.NodeAddr where
  Addr : List (Fin 256)
  Port : Int
  deriving DecidableEq

/-- `tracker.Peer`, an entry of an announce response. -/
structure Peer where
  IP : List (Fin 256)
  Port : Int
  ID : List (Fin 256)
  deriving DecidableEq

/-- `AnnounceResponse` of `tracker/tracker.go`. -/
structure AnnounceResponse where
  Interval : Int
  Leechers : Int
  Seeders : Int
  Peers : List Peer
  deriving DecidableEq

/-- The zero value of `AnnounceResponse` (the named result `res` before any
assignment). -/
def AnnounceResponse.zero : AnnounceResponse :=
  { Interval := 0, Leechers := 0, Seeders := 0, Peers := [] }

/-- A value of the interface `netx.Dialer`: the `&net.Dialer{Timeout: d}` that
`Announce.Do` installs, or a dialer supplied by the caller. -/
inductive Dialer where
  | netDialer (Timeout : Int)
  | custom (tag : Nat)
  deriving DecidableEq

/-- `Announce` of `tracker/tracker.go`; a nil `Dialer` is `none`. -/
structure Announce where
  TrackerUrl : String
  UserAgent : String
  ClientIp4 : krpc.NodeAddr
  ClientIp6 : krpc.NodeAddr
  Dialer : Option Dialer
  deriving DecidableEq

/-- The fields of `url.URL` the tracker client reads. -/
structure url.URL where
  Scheme : String
  Host : String
  RequestURI : String
  deriving DecidableEq

/-- The result of an announce: the response and the error (`none` is nil). -/
abbrev AnnounceResult := AnnounceResponse × Option Error

/-- `Announce.Do` of `tracker/tracker.go`. The library function `url.Parse`
and the two announce implementations are parameters; an announce
implementation acts on the outside world `W` (sockets, HTTP), so it maps the
world before the call to its result and the world after it. -/
def Announce.Do {W : Type} (Parse : String → Except Error url.URL)
    (announceHTTP announceUDP : url.URL → AnnounceRequest → Announce → W → AnnounceResult × W)
    (me : Announce) (req : AnnounceRequest) (w : W) : AnnounceResult × W :=
  let me : Announce :=
    if me.Dialer = none then { me with Dialer := some (Dialer.netDialer (15 * time.Second)) }
    else me
  match Parse me.TrackerUrl with
  | .error err => ((AnnounceResponse.zero, some err), w)
  | .ok _url =>
    if _url.Scheme = "http" ∨ _url.Scheme = "https" then
      announceHTTP _url req me w
    else if _url.Scheme = "udp" ∨ _url.Scheme = "udp4" ∨ _url.Scheme = "udp6" then
      announceUDP _url req me w
    else
      ((AnnounceResponse.zero, some Error.ErrBadScheme), w)

/-! ### The UDP tracker client (`tracker/udp.go`) -/

/-- `Action` is an `int32`. -/
abbrev Action := Int

/-- `ActionConnect`. -/
def ActionConnect : Action := 0
/-- `ActionAnnounce`. -/
def ActionAnnounce : Action := 1
/-- `ActionScrape`. -/
def ActionScrape : Action := 2
/-- `ActionError`. -/
def ActionError : Action := 3

/-- The constant `connectRequestConnectionId`. -/
def connectRequestConnectionId : Int := 0x41727101980

/-- `RequestHeader` of `tracker/udp.go` (16 bytes on the wire). -/
structure RequestHeader where
  ConnectionId : Int
  Action : Action
  TransactionId : Int
  deriving DecidableEq

/-- The big-endian encoding in `n` bytes of an integer, taken modulo
`2^(8n)`: what `binary.Write(w, binary.BigEndian, x)` writes for a fixed-size
integer of `n` bytes. -/
def bigEndian : Nat → Int → List (Fin 256)
  | 0, _ => []
  | n + 1, x => bigEndian n (x / 256) ++ [Fin.ofNat (x % 256).toNat]

/-- The unsigned integer a list of bytes stands for in big-endian order. -/
def fromBigEndian (bs : List (Fin 256)) : Nat :=
  bs.foldl (fun acc b => acc * 256 + b.val) 0

/-- The `int32` read from 4 big-endian bytes. -/
def decodeInt32 (bs : List (Fin 256)) : Int :=
  if fromBigEndian bs < 2 ^ 31 then (fromBigEndian bs : Int) else (fromBigEndian bs : Int) - 2 ^ 32

/-- The `int64` read from 8 big-endian bytes. -/
def decodeInt64 (bs : List (Fin 256)) : Int :=
  if fromBigEndian bs < 2 ^ 63 then (fromBigEndian bs : Int) else (fromBigEndian bs : Int) - 2 ^ 64

/-- `binary.Write(&buf, binary.BigEndian, h)` for a `RequestHeader`. -/
def RequestHeader.encode (h : RequestHeader) : List (Fin 256) :=
  bigEndian 8 h.ConnectionId ++ bigEndian 4 h.Action ++ bigEndian 4 h.TransactionId

/-- What one call of `socket.Read` returns: a datagram or an error. -/
inductive ReadResult where
  | data (bytes : List (Fin 256))
  | err (e : Error)
  deriving DecidableEq

/-- An open socket, named by a number. -/
abbrev Socket := Nat

/-- The input and output of the client, in the order in which it happens. -/
inductive IOEvent where
  /-- `Dialer.DialContext(ctx, network, address)`. -/
  | dial (network : String) (address : String)
  /-- `socket.Write(datagram)`. -/
  | write (datagram : List (Fin 256))
  /-- `socket.SetReadDeadline(time.Now().Add(d))`. -/
  | setReadDeadline (d : Int)
  /-- One call of `socket.Read` and what it returned. -/
  | read (r : ReadResult)
  deriving DecidableEq

/-- What the outside world answers during one call: the result of dialing,
the error of `socket.Write` (which otherwise writes the whole datagram), the
transaction id `newTransactionId` draws, the results of the successive
`socket.Read` calls (when they are used up the next read never returns), and
the value of `time.Now()` when the connection id is stored. -/
structure Net where
  dial : Except Error Socket
  writeErr : Option Error
  tid : Int
  reads : List ReadResult
  nowReceived : Int

/-- `udpAnnounce` of `tracker/udp.go`; a nil socket is `none`. -/
structure udpAnnounce where
  contiguousTimeouts : Int
  connectionIdReceived : Int
  connectionId : Int
  socket : Option Socket
  url : url.URL
  a : Announce
  deriving DecidableEq

/-- The announce state after a call together with its I/O. `result` is
`none` when the call never returns (it waits for a datagram for ever). -/
structure Ran (α : Type) where
  events : List IOEvent
  result : Option (udpAnnounce × α)
  deriving DecidableEq

/-- `udpAnnounce.write`: the datagram is the header, the body when there is
one (given in its binary form) and the trailer. Returns the I/O and the
error. -/
def udpAnnounce.write (h : RequestHeader) (body : Option (List (Fin 256)))
    (trailer : List (Fin 256)) (net : Net) : List IOEvent × Option Error :=
  let buf := h.encode ++ (match body with | none => [] | some b => b) ++ trailer
  ([IOEvent.write buf], net.writeErr)

/-- `errorsx.Wrap(err, msg)`: nil stays nil. -/
def errorsx.Wrap (err : Option Error) (msg : String) : Option Error :=
  match err with
  | none => none
  | some e => some (Error.Wrap e msg)

/-- The read loop of `udpAnnounce.request`, over the results of the
successive reads: the I/O, and, unless the reads run out, the value of
`contiguousTimeouts`, the buffer returned and the error. -/
def requestLoop (tid : Int) (contiguousTimeouts : Int) :
    List ReadResult → List IOEvent × Option (Int × Option (List (Fin 256)) × Option Error)
  | [] => ([], none)
  | ReadResult.err e :: _ =>
    let contiguousTimeouts :=
      if e = Error.opTimeout then wrapInt64 (contiguousTimeouts + 1) else contiguousTimeouts
    ([IOEvent.read (ReadResult.err e)],
      some (contiguousTimeouts, none, some (Error.Wrap e "reading from socket")))
  | ReadResult.data bytes :: rest =>
    let b := bytes.take 0x800
    if b.length < 8 then
      -- `binary.Read` of the 8-byte `ResponseHeader` fails with `io.EOF` or
      -- `io.ErrUnexpectedEOF`: `continue`
      (IOEvent.read (ReadResult.data bytes) :: (requestLoop tid contiguousTimeouts rest).1,
        (requestLoop tid contiguousTimeouts rest).2)
    else if decodeInt32 ((b.drop 4).take 4) ≠ tid then
      (IOEvent.read (ReadResult.data bytes) :: (requestLoop tid contiguousTimeouts rest).1,
        (requestLoop tid contiguousTimeouts rest).2)
    else
      let buf := b.drop 8
      let err := if decodeInt32 (b.take 4) = ActionError then some (Error.New buf) else none
      ([IOEvent.read (ReadResult.data bytes)], some (0, some buf, err))

/-- `udpAnnounce.request`: writes the request and reads datagrams until one
has the transaction id of the request. The result is the buffer after the
response header and the error. -/
def udpAnnounce.request (c : udpAnnounce) (action : Action) (args : Option (List (Fin 256)))
    (options : List (Fin 256)) (net : Net) :
    Ran (Option (List (Fin 256)) × Option Error) :=
  let tid := net.tid
  let w := udpAnnounce.write
    { ConnectionId := c.connectionId, Action := action, TransactionId := tid } args options net
  match errorsx.Wrap w.2 "writing request" with
  | some err => { events := w.1, result := some (c, none, some err) }
  | none =>
    let deadline := IOEvent.setReadDeadline (timeout c.contiguousTimeouts)
    let r := requestLoop tid c.contiguousTimeouts net.reads
    { events := w.1 ++ [deadline] ++ r.1,
      result := match r.2 with
        | none => none
        | some (n, buf, err) => some ({ c with contiguousTimeouts := n }, buf, err) }

/-- `udpAnnounce.connected`, at the time `now` that `time.Now()` returns. -/
def udpAnnounce.connected (c : udpAnnounce) (now : Int) : Bool :=
  !time.Time.IsZero c.connectionIdReceived
    && time.Time.Before now (time.Time.Add c.connectionIdReceived time.Minute)

/-- `udpAnnounce.dialNetwork`. -/
def udpAnnounce.dialNetwork (_c : udpAnnounce) : String := "udp"

/-- The part of `udpAnnounce.connect` after the socket is there: the Connect
request and the reading of the `ConnectionResponse`. -/
def udpAnnounce.connectRequest (c : udpAnnounce) (net : Net) : Ran (Option Error) :=
  let r := c.request ActionConnect none [] net
  match r.result with
  | none => { events := r.events, result := none }
  | some (c, _, some err) => { events := r.events, result := some (c, some err) }
  -- `request` returns a buffer or an error: this case does not occur
  | some (c, none, none) => { events := r.events, result := some (c, none) }
  | some (c, some b, none) =>
    -- `readBody(b, &res)`: `binary.Read` of the 8 bytes of a `ConnectionResponse`
    if b.length = 0 then { events := r.events, result := some (c, some Error.EOF) }
    else if b.length < 8 then
      { events := r.events, result := some (c, some Error.ErrUnexpectedEOF) }
    else
      { events := r.events,
        result := some ({ c with connectionId := decodeInt64 (b.take 8),
                                 connectionIdReceived := net.nowReceived }, none) }

/-- The library type `missinggo.HostMaybePort`: a host and port split apart.
`Port` is the port if `NoPort` is false; `Err` is the error of the split
(`none` is nil). -/
structure missinggo.HostMaybePort where
  Host : String
  Port : Int
  NoPort : Bool
  Err : Option Error
  deriving DecidableEq

/-- The library function `net.JoinHostPort(host, port)`: `host:port`, with
the host in square brackets when it contains a colon. -/
def net.JoinHostPort (host port : String) : String :=
  if host.data.contains ':' then "[" ++ host ++ "]:" ++ port else host ++ ":" ++ port

/-- The library method `HostMaybePort.String`: the host alone when there is
no port, else `net.JoinHostPort` of the host and the port in decimal. -/
def missinggo.HostMaybePort.String (me : missinggo.HostMaybePort) : String :=
  if me.NoPort then me.Host else net.JoinHostPort me.Host (toString me.Port)

/-- `udpAnnounce.connect`, called when `time.Now()` is `now`. The library
function `missinggo.SplitHostMaybePort` is a parameter. A dial that fails
leaves the socket nil. -/
def udpAnnounce.connect (SplitHostMaybePort : String → missinggo.HostMaybePort)
    (c : udpAnnounce) (now : Int) (net : Net) : Ran (Option Error) :=
  if c.connected now then { events := [], result := some (c, none) }
  else
    let c := { c with connectionId := connectRequestConnectionId }
    match c.socket with
    | none =>
      let hmp := SplitHostMaybePort c.url.Host
      let hmp := if hmp.NoPort then { hmp with NoPort := false, Port := 80 } else hmp
      match net.dial with
      | .error err =>
        { events := [IOEvent.dial c.dialNetwork hmp.String], result := some (c, some err) }
      | .ok s =>
        let r := udpAnnounce.connectRequest { c with socket := some s } net
        { events := IOEvent.dial c.dialNetwork hmp.String :: r.events, result := r.result }
    | some _ => udpAnnounce.connectRequest c net

/-- A stand-in for `missinggo.SplitHostMaybePort` in the examples. It gives
what the library function gives for the hosts of the examples:
`tracker.example:6969` is the host `tracker.example` with the port 6969, and
a host that names no port (`tracker.example`) comes back whole with `NoPort`
set. -/
def exampleSplitHostMaybePort (hostport : String) : missinggo.HostMaybePort :=
  if hostport = "tracker.example:6969" then
    { Host := "tracker.example", Port := 6969, NoPort := false, Err := none }
  else { Host := hostport, Port := 0, NoPort := true, Err := none }


/-- A UDP announce state that received the connection id 42 at second 1000
and has an open socket. -/
def exampleUdpAnnounce : udpAnnounce :=
  { contiguousTimeouts := 0
    connectionIdReceived := 1000 * time.Second
    connectionId := 42
    socket := some 1
    url := { Scheme := "udp", Host := "tracker.example:6969", RequestURI := "/announce" }
    a := { TrackerUrl := "udp://tracker.example:6969/announce", UserAgent := "",
           ClientIp4 := { Addr := [], Port := 0 }, ClientIp6 := { Addr := [], Port := 0 },
           Dialer := some (Dialer.netDialer (15 * time.Second)) } }

/-- A UDP announce state that has not connected yet: no connection id, no
socket, and a URL whose host names no port. -/
def exampleUdpAnnounceNew : udpAnnounce :=
  { contiguousTimeouts := 0
    connectionIdReceived := 0
    connectionId := 0
    socket := none
    url := { Scheme := "udp", Host := "tracker.example", RequestURI := "/announce" }
    a := { TrackerUrl := "udp://tracker.example/announce", UserAgent := "",
           ClientIp4 := { Addr := [], Port := 0 }, ClientIp6 := { Addr := [], Port := 0 },
           Dialer := some (Dialer.netDialer (15 * time.Second)) } }

/-- A tracker that answers the Connect request of transaction id 5 with the
connection id 7. -/
def exampleNet : Net :=
  { dial := .ok 1
    writeErr := none
    tid := 5
    reads := [ReadResult.data (bigEndian 4 ActionConnect ++ bigEndian 4 5 ++ bigEndian 8 7)]
    nowReceived := 1061 * time.Second }


/-- `binary.Write(&buf, binary.BigEndian, body)` for an `AnnounceRequest`:
the fields in the order of the declaration, the two arrays byte by byte and
every integer big-endian in its size (`int64` 8 bytes, `int32` and `uint32`
4 bytes, `uint16` 2 bytes). -/
def AnnounceRequest.encode (r : AnnounceRequest) : List (Fin 256) :=
  r.InfoHash.val ++ r.PeerId.val ++ bigEndian 8 r.Downloaded ++ bigEndian 8 r.Left
    ++ bigEndian 8 r.Uploaded ++ bigEndian 4 r.Event ++ bigEndian 4 r.IPAddress
    ++ bigEndian 4 r.Key ++ bigEndian 4 r.NumWant ++ bigEndian 2 r.Port

/-- The constant `optionTypeURLData` (BEP 41). -/
def optionTypeURLData : Fin 256 := 2


/-- A tracker that cannot be reached: the dial fails. -/
def exampleNetUnreachable : Net :=
  { dial := .error (Error.other "no route")
    writeErr := none
    tid := 5
    reads := []
    nowReceived := 0 }

/-- A tracker that answers the Connect request of transaction id 5 with a
datagram whose action is Announce (1), carrying the connection id 7. -/
def exampleNetAnnounceAction : Net :=
  { dial := .ok 1
    writeErr := none
    tid := 5
    reads := [ReadResult.data (bigEndian 4 ActionAnnounce ++ bigEndian 4 5 ++ bigEndian 8 7)]
    nowReceived := 1061 * time.Second }

/-- A datagram that the read loop of `request` skips: its header is
truncated (fewer than 8 bytes) or its transaction id is not the one of the
request. -/
def ignoredDatagram (tid : Int) (d : List (Fin 256)) : Prop :=
  (d.take 0x800).length < 8 ∨ decodeInt32 (((d.take 0x800).drop 4).take 4) ≠ tid

end tracker

/-! ## Package `btprotocol` -/

namespace btprotocol

/-- `PexPeerFlags` is a byte of flag bits. -/
abbrev PexPeerFlags := Nat

end btprotocol

/-! ## Package `metainfo` -/

namespace metainfo

/-- `FileInfo` of `metainfo/fileinfo.go`. -/
structure FileInfo where
  Length : Int
  Path : List String
  PathUTF8 : List String
  deriving DecidableEq

/-- The fields of `metainfo.Info` that the sources set and read. -/
structure Info where
  PieceLength : Int
  Pieces : List (Fin 256)
  Name : String
  Length : Int
  Files : List FileInfo
  deriving DecidableEq

/-- `Piece` of `metainfo/piece.go`. -/
structure Piece where
  Info : Info
  i : Int
  deriving DecidableEq

/-- `Piece.Length` of `metainfo/piece.go`. The methods `Info.NumPieces` (a
`uint64`) and `Info.TotalLength` (an `int64`) are declared in a file that is
not available: they are parameters. The comparison is between `uint64`
values and the subtraction and product are `int64` operations. -/
def Piece.Length (NumPieces : metainfo.Info → Nat) (TotalLength : metainfo.Info → Int)
    (p : Piece) : Int :=
  if toUint64 p.i = toUint64 ((NumPieces p.Info : Int) - 1) then
    wrapInt64 (TotalLength p.Info - wrapInt64 (p.i * p.Info.PieceLength))
  else
    p.Info.PieceLength

/-- `Piece.Offset` of `metainfo/piece.go`. -/
def Piece.Offset (p : Piece) : Int :=
  wrapInt64 (p.i * p.Info.PieceLength)

end metainfo

/-! ## Package `torrent` -/

namespace torrent

/-- Modelled from the spec: the type `peerSource` and its constants are
declared in a file that is not available; the spec lists the sources of a
peer record as tracker, PEX, DHT, incoming and user. `unset` is the zero
value. -/
inductive peerSource where
  | unset
  | peerSourceTracker
  | peerSourcePex
  | peerSourceDHT
  | peerSourceIncoming
  | peerSourceUser
  deriving DecidableEq

/-- `Peer` of `Peer.go`: peer connection info. The embedded
`btprotocol.PexPeerFlags` is the field `PexPeerFlags`. -/
structure Peer where
  ID : Bytes20
  IP : List (Fin 256)
  Port : Int
  Source : peerSource
  SupportsEncryption : Bool
  PexPeerFlags : btprotocol.PexPeerFlags
  Trusted : Bool
  deriving DecidableEq

/-- The zero value of `Peer`. -/
def Peer.zero : Peer :=
  { ID := Bytes20.zero, IP := [], Port := 0, Source := peerSource.unset,
    SupportsEncryption := false, PexPeerFlags := 0, Trusted := false }

/-- `Peer.FromPex` of `Peer.go`. The method `PexPeerFlags.Get` and the
constant `PexPrefersEncryption` of package `btprotocol` are declared in a
file that is not available: they are parameters. -/
def Peer.FromPex (Get : btprotocol.PexPeerFlags → btprotocol.PexPeerFlags → Bool)
    (PexPrefersEncryption : btprotocol.PexPeerFlags)
    (me : Peer) (na : tracker.krpc.NodeAddr) (fs : btprotocol.PexPeerFlags) : Peer :=
  let me := { me with IP := na.Addr }
  let me := { me with Port := na.Port }
  let me := { me with Source := peerSource.peerSourcePex }
  let me := if Get fs PexPrefersEncryption then { me with SupportsEncryption := true } else me
  { me with PexPeerFlags := fs }

/-! ### The peer pool (`peer_pool.go`) -/

/-! `peerPriority` is a `uint32`; priorities are natural numbers here. -/

/-- `prioritizedPeer` of `peer_pool.go`: a peer stored with its priority at
insertion. -/
structure prioritizedPeer where
  prio : Nat
  p : Peer
  deriving DecidableEq

/-- The zero value of `prioritizedPeer`. -/
def prioritizedPeer.zero : prioritizedPeer := { prio := 0, p := Peer.zero }

/-- The library type `multiless.Computation`: a lexicographic comparison
that is decided (`ok`) by the first pair of unequal operands. -/
structure multiless.Computation where
  ok : Bool
  less : Bool
  deriving DecidableEq

/-- `multiless.New()`: nothing decided yet. -/
def multiless.New : multiless.Computation := { ok := false, less := false }

/-- `Computation.Uint32(l, r)`. -/
def multiless.Computation.Uint32 (me : multiless.Computation) (l r : Nat) :
    multiless.Computation :=
  if me.ok then me else if l = r then me else { ok := true, less := decide (l < r) }

/-- `Computation.Less()`. -/
def multiless.Computation.Less (me : multiless.Computation) : Bool := me.less

/-- `Computation.Bool(l, r)`: false orders before true. -/
def multiless.Computation.Bool (me : multiless.Computation) (l r : Bool) :
    multiless.Computation :=
  if me.ok then me else if l = r then me else { ok := true, less := !l && r }

/-- `prioritizedPeer.Less` of `peer_pool.go`. -/
def prioritizedPeer.Less (me other : prioritizedPeer) : Bool :=
  ((multiless.New.Bool me.p.Trusted other.p.Trusted).Uint32 me.prio other.prio).Less

/-- The library type `btree.BTree` of github.com/google/btree, by its
documented behaviour: an ordered set of items, here kept as the list of the
items in ascending order (the order `Ascend` visits them in). Two items
neither of which is `Less` than the other are the same item to the tree.
`degree` is the argument of `btree.New`: it fixes the fan-out of the nodes
and has no effect on which items the tree holds. -/
structure btree.BTree where
  degree : Int
  items : List prioritizedPeer

/-- `btree.New(degree)`: an empty tree; the library panics (`none`) when the
degree is 1 or less. -/
def btree.New (degree : Int) : Option btree.BTree :=
  if degree ≤ 1 then none else some { degree := degree, items := [] }

/-- Insertion of an item into the ascending list of items: an item that is
the same to the tree is replaced and returned. -/
def btree.insertItem (item : prioritizedPeer) :
    List prioritizedPeer → List prioritizedPeer × Option prioritizedPeer
  | [] => ([item], none)
  | x :: xs =>
    if item.Less x then (item :: x :: xs, none)
    else if x.Less item then ((x :: (btree.insertItem item xs).1), (btree.insertItem item xs).2)
    else (item :: xs, some x)

/-- `BTree.ReplaceOrInsert(item)`: adds the item; if an item of the tree is
the same to the tree it is removed and returned, otherwise nil (`none`) is
returned. -/
def btree.BTree.ReplaceOrInsert (t : btree.BTree) (item : prioritizedPeer) :
    btree.BTree × Option prioritizedPeer :=
  ({ t with items := (btree.insertItem item t.items).1 }, (btree.insertItem item t.items).2)

/-- `BTree.DeleteMin()`: removes and returns the smallest item, nil (`none`)
when the tree is empty. -/
def btree.BTree.DeleteMin (t : btree.BTree) : btree.BTree × Option prioritizedPeer :=
  match t.items with
  | [] => (t, none)
  | x :: xs => ({ t with items := xs }, some x)

/-- `BTree.DeleteMax()`: removes and returns the largest item, nil (`none`)
when the tree is empty. -/
def btree.BTree.DeleteMax (t : btree.BTree) : btree.BTree × Option prioritizedPeer :=
  match t.items.getLast? with
  | none => (t, none)
  | some x => ({ t with items := t.items.dropLast }, some x)

/-- `BTree.Len()`. -/
def btree.BTree.Len (t : btree.BTree) : Nat := t.items.length

/-- `peerPool` of `peer_pool.go`. The mutex guards every method and has no
effect on the values computed; it is left out. -/
structure peerPool where
  om : btree.BTree
  getPrio : Peer → Nat

/-- `newPeerPool` of `peer_pool.go`; `none` when `btree.New` panics. -/
def newPeerPool (n : Int) (prio : Peer → Nat) : Option peerPool :=
  match btree.New n with
  | none => none
  | some om => some { om := om, getPrio := prio }

/-- `peerPool.Each`: the peers in the order in which `f` is called on them. -/
def peerPool.Each (t : peerPool) : List Peer := t.om.items.map (fun i => i.p)

/-- `peerPool.Len`. -/
def peerPool.Len (t : peerPool) : Nat := t.om.Len

/-- `peerPool.Add`: the pool after the call, and the result (true if a peer
is replaced). -/
def peerPool.Add (t : peerPool) (p : Peer) : peerPool × Bool :=
  let prio := t.getPrio p
  let r := t.om.ReplaceOrInsert { prio := prio, p := p }
  ({ t with om := r.1 }, r.2.isSome)

/-- `peerPool.DeleteMin`: the pool after the call and the results `ret`,
`ok`. -/
def peerPool.DeleteMin (t : peerPool) : peerPool × prioritizedPeer × Bool :=
  match t.om.DeleteMin with
  | (_, none) => (t, prioritizedPeer.zero, false)
  | (om, some i) => ({ t with om := om }, i, true)

/-- `peerPool.PopMax`: the pool after the call and the results `p`, `ok`. -/
def peerPool.PopMax (t : peerPool) : peerPool × Peer × Bool :=
  match t.om.DeleteMax with
  | (_, none) => (t, Peer.zero, false)
  | (om, some i) => ({ t with om := om }, i.p, true)

/-- The pool after a sequence of `Add` calls, one per peer of the list. -/
def peerPool.addAll (t : peerPool) (ps : List Peer) : peerPool :=
  ps.foldl (fun acc p => (acc.Add p).1) t

/-- The items of the tree are in strictly ascending order: the invariant of
the tree, which holds of a new tree and is kept by every operation. -/
def peerPool.ordered (t : peerPool) : Prop :=
  t.om.items.Pairwise (fun a b => a.Less b = true)

/-- The key under which the pool files a peer: the trust bit and the
priority `getPrio` gives. -/
def peerPool.key (t : peerPool) (p : Peer) : Bool × Nat := (p.Trusted, t.getPrio p)

/-- The key of a stored entry. -/
def prioritizedPeer.key (e : prioritizedPeer) : Bool × Nat := (e.p.Trusted, e.prio)

/-- A peer record with the given port and trust bit, every other field zero. -/
def examplePeer (port : Int) (trusted : Bool) : Peer :=
  { Peer.zero with Port := port, Trusted := trusted }

/-- A pool holding an untrusted peer of priority 9 and a trusted peer of
priority 1, in ascending order. -/
def examplePool : peerPool :=
  { om := { degree := 2,
            items := [{ prio := 9, p := examplePeer 9 false },
                      { prio := 1, p := examplePeer 1 true }] },
    getPrio := fun p => p.Port.toNat }

/-- A peer at 10.0.0.1:6881, every other field zero. -/
def examplePeerA : Peer := { Peer.zero with IP := [10, 0, 0, 1], Port := 6881 }

/-- A different peer, at 10.0.0.2:6882, every other field zero. -/
def examplePeerB : Peer := { Peer.zero with IP := [10, 0, 0, 2], Port := 6882 }

/-! ### Requests for chunks -/

/-- Modelled from the spec: a `request` names a chunk by the triple (piece
index, offset within the piece, length); the type is declared in a file
that is not available. -/
structure request where
  Index : Int
  Begin : Int
  Length : Int
  deriving DecidableEq

/-- The zero value of `request`; to the test it means "not ok". -/
def request.zero : request := { Index := 0, Begin := 0, Length := 0 }

/-- Modelled from the spec: `newRequest(index, begin, length)`. -/
def newRequest (index begin_ length : Int) : request :=
  { Index := index, Begin := begin_, Length := length }

/-- Modelled from the spec: `torrentOffsetRequest(totalLen, pieceLen,
chunkLen, offset)` is declared in a file that is not available; the spec
gives its results at the boundaries (the cases of the test
`TestTorrentRequest`): an offset outside the torrent is not ok; otherwise the
request is for the chunk that holds the offset: the piece of the offset, the
offset within the piece rounded down to a multiple of the chunk length, and
the chunk length cut at the end of the piece and at the end of the torrent. -/
def torrentOffsetRequest (torrentLength pieceSize chunkSize offset : Int) : request × Bool :=
  if offset < 0 ∨ offset ≥ torrentLength then (request.zero, false)
  else
    let index := offset / pieceSize
    let begin_ := offset % pieceSize / chunkSize * chunkSize
    let length := chunkSize
    let pieceLeft := pieceSize - begin_
    let length := if length > pieceLeft then pieceLeft else length
    let torrentLeft := torrentLength - index * pieceSize - begin_
    let length := if length > torrentLeft then torrentLeft else length
    ({ Index := index, Begin := begin_, Length := length }, true)

/-! ### PEX flags of a connection -/

/-- Modelled from the spec: the fields of `connection` that decide its PEX
flags (the type is declared in a file that is not available): whether the
connection is outgoing and whether the peer prefers encryption. -/
structure connection where
  outgoing : Bool
  PeerPrefersEncryption : Bool
  deriving DecidableEq

/-- Modelled from the spec: `connection.pexPeerFlags` is declared in a file
that is not available; by the spec the flags encode `PexPrefersEncryption`
and `PexOutgoingConn`: a connection that is neither gives 0, one that is both
gives `PexOutgoingConn | PexPrefersEncryption`. The two flag constants of
package `btprotocol` are parameters. -/
def connection.pexPeerFlags (PexPrefersEncryption PexOutgoingConn : btprotocol.PexPeerFlags)
    (cn : connection) : btprotocol.PexPeerFlags :=
  let f : Nat := 0
  let f := if cn.PeerPrefersEncryption then f ||| PexPrefersEncryption else f
  let f := if cn.outgoing then f ||| PexOutgoingConn else f
  f

end torrent

/-! ## Package `backoffx` -/

namespace backoffx

/-- `Strategy`: a value with the method `Backoff(attempt int) time.Duration`. -/
structure Strategy where
  Backoff : Int → Int

/-- The shift `x << k` of an `int64` by an unsigned count: the bits shifted
out are lost, a count of 64 or more gives 0. -/
def shiftLeftInt64 (x : Int) (k : Int) : Int :=
  if k ≥ 64 then 0 else wrapInt64 (x * 2 ^ k.toNat)

/-- `bits.Mul64(x, y)`: the 128-bit product of two `uint64` as (hi, lo). -/
def bits.Mul64 (x y : Nat) : Nat × Nat := (x * y / 2 ^ 64, x * y % 2 ^ 64)

/-- The type `exponential`. -/
structure exponential where
  scale : Int
  deriving DecidableEq

/-- `exponential.Backoff`: if the exponential wraps around it falls back to
the maximum. -/
def exponential.Backoff (t : exponential) (attempt : Int) : Int :=
  let exp := shiftLeftInt64 1 (toUint64 attempt)
  if exp ≤ 0 then MaxInt64
  else
    let r := bits.Mul64 (toUint64 exp).toNat (toUint64 t.scale).toNat
    if r.1 ≠ 0 ∨ r.2 &&& 2 ^ 63 = 2 ^ 63 then MaxInt64
    else wrapInt64 r.2

/-- `Exponential`: panics (`none`) when the scale is 0. -/
def Exponential (scale : Int) : Option Strategy :=
  if scale = 0 then none
  else some { Backoff := (exponential.mk scale).Backoff }

/-- The type `explicit`. -/
structure explicit where
  delays : List Int
  deriving DecidableEq

/-- `explicit.Backoff`: `t.delays[attempt%len(t.delays)]`, with the remainder
of Go (it has the sign of the attempt); `none` when the code panics: on the
division by zero of an empty list and on a negative index. -/
def explicit.Backoff (t : explicit) (attempt : Int) : Option Int :=
  if t.delays.length = 0 then none
  else
    let i := Int.tmod attempt t.delays.length
    if i < 0 then none else t.delays[i.toNat]?

/-- `Cycle`: an explicit set of delays to use. -/
def Cycle (delays : List Int) : explicit := { delays := delays }

/-- A Go `[16]byte`, the type of an MD5 digest. -/
abbrev Bytes16 := { bs : List (Fin 256) // bs.length = 16 }

/-- `binary.LittleEndian.Uint64(b)`: the first 8 bytes, least significant
first. -/
def LittleEndian.Uint64 (b : List (Fin 256)) : Nat :=
  (b.take 8).foldr (fun x acc => x.val + 256 * acc) 0

/-- `DynamicHashWindow(i, n)`; the library function `md5.Sum` is a
parameter. `none` when the code panics on the division by zero. -/
def DynamicHashWindow (md5Sum : String → Bytes16) (i : String) (n : Nat) : Option Nat :=
  let digest := md5Sum i
  if n = 0 then none else some (LittleEndian.Uint64 digest.val % n)

/-- `DynamicHashDuration(window, i)`: a consistent duration based on the
input `i` within the window. -/
def DynamicHashDuration (md5Sum : String → Bytes16) (window : Int) (i : String) : Option Int :=
  if window = 0 then some 0
  else
    match DynamicHashWindow md5Sum i (toUint64 window).toNat with
    | none => none
    | some x => some (wrapInt64 x)

/-- `Option` of `backoffx`: consumes a strategy and returns a new strategy. -/
abbrev Option := Strategy → Strategy

/-- `StrategyFunc`: a pure function as a backoff strategy. -/
def StrategyFunc (f : Int → Int) : Strategy := { Backoff := f }

/-- `Maximum`: sets an upper bound for the strategy. -/
def Maximum (d : Int) : Option :=
  fun s => StrategyFunc (fun attempt =>
    let x := s.Backoff attempt
    if x < d then x else d)

/-- `Minimum`: sets a lower bound for the strategy. -/
def Minimum (d : Int) : Option :=
  fun s => StrategyFunc (fun attempt =>
    let x := s.Backoff attempt
    if x > d then x else d)

/-- `New`: applies the options to the strategy, one after the other. -/
def New (s : Strategy) (options : List Option) : Strategy :=
  options.foldl (fun s opt => opt s) s

/-- `Constant`: always the provided duration, whatever the attempt. -/
def Constant (d : Int) : Strategy := StrategyFunc (fun _ => d)

/-- A stand-in for `md5.Sum` that gives every input the same digest, for
examples. -/
def exampleMd5Sum : String → Bytes16 := fun _ => ⟨List.replicate 16 7, by simp⟩

end backoffx

/-! ## Package `cstate` -/

namespace cstate

/-- Values of the interface `error` that a run can return. -/
inductive Error where
  /-- `context.Canceled`. -/
  | Canceled
  /-- `context.DeadlineExceeded`. -/
  | DeadlineExceeded
  /-- Any other error, named by its message. -/
  | other (msg : String)
  deriving DecidableEq

/-- A `context.Context`, by what `ctx.Done()` and `context.Cause(ctx)` report:
`cause` is `none` while the context is not done and the cause of the
cancellation afterwards. -/
structure Context where
  cause : Option Error
  deriving DecidableEq

/-- What the logger receives. -/
inductive LogEntry where
  /-- `l.Printf("%T %s\n", s, s)`, once for each state that is run. -/
  | state
  /-- `c.log.Println("[warning]", cause)`. -/
  | warning (cause : Option Error)
  deriving DecidableEq

/-- What a state function does with the `*Shared` it is given before it
returns: the causes it passes to `Shared.done`, in the order of the calls
(`Failure(e).Update(ctx, s)` inside the function is such a call, with the
cause `e`), and what it has logged (`Warning(next, e).Update(ctx, s)` logs
a warning). -/
structure FnEffects where
  cancels : List (Option Error)
  logged : List LogEntry
  deriving DecidableEq

/-- The states: the values of the interface `T`. `nil` is the nil interface
value. An `fn` is a `func(context.Context, *Shared) T`: from the context it
is called with it gives what it does with the `Shared` and the state it
returns (a function that does not return is not part of the model). The wait
of `idle` on its condition variables is not part of the model: its `Update`
gives the next state when the wait ends. -/
inductive T where
  | nil
  | idle (next : T)
  | failed (cause : Option Error)
  | warning (cause : Option Error) (next : T)
  | fn (f : Context → FnEffects × T)

end cstate

/-! ## Package `dht` -/

namespace dht

/-! ### 160-bit ids (`dht/int160`) -/

/-- Modelled from the spec: package `dht/int160` is not available; an id is
160 bits, held in 20 bytes, most significant byte first. This is the number
the 160 bits stand for. -/
def int160.toNat (a : tracker.int160.T) : Nat := tracker.fromBigEndian a.bits.val

/-- Modelled from the spec: the id that holds the low 160 bits of a number. -/
def int160.ofNat (x : Nat) : tracker.int160.T :=
  { bits := ⟨tracker.bigEndian 20 (x : Int), by simp [tracker.bigEndian]⟩ }

/-- Modelled from the spec: `T.Xor(a, b)` sets the receiver to the bitwise
exclusive or of `a` and `b`; this is the value the receiver then has. -/
def int160.Xor (a b : tracker.int160.T) : tracker.int160.T :=
  int160.ofNat (int160.toNat a ^^^ int160.toNat b)

/-- The least `n` among `0 .. N` with `x < 2^n` (and `N` if there is none). -/
def bitLenUpTo : Nat → Nat → Nat
  | 0, _ => 0
  | n + 1, x => if x < 2 ^ n then bitLenUpTo n x else n + 1

/-- Modelled from the spec: `T.BitLen()` is the length of the id in bits:
the position of its highest set bit counted from 1, and 0 for the zero id. -/
def int160.BitLen (a : tracker.int160.T) : Nat := bitLenUpTo 160 (int160.toNat a)

/-! ### The node table (`dht/table.go`) -/

/-- A `*node`, by the two fields the table reads: the address (as
`Addr.String()` prints it) and the id. -/
structure node where
  Addr : String
  Id : tracker.int160.T
  deriving DecidableEq

/-- Modelled from the spec: the type `bucket` and its methods are declared
in a file that is not available; a bucket is the set of its nodes, kept here
as the list of the nodes in the order `NodeIter` visits them. -/
structure bucket where
  nodes : List node
  deriving DecidableEq

/-- Modelled from the spec: `bucket.Len()`, the number of nodes. -/
def bucket.Len (b : bucket) : Nat := b.nodes.length

/-- Modelled from the spec: `bucket.GetNode(addr, id)`, the node of the
bucket with that address and id, nil (`none`) when there is none. -/
def bucket.GetNode (b : bucket) (addr : String) (id : tracker.int160.T) : Option node :=
  b.nodes.find? (fun n => decide (n.Addr = addr ∧ n.Id = id))

/-- Modelled from the spec: `bucket.AddNode(n, k)` puts the node into the
set (`k` is only the size the set is allocated with). -/
def bucket.AddNode (b : bucket) (n : node) (_k : Int) : bucket :=
  if n ∈ b.nodes then b else { nodes := b.nodes ++ [n] }

/-- Modelled from the spec: `bucket.Remove(n)` takes the node out of the
set. -/
def bucket.Remove (b : bucket) (n : node) : bucket :=
  { nodes := b.nodes.filter (fun m => decide (m ≠ n)) }

/-- Modelled from the spec: `bucket.NodeIter()`, every node of the bucket
once. -/
def bucket.NodeIter (b : bucket) : List node := b.nodes

/-- `table` of `dht/table.go`. The array of 160 buckets is a function of the
index. The map `addrs` is read through membership tests only (a missing
address and an address without ids answer alike): it is the function from
an address to the ids recorded under it. The mutex is left out. -/
structure table where
  rootID : tracker.int160.T
  k : Int
  buckets : Fin 160 → bucket
  addrs : String → List tracker.int160.T

/-- `newTable(k)`: the root id has its zero value and every bucket and the
address index are empty. -/
def newTable (k : Int) : table :=
  { rootID := { bits := Bytes20.zero }
    k := k
    buckets := fun _ => { nodes := [] }
    addrs := fun _ => [] }

/-- `table.K`. -/
def table.K (tbl : table) : Int := tbl.k

/-- The indexing `tbl.buckets[i]` of the array: `none` is the panic of an
index out of range. -/
def table.bucketAt (tbl : table) (i : Int) : Option bucket :=
  if h : 0 ≤ i ∧ i < 160 then some (tbl.buckets ⟨i.toNat, by omega⟩) else none

/-- The assignment to `tbl.buckets[i]` through the pointer to the bucket. -/
def table.setBucket (tbl : table) (i : Int) (b : bucket) : table :=
  if h : 0 ≤ i ∧ i < 160 then
    { tbl with buckets := Function.update tbl.buckets ⟨i.toNat, by omega⟩ b }
  else tbl

/-- `table.bucketIndex`: `none` is the panic "nobody puts the root ID in a
bucket". -/
def table.bucketIndex (tbl : table) (id : tracker.int160.T) : Option Int :=
  if id = tbl.rootID then none
  else
    let a := int160.Xor tbl.rootID id
    let index : Int := 160 - (int160.BitLen a : Int)
    some index

/-- `table.bucketForID`: the bucket of the id (with its index, which stands
for the pointer); `none` when `bucketIndex` or the indexing panics. -/
def table.bucketForID (tbl : table) (id : tracker.int160.T) : Option (Int × bucket) :=
  match tbl.bucketIndex id with
  | none => none
  | some i =>
    match tbl.bucketAt i with
    | none => none
    | some b => some (i, b)

/-- `table.numNodes`. -/
def table.numNodes (tbl : table) : Nat :=
  (List.finRange 160).foldl (fun num i => num + (tbl.buckets i).Len) 0

/-- `table.getNode`: the outer `none` is a panic, the inner one nil. -/
def table.getNode (tbl : table) (addr : String) (id : tracker.int160.T) :
    Option (Option node) :=
  if id = tbl.rootID then some none
  else
    match tbl.bucketForID id with
    | none => none
    | some (_, b) => some (b.GetNode addr id)

/-- `table.addNode`: the table after the call and the error (`none` is nil);
the outer `none` is a panic. -/
def table.addNode (tbl : table) (n : node) : Option (table × Option String) :=
  if n.Id = tbl.rootID then some (tbl, some "is root id")
  else
    match tbl.bucketForID n.Id with
    | none => none
    | some (i, b) =>
      if (b.GetNode n.Addr n.Id).isSome then some (tbl, some "already present")
      else if (b.Len : Int) ≥ tbl.k then some (tbl, some "bucket is full")
      else
        let tbl := tbl.setBucket i (b.AddNode n tbl.k)
        let addr := n.Addr
        let ids := if n.Id ∈ tbl.addrs addr then tbl.addrs addr else tbl.addrs addr ++ [n.Id]
        let tbl := { tbl with addrs := Function.update tbl.addrs addr ids }
        some (tbl, none)

/-- `table.dropNode`: the table after the call; `none` is a panic ("missing
id for addr", or the one of `bucketIndex`). -/
def table.dropNode (tbl : table) (n : node) : Option table :=
  let addr := n.Addr
  if n.Id ∉ tbl.addrs addr then none
  else
    let ids := (tbl.addrs addr).filter (fun x => decide (x ≠ n.Id))
    let tbl := { tbl with addrs := Function.update tbl.addrs addr ids }
    match tbl.bucketForID n.Id with
    | none => none
    | some (i, b) => some (tbl.setBucket i (b.Remove n))

/-- The loop of `closestNodes`: the first argument is `bi + 1`, so 0 stands
for `bi = -1`, where the loop ends. `none` is the panic of an index out of
range. -/
def table.closestLoop (tbl : table) (k : Int) (filter : node → Bool) :
    Nat → List node → Option (List node)
  | 0, ret => some ret
  | bi + 1, ret =>
    if (ret.length : Int) < k then
      match tbl.bucketAt bi with
      | none => none
      | some b => table.closestLoop tbl k filter bi (ret ++ b.NodeIter.filter filter)
    else some ret

/-- `table.closestNodes`: `none` is a panic (of `bucketIndex`, of an index
out of range, or of the slice expression `ret[:k]` for a negative `k`). -/
def table.closestNodes (tbl : table) (k : Int) (target : tracker.int160.T)
    (filter : node → Bool) : Option (List node) :=
  let start : Option Int :=
    if target = tbl.rootID then some (160 - 1) else tbl.bucketIndex target
  match start with
  | none => none
  | some bi =>
    match tbl.closestLoop k filter (bi + 1).toNat [] with
    | none => none
    | some ret =>
      if (ret.length : Int) > k then
        if k < 0 then none else some (ret.take k.toNat)
      else some ret

/-- A call of one of the two methods that change the table. -/
inductive Call where
  | addNode (n : node)
  | dropNode (n : node)
  deriving DecidableEq

/-- The table after a sequence of calls; `none` when one of them panics. -/
def table.run (tbl : table) : List Call → Option table
  | [] => some tbl
  | Call.addNode n :: rest =>
    match tbl.addNode n with
    | none => none
    | some (tbl2, _) => table.run tbl2 rest
  | Call.dropNode n :: rest =>
    match tbl.dropNode n with
    | none => none
    | some tbl2 => table.run tbl2 rest

/-- The nodes that pass the filter in the buckets `m - 1`, `m - 2`, ..., `0`,
in the order in which the loop of `closestNodes` visits them. -/
def table.candidates (tbl : table) (filter : node → Bool) : Nat → List node
  | 0 => []
  | m + 1 =>
    (match tbl.bucketAt m with
      | none => []
      | some b => b.NodeIter.filter filter) ++ table.candidates tbl filter m

/-- Two nodes whose ids differ from the zero id in the lowest bit only (so
both belong to bucket 159 of a table whose root id is zero), and one whose id
belongs to bucket 158. -/
def exampleNode1 : node := { Addr := "10.0.0.1:6881", Id := int160.ofNat 1 }

/-- The second example node: the id of the first one at another address. -/
def exampleNode2 : node := { Addr := "10.0.0.2:6881", Id := int160.ofNat 1 }

/-- The third example node, of bucket 158. -/
def exampleNode3 : node := { Addr := "10.0.0.3:6881", Id := int160.ofNat 2 }

end dht

/-! ## Theorems -/

namespace tracker

theorem timeoutLoop_small (k : Nat) (hk : k ≤ 8) :
    timeoutLoop k (15 * time.Second) = 15 * time.Second * 2 ^ k := by
  interval_cases k <;> decide

/-- C1: for every integer n the UDP tracker read timeout is
15 s * 2^min(n, 8) (with min(n, 8) read as 0 for negative n): it is 15 s for
every n <= 0, doubles with each further contiguous timeout up to 8, and is
never above 15 * 256 s = 3840 s. -/
theorem timeout_spec (n : Int) :
    timeout n = 15 * time.Second * 2 ^ (min n 8).toNat
    ∧ (n ≤ 0 → timeout n = 15 * time.Second)
    ∧ (0 ≤ n → n < 8 → timeout (n + 1) = 2 * timeout n)
    ∧ 15 * time.Second ≤ timeout n
    ∧ timeout n ≤ 15 * 256 * time.Second
    ∧ (8 ≤ n → timeout n = 3840 * time.Second) := by
  have key : ∀ m : Int, timeout m = 15 * time.Second * 2 ^ (min m 8).toNat := by
    intro m
    unfold timeout
    by_cases h : m > 8
    · simp only [h, if_true]
      have : min m 8 = 8 := by omega
      rw [this]
      exact timeoutLoop_small 8 (le_refl 8)
    · simp only [h, if_false]
      have h8 : min m 8 = m := by omega
      rw [h8]
      exact timeoutLoop_small m.toNat (by omega)
  have hle : (min n 8).toNat ≤ 8 := by omega
  have hpow : (1 : Int) ≤ 2 ^ (min n 8).toNat ∧ (2 : Int) ^ (min n 8).toNat ≤ 256 := by
    generalize (min n 8).toNat = k at hle
    interval_cases k <;> decide
  have hsec : time.Second = 1000000000 := rfl
  refine ⟨key n, ?_, ?_, ?_, ?_, ?_⟩
  · intro h0
    rw [key n]
    have : (min n 8).toNat = 0 := by omega
    rw [this]; simp
  · intro h0 h8
    rw [key n, key (n + 1)]
    have e1 : (min (n + 1) 8).toNat = (min n 8).toNat + 1 := by omega
    rw [e1, pow_succ]; ring
  · rw [key n, hsec]; nlinarith [hpow.1]
  · rw [key n, hsec]; nlinarith [hpow.2]
  · intro h8
    rw [key n]
    have : (min n 8).toNat = 8 := by omega
    rw [this, hsec]; norm_num

end tracker

namespace tracker

theorem Clone_preserves {α β : Type} (f : α → β) (options : List (α → α))
    (h : ∀ opt ∈ options, ∀ v, f (opt v) = f v) (v : α) :
    f (langx.Clone v options) = f v := by
  unfold langx.Clone
  induction options generalizing v with
  | nil => rfl
  | cons o os ih =>
    simp only [List.foldl_cons]
    rw [ih (fun opt hopt => h opt (List.mem_cons_of_mem _ hopt)) (o v)]
    exact h o (List.mem_cons_self _ _) v

/-- C2: for every peer id, port and infohash, NewAccounceRequest called with
no options returns a request with Left = math.MaxInt64, NumWant = -1 and
Event = None, with PeerId and InfoHash equal to the 20 bytes of the given id
and hash (and Port the 16-bit truncation of the port, every other field
zero); with options, a field that no supplied option changes keeps the value
it has without options. -/
theorem NewAccounceRequest_defaults (id : int160.T) (port : Int) (hash : int160.T) :
    (NewAccounceRequest id port hash []).Left = 9223372036854775807
    ∧ (NewAccounceRequest id port hash []).NumWant = -1
    ∧ (NewAccounceRequest id port hash []).Event = None
    ∧ (NewAccounceRequest id port hash []).PeerId = id.bits
    ∧ (NewAccounceRequest id port hash []).InfoHash = hash.bits
    ∧ (NewAccounceRequest id port hash []).PeerId.val.length = 20
    ∧ (NewAccounceRequest id port hash []).InfoHash.val.length = 20
    ∧ (NewAccounceRequest id port hash []).Port = port % 65536
    ∧ (NewAccounceRequest id port hash []).Downloaded = 0
    ∧ (NewAccounceRequest id port hash []).Uploaded = 0
    ∧ (NewAccounceRequest id port hash []).IPAddress = 0
    ∧ (NewAccounceRequest id port hash []).Key = 0
    ∧ (∀ (β : Type) (field : AnnounceRequest → β) (options : List AnnounceOption),
        (∀ opt ∈ options, ∀ ar, field (opt ar) = field ar) →
        field (NewAccounceRequest id port hash options)
          = field (NewAccounceRequest id port hash [])) := by
  refine ⟨rfl, rfl, rfl, rfl, rfl, id.bits.property, hash.bits.property, rfl, rfl, rfl,
    rfl, rfl, ?_⟩
  intro β field options h
  exact Clone_preserves field options h _

/-- C3: AnnounceOptionSeeding forces Left = 0: applied to any AnnounceRequest
it sets Left to 0 and leaves every other field unchanged, and
NewAccounceRequest(id, port, hash, AnnounceOptionSeeding) has Left = 0 and
NumWant = -1 (and differs from the request without options in Left only). -/
theorem AnnounceOptionSeeding_spec (ar : AnnounceRequest) (id : int160.T) (port : Int)
    (hash : int160.T) :
    (AnnounceOptionSeeding ar).Left = 0
    ∧ AnnounceOptionSeeding ar = { ar with Left := 0 }
    ∧ (AnnounceOptionSeeding ar).InfoHash = ar.InfoHash
    ∧ (AnnounceOptionSeeding ar).PeerId = ar.PeerId
    ∧ (AnnounceOptionSeeding ar).Downloaded = ar.Downloaded
    ∧ (AnnounceOptionSeeding ar).Uploaded = ar.Uploaded
    ∧ (AnnounceOptionSeeding ar).Event = ar.Event
    ∧ (AnnounceOptionSeeding ar).IPAddress = ar.IPAddress
    ∧ (AnnounceOptionSeeding ar).Key = ar.Key
    ∧ (AnnounceOptionSeeding ar).NumWant = ar.NumWant
    ∧ (AnnounceOptionSeeding ar).Port = ar.Port
    ∧ (NewAccounceRequest id port hash [AnnounceOptionSeeding]).Left = 0
    ∧ (NewAccounceRequest id port hash [AnnounceOptionSeeding]).NumWant = -1
    ∧ NewAccounceRequest id port hash [AnnounceOptionSeeding]
        = { NewAccounceRequest id port hash [] with Left := 0 } :=
  ⟨rfl, rfl, rfl, rfl, rfl, rfl, rfl, rfl, rfl, rfl, rfl, rfl, rfl, rfl⟩

/-- C4: for every tracker URL that parses and whose scheme is not one of
http, https, udp, udp4, udp6, Announce.Do returns ErrBadScheme with the zero
AnnounceResponse and leaves the world untouched (no announce runs, whatever
the announce implementations are); http and https URLs are handed to the
HTTP announce, udp, udp4 and udp6 URLs to the UDP announce (with the default
dialer installed when none was given); a URL that fails to parse returns the
parse error with the zero response and no announce. -/
theorem Announce_Do_scheme {W : Type} (Parse : String → Except Error url.URL)
    (announceHTTP announceUDP : url.URL → AnnounceRequest → Announce → W → AnnounceResult × W)
    (me : Announce) (req : AnnounceRequest) (w : W) :
    (∀ u, Parse me.TrackerUrl = .ok u →
        u.Scheme ∉ ["http", "https", "udp", "udp4", "udp6"] →
        Announce.Do Parse announceHTTP announceUDP me req w
          = ((AnnounceResponse.zero, some Error.ErrBadScheme), w))
    ∧ (∀ u, Parse me.TrackerUrl = .ok u → u.Scheme ∈ ["http", "https"] →
        ∃ me2 : Announce, me2.Dialer ≠ none
          ∧ (me.Dialer ≠ none → me2 = me)
          ∧ me2 = { me with Dialer := me2.Dialer }
          ∧ Announce.Do Parse announceHTTP announceUDP me req w = announceHTTP u req me2 w)
    ∧ (∀ u, Parse me.TrackerUrl = .ok u → u.Scheme ∈ ["udp", "udp4", "udp6"] →
        ∃ me2 : Announce, me2.Dialer ≠ none
          ∧ (me.Dialer ≠ none → me2 = me)
          ∧ me2 = { me with Dialer := me2.Dialer }
          ∧ Announce.Do Parse announceHTTP announceUDP me req w = announceUDP u req me2 w)
    ∧ (∀ err, Parse me.TrackerUrl = .error err →
        Announce.Do Parse announceHTTP announceUDP me req w
          = ((AnnounceResponse.zero, some err), w)) := by
  have hurl : ∀ m : Announce,
      (if m.Dialer = none then
          { m with Dialer := some (Dialer.netDialer (15 * time.Second)) } else m).TrackerUrl
        = m.TrackerUrl := by
    intro m; split <;> rfl
  have hme : ∃ me2 : Announce, me2.Dialer ≠ none ∧ (me.Dialer ≠ none → me2 = me)
      ∧ me2 = { me with Dialer := me2.Dialer }
      ∧ me2 = (if me.Dialer = none then
          { me with Dialer := some (Dialer.netDialer (15 * time.Second)) } else me) := by
    by_cases hd : me.Dialer = none
    · exact ⟨_, by simp [hd], fun h => absurd hd h, by simp [hd], rfl⟩
    · exact ⟨me, hd, fun _ => rfl, rfl, by simp [hd]⟩
  refine ⟨?_, ?_, ?_, ?_⟩
  · intro u hu hs
    simp only [List.mem_cons, List.mem_singleton, List.not_mem_nil, or_false, not_or] at hs
    simp only [Announce.Do, hurl, hu]
    simp [hs.1, hs.2.1, hs.2.2.1, hs.2.2.2.1, hs.2.2.2.2]
  · intro u hu hs
    obtain ⟨me2, h1, h2, h3, h4⟩ := hme
    refine ⟨me2, h1, h2, h3, ?_⟩
    simp only [List.mem_cons, List.mem_singleton, List.not_mem_nil, or_false] at hs
    simp only [Announce.Do, hurl, hu]
    rw [if_pos hs, h4]
  · intro u hu hs
    obtain ⟨me2, h1, h2, h3, h4⟩ := hme
    refine ⟨me2, h1, h2, h3, ?_⟩
    simp only [List.mem_cons, List.mem_singleton, List.not_mem_nil, or_false] at hs
    have hnot : ¬ (u.Scheme = "http" ∨ u.Scheme = "https") := by
      rcases hs with h | h | h <;> rw [h] <;> decide
    simp only [Announce.Do, hurl, hu]
    rw [if_neg hnot, if_pos hs, h4]
  · intro err herr
    simp only [Announce.Do, hurl, herr]

end tracker

namespace torrent

/-- C5: for every Peer record, node address na and PEX flag set fs, after
Peer.FromPex(na, fs) the record has Source = PEX, Port = na's port, IP = na's
address bytes and PexPeerFlags = fs, and ID and Trusted are unchanged; when
fs has PexPrefersEncryption set SupportsEncryption is true, and when it has
not SupportsEncryption keeps its previous value. -/
theorem Peer_FromPex_spec (Get : btprotocol.PexPeerFlags → btprotocol.PexPeerFlags → Bool)
    (PexPrefersEncryption : btprotocol.PexPeerFlags)
    (me : Peer) (na : tracker.krpc.NodeAddr) (fs : btprotocol.PexPeerFlags) :
    (Get fs PexPrefersEncryption = true →
        (Peer.FromPex Get PexPrefersEncryption me na fs).SupportsEncryption = true)
    ∧ (Get fs PexPrefersEncryption = false →
        (Peer.FromPex Get PexPrefersEncryption me na fs).SupportsEncryption
          = me.SupportsEncryption)
    ∧ (Peer.FromPex Get PexPrefersEncryption me na fs).Source = peerSource.peerSourcePex
    ∧ (Peer.FromPex Get PexPrefersEncryption me na fs).Port = na.Port
    ∧ (Peer.FromPex Get PexPrefersEncryption me na fs).PexPeerFlags = fs
    ∧ (Peer.FromPex Get PexPrefersEncryption me na fs).IP = na.Addr
    ∧ (Peer.FromPex Get PexPrefersEncryption me na fs).ID = me.ID
    ∧ (Peer.FromPex Get PexPrefersEncryption me na fs).Trusted = me.Trusted := by
  unfold Peer.FromPex
  cases h : Get fs PexPrefersEncryption <;> simp

end torrent

namespace metainfo

theorem toUint64_eq_iff (a b : Int) (ha0 : 0 ≤ a) (ha : a < 2 ^ 64) (hb0 : 0 ≤ b)
    (hb : b < 2 ^ 64) : toUint64 a = toUint64 b ↔ a = b := by
  unfold toUint64
  rw [Int.emod_eq_of_lt ha0 ha, Int.emod_eq_of_lt hb0 hb]

theorem wrapInt64_of_range (x : Int) (h0 : -2 ^ 63 ≤ x) (h1 : x < 2 ^ 63) :
    wrapInt64 x = x := by
  unfold wrapInt64
  rw [Int.emod_eq_of_lt (by omega) (by omega)]
  omega

/-- C6: for every Info and every piece index i in [0, numPieces),
Piece.Length() is PieceLength when i is not the last index, and for the last
piece (i = numPieces - 1) it is TotalLength - (numPieces - 1) * PieceLength,
computed in 64-bit arithmetic (so exactly that integer whenever the product
and the difference fit an int64); in particular for an Info with total
length 2, piece length 2^20 and one piece, piece 0 has length 2. -/
theorem Piece_Length_spec (NumPieces : Info → Nat) (TotalLength : Info → Int)
    (info : Info) (i : Int) (h0 : 0 ≤ i) (hi : i < NumPieces info)
    (hN : (NumPieces info : Int) < 2 ^ 64) :
    (i ≠ NumPieces info - 1 →
        Piece.Length NumPieces TotalLength ⟨info, i⟩ = info.PieceLength)
    ∧ (i = NumPieces info - 1 →
        Piece.Length NumPieces TotalLength ⟨info, i⟩
          = wrapInt64 (TotalLength info
              - wrapInt64 (((NumPieces info : Int) - 1) * info.PieceLength)))
    ∧ (i = NumPieces info - 1 →
        -2 ^ 63 ≤ ((NumPieces info : Int) - 1) * info.PieceLength →
        ((NumPieces info : Int) - 1) * info.PieceLength < 2 ^ 63 →
        -2 ^ 63 ≤ TotalLength info - ((NumPieces info : Int) - 1) * info.PieceLength →
        TotalLength info - ((NumPieces info : Int) - 1) * info.PieceLength < 2 ^ 63 →
        Piece.Length NumPieces TotalLength ⟨info, i⟩
          = TotalLength info - ((NumPieces info : Int) - 1) * info.PieceLength)
    ∧ (NumPieces info = 1 → TotalLength info = 2 → info.PieceLength = 2 ^ 20 →
        Piece.Length NumPieces TotalLength ⟨info, 0⟩ = 2) := by
  have hcmp : ∀ j : Int, 0 ≤ j → j < NumPieces info →
      (toUint64 j = toUint64 ((NumPieces info : Int) - 1) ↔ j = NumPieces info - 1) :=
    fun j hj0 hj => toUint64_eq_iff j _ hj0 (by omega) (by omega) (by omega)
  refine ⟨?_, ?_, ?_, ?_⟩
  · intro hne
    unfold Piece.Length
    rw [if_neg (fun h => hne ((hcmp i h0 hi).1 h))]
  · intro he
    unfold Piece.Length
    rw [if_pos ((hcmp i h0 hi).2 he)]
    simp only [he]
  · intro he a1 a2 a3 a4
    unfold Piece.Length
    rw [if_pos ((hcmp i h0 hi).2 he)]
    simp only [he]
    rw [wrapInt64_of_range _ a1 a2, wrapInt64_of_range _ a3 a4]
  · intro hn ht hp
    unfold Piece.Length
    have h1 : toUint64 (0 : Int) = toUint64 ((NumPieces info : Int) - 1) := by
      rw [hn]; rfl
    simp only [h1, if_true, ht, zero_mul]
    decide

/-- Witness for C6: the Info of the short-file test (name "a", length 2,
piece length 2^20) with one piece; piece 0 is the last piece and has
length 2. -/
theorem Piece_Length_spec_witness :
    Piece.Length (fun _ => 1) (fun info => info.Length)
      ⟨{ PieceLength := 2 ^ 20, Pieces := [], Name := "a", Length := 2, Files := [] }, 0⟩ = 2 :=
  (Piece_Length_spec (fun _ => 1) (fun info => info.Length)
    { PieceLength := 2 ^ 20, Pieces := [], Name := "a", Length := 2, Files := [] } 0
    (le_refl 0) (by decide) (by decide)).2.2.2 rfl rfl rfl

end metainfo

namespace torrent

theorem Less_iff (a b : prioritizedPeer) :
    a.Less b = true ↔
      (a.p.Trusted = false ∧ b.p.Trusted = true)
        ∨ (a.p.Trusted = b.p.Trusted ∧ a.prio < b.prio) := by
  unfold prioritizedPeer.Less multiless.Computation.Less multiless.Computation.Uint32
    multiless.Computation.Bool multiless.New
  cases a.p.Trusted <;> cases b.p.Trusted <;> by_cases h : a.prio = b.prio <;> simp [h]

theorem Less_iff_rank (a b : prioritizedPeer) :
    a.Less b = true ↔
      (a.p.Trusted.toNat < b.p.Trusted.toNat)
        ∨ (a.p.Trusted.toNat = b.p.Trusted.toNat ∧ a.prio < b.prio) := by
  rw [Less_iff]
  cases a.p.Trusted <;> cases b.p.Trusted <;> simp

theorem Less_trans {a b c : prioritizedPeer} (hab : a.Less b = true) (hbc : b.Less c = true) :
    a.Less c = true := by
  rw [Less_iff_rank] at *
  omega

theorem Less_irrefl (a : prioritizedPeer) : a.Less a = false := by
  cases h : a.Less a
  · rfl
  · rw [Less_iff_rank] at h; omega

theorem Less_asymm {a b : prioritizedPeer} (hab : a.Less b = true) : b.Less a = false := by
  cases h : b.Less a
  · rfl
  · have := Less_trans hab h
    rw [Less_irrefl] at this
    exact absurd this (by decide)

theorem key_eq_iff_rank (a b : prioritizedPeer) :
    a.key = b.key ↔ (a.p.Trusted.toNat = b.p.Trusted.toNat ∧ a.prio = b.prio) := by
  unfold prioritizedPeer.key
  rw [Prod.mk.injEq]
  cases a.p.Trusted <;> cases b.p.Trusted <;> simp

theorem key_eq_iff (a b : prioritizedPeer) :
    a.key = b.key ↔ (a.Less b = false ∧ b.Less a = false) := by
  have e1 : a.Less b = false ↔ ¬ (a.Less b = true) := by simp
  have e2 : b.Less a = false ↔ ¬ (b.Less a = true) := by simp
  rw [e1, e2, Less_iff_rank, Less_iff_rank, key_eq_iff_rank]
  omega

theorem Less_congr_left {a b : prioritizedPeer} (c : prioritizedPeer) (h : a.key = b.key) :
    a.Less c = b.Less c := by
  rw [key_eq_iff_rank] at h
  have : (a.Less c = true) ↔ (b.Less c = true) := by
    rw [Less_iff_rank, Less_iff_rank]; omega
  cases h3 : a.Less c <;> cases h4 : b.Less c <;> simp_all

theorem Less_congr_right {a b : prioritizedPeer} (c : prioritizedPeer) (h : a.key = b.key) :
    c.Less a = c.Less b := by
  rw [key_eq_iff_rank] at h
  have : (c.Less a = true) ↔ (c.Less b = true) := by
    rw [Less_iff_rank, Less_iff_rank]; omega
  cases h3 : c.Less a <;> cases h4 : c.Less b <;> simp_all

end torrent

namespace torrent

theorem key_ne_of_Less_left {a b : prioritizedPeer} (h : a.Less b = true) : a.key ≠ b.key := by
  intro hk
  rw [key_eq_iff] at hk
  rw [hk.1] at h
  exact absurd h (by decide)

theorem key_ne_of_Less_right {a b : prioritizedPeer} (h : a.Less b = true) : b.key ≠ a.key :=
  fun hk => key_ne_of_Less_left h hk.symm

theorem insertItem_spec (item : prioritizedPeer) (l : List prioritizedPeer)
    (hl : l.Pairwise (fun a b => a.Less b = true)) :
    (btree.insertItem item l).1.Pairwise (fun a b => a.Less b = true)
    ∧ (∀ x, x ∈ (btree.insertItem item l).1 ↔ x = item ∨ (x ∈ l ∧ x.key ≠ item.key))
    ∧ (∀ old, (btree.insertItem item l).2 = some old →
        old ∈ l ∧ old.key = item.key ∧ (btree.insertItem item l).1.length = l.length)
    ∧ ((btree.insertItem item l).2 = none →
        (∀ x ∈ l, x.key ≠ item.key) ∧ (btree.insertItem item l).1.length = l.length + 1) := by
  induction l with
  | nil =>
    simp [btree.insertItem]
  | cons x xs ih =>
    rw [List.pairwise_cons] at hl
    obtain ⟨hx, hxs⟩ := hl
    obtain ⟨ih1, ih2, ih3, ih4⟩ := ih hxs
    unfold btree.insertItem
    by_cases h1 : item.Less x = true
    · rw [if_pos h1]
      have hall : ∀ y ∈ x :: xs, item.Less y = true := by
        intro y hy
        rcases List.mem_cons.1 hy with rfl | hy
        · exact h1
        · exact Less_trans h1 (hx y hy)
      refine ⟨?_, ?_, ?_, ?_⟩
      · exact List.pairwise_cons.2 ⟨hall, List.pairwise_cons.2 ⟨hx, hxs⟩⟩
      · intro y
        constructor
        · intro hy
          rcases List.mem_cons.1 hy with rfl | hy
          · exact Or.inl rfl
          · exact Or.inr ⟨hy, key_ne_of_Less_right (hall y hy)⟩
        · rintro (rfl | ⟨hy, _⟩)
          · exact List.mem_cons_self _ _
          · exact List.mem_cons_of_mem _ hy
      · intro old hold
        exact absurd hold (by simp)
      · intro _
        exact ⟨fun y hy => key_ne_of_Less_right (hall y hy), by simp⟩
    · rw [if_neg h1]
      by_cases h2 : x.Less item = true
      · rw [if_pos h2]
        refine ⟨?_, ?_, ?_, ?_⟩
        · refine List.pairwise_cons.2 ⟨?_, ih1⟩
          intro y hy
          rcases (ih2 y).1 hy with rfl | ⟨hy, _⟩
          · exact h2
          · exact hx y hy
        · intro y
          simp only [List.mem_cons, ih2 y]
          constructor
          · rintro (rfl | rfl | ⟨hy, hk⟩)
            · exact Or.inr ⟨Or.inl rfl, key_ne_of_Less_left h2⟩
            · exact Or.inl rfl
            · exact Or.inr ⟨Or.inr hy, hk⟩
          · rintro (rfl | ⟨rfl | hy, hk⟩)
            · exact Or.inr (Or.inl rfl)
            · exact Or.inl rfl
            · exact Or.inr (Or.inr ⟨hy, hk⟩)
        · intro old hold
          obtain ⟨a1, a2, a3⟩ := ih3 old hold
          exact ⟨List.mem_cons_of_mem _ a1, a2, by simp [a3]⟩
        · intro hnone
          obtain ⟨a1, a2⟩ := ih4 hnone
          refine ⟨?_, by simp [a2]⟩
          intro y hy
          rcases List.mem_cons.1 hy with rfl | hy
          · exact key_ne_of_Less_left h2
          · exact a1 y hy
      · rw [if_neg h2]
        have hkey : x.key = item.key := by
          rw [key_eq_iff]
          exact ⟨by simpa using h2, by simpa using h1⟩
        have hall : ∀ y ∈ xs, item.Less y = true := by
          intro y hy
          rw [← Less_congr_left y hkey]
          exact hx y hy
        refine ⟨?_, ?_, ?_, ?_⟩
        · exact List.pairwise_cons.2 ⟨hall, hxs⟩
        · intro y
          simp only [List.mem_cons]
          constructor
          · rintro (rfl | hy)
            · exact Or.inl rfl
            · exact Or.inr ⟨Or.inr hy, key_ne_of_Less_right (hall y hy)⟩
          · rintro (rfl | ⟨rfl | hy, hk⟩)
            · exact Or.inl rfl
            · exact absurd hkey hk
            · exact Or.inr hy
        · intro old hold
          simp only [Option.some.injEq] at hold
          subst hold
          exact ⟨List.mem_cons_self _ _, hkey, by simp⟩
        · intro hnone
          exact absurd hnone (by simp)

end torrent

namespace torrent

theorem DeleteMax_nil (t : btree.BTree) (h : t.items = []) : t.DeleteMax = (t, none) := by
  unfold btree.BTree.DeleteMax
  rw [h]; rfl

theorem DeleteMax_concat (t : btree.BTree) (l : List prioritizedPeer) (e : prioritizedPeer)
    (h : t.items = l ++ [e]) : t.DeleteMax = ({ t with items := l }, some e) := by
  unfold btree.BTree.DeleteMax
  rw [h, List.getLast?_concat]
  simp

theorem examplePool_ordered : examplePool.ordered := by
  unfold peerPool.ordered examplePool
  simp only [List.pairwise_cons, List.mem_singleton, List.not_mem_nil, List.Pairwise.nil,
    forall_eq, and_true]
  constructor
  · decide
  · intro a h; exact absurd h (by simp)

/-- C7: the peer pool is keyed by (trusted first, priority). On a non-empty
pool PopMax removes one entry e and returns its peer with ok = true; every
entry left in the pool is smaller than e, and e is not smaller than any of
them, under the order "untrusted before trusted, then smaller priority before
larger priority", so if the pool holds any trusted peer the returned peer is
trusted; Len decreases by exactly 1. On an empty pool PopMax returns
ok = false with the zero peer and leaves the pool as it is (empty). -/
theorem peerPool_PopMax_spec (t : peerPool) (ht : t.ordered) :
    (t.Len = 0 → t.PopMax = (t, Peer.zero, false) ∧ t.PopMax.1.Len = 0)
    ∧ (t.Len ≠ 0 → ∃ e : prioritizedPeer,
        e ∈ t.om.items
        ∧ t.PopMax.2 = (e.p, true)
        ∧ t.PopMax.1.om.items ++ [e] = t.om.items
        ∧ t.PopMax.1.Len + 1 = t.Len
        ∧ (∀ x ∈ t.PopMax.1.om.items, x.Less e = true ∧ e.Less x = false)
        ∧ (∀ x ∈ t.om.items, x.p.Trusted = true → e.p.Trusted = true)
        ∧ (∀ x ∈ t.om.items, x.p.Trusted = e.p.Trusted → x.prio ≤ e.prio)
        ∧ t.PopMax.1.ordered
        ∧ t.PopMax.1.getPrio = t.getPrio) := by
  constructor
  · intro h0
    have hnil : t.om.items = [] := List.length_eq_zero.1 h0
    have hp : t.PopMax = (t, Peer.zero, false) := by
      unfold peerPool.PopMax
      rw [DeleteMax_nil t.om hnil]
    exact ⟨hp, by rw [hp]; exact h0⟩
  · intro hne
    rcases List.eq_nil_or_concat t.om.items with hnil | ⟨l, e, hl⟩
    · exact absurd (by rw [peerPool.Len, btree.BTree.Len, hnil]; rfl) hne
    · rw [List.concat_eq_append] at hl
      have hp : t.PopMax = ({ t with om := { t.om with items := l } }, e.p, true) := by
        unfold peerPool.PopMax
        rw [DeleteMax_concat t.om l e hl]
      have hord : (l ++ [e]).Pairwise (fun a b => a.Less b = true) := by
        have := ht
        unfold peerPool.ordered at this
        rwa [hl] at this
      rw [List.pairwise_append] at hord
      obtain ⟨hl1, _, hl3⟩ := hord
      have hlt : ∀ x ∈ l, x.Less e = true := fun x hx => hl3 x hx e (List.mem_singleton.2 rfl)
      refine ⟨e, ?_, ?_, ?_, ?_, ?_, ?_, ?_, ?_, ?_⟩
      · rw [hl]; simp
      · rw [hp]
      · rw [hp, hl]
      · rw [hp]
        show l.length + 1 = t.om.items.length
        rw [hl]; simp
      · rw [hp]
        intro x hx
        exact ⟨hlt x hx, Less_asymm (hlt x hx)⟩
      · intro x hx hxt
        rw [hl] at hx
        rcases List.mem_append.1 hx with hx | hx
        · have := hlt x hx
          rw [Less_iff] at this
          rcases this with ⟨_, h2⟩ | ⟨h1, _⟩
          · exact h2
          · rw [← h1]; exact hxt
        · rw [List.mem_singleton.1 hx] at hxt; exact hxt
      · intro x hx hxt
        rw [hl] at hx
        rcases List.mem_append.1 hx with hx | hx
        · have := hlt x hx
          rw [Less_iff_rank] at this
          rw [hxt] at this
          omega
        · rw [List.mem_singleton.1 hx]
      · rw [hp]; exact hl1
      · rw [hp]

/-- Witness for C7: a pool holding an untrusted peer of priority 9 and a
trusted peer of priority 1 is ordered and not empty; PopMax returns the
trusted peer and leaves the untrusted one. -/
theorem peerPool_PopMax_spec_witness :
    examplePool.ordered
    ∧ examplePool.PopMax.2 = (examplePeer 1 true, true)
    ∧ ∃ e : prioritizedPeer,
        e ∈ examplePool.om.items
        ∧ examplePool.PopMax.2 = (e.p, true)
        ∧ examplePool.PopMax.1.om.items ++ [e] = examplePool.om.items
        ∧ examplePool.PopMax.1.Len + 1 = examplePool.Len
        ∧ (∀ x ∈ examplePool.PopMax.1.om.items, x.Less e = true ∧ e.Less x = false)
        ∧ (∀ x ∈ examplePool.om.items, x.p.Trusted = true → e.p.Trusted = true)
        ∧ (∀ x ∈ examplePool.om.items, x.p.Trusted = e.p.Trusted → x.prio ≤ e.prio)
        ∧ examplePool.PopMax.1.ordered
        ∧ examplePool.PopMax.1.getPrio = examplePool.getPrio :=
  ⟨examplePool_ordered, rfl,
    (peerPool_PopMax_spec examplePool examplePool_ordered).2 (by decide)⟩

end torrent

namespace torrent

theorem newPeerPool_some (n : Int) (prio : Peer → Nat) (t : peerPool)
    (h : newPeerPool n prio = some t) :
    t.om.items = [] ∧ t.getPrio = prio ∧ t.om.degree = n ∧ t.ordered := by
  unfold newPeerPool btree.New at h
  by_cases hn : n ≤ 1
  · simp [hn] at h
  · simp only [hn, if_false, Option.some.injEq] at h
    subst h
    exact ⟨rfl, rfl, rfl, List.Pairwise.nil⟩

theorem Add_items (t : peerPool) (p : Peer) :
    (t.Add p).1.om.items = (btree.insertItem { prio := t.getPrio p, p := p } t.om.items).1
    ∧ (t.Add p).2 = (btree.insertItem { prio := t.getPrio p, p := p } t.om.items).2.isSome
    ∧ (t.Add p).1.getPrio = t.getPrio
    ∧ (t.Add p).1.om.degree = t.om.degree :=
  ⟨rfl, rfl, rfl, rfl⟩

theorem Add_ordered (t : peerPool) (ht : t.ordered) (p : Peer) : (t.Add p).1.ordered := by
  unfold peerPool.ordered
  rw [(Add_items t p).1]
  exact (insertItem_spec _ _ ht).1

theorem Add_mem (t : peerPool) (ht : t.ordered) (p : Peer) (x : prioritizedPeer) :
    x ∈ (t.Add p).1.om.items ↔
      x = { prio := t.getPrio p, p := p } ∨ (x ∈ t.om.items ∧ x.key ≠ t.key p) := by
  rw [(Add_items t p).1]
  exact (insertItem_spec _ _ ht).2.1 x

theorem Add_true_iff (t : peerPool) (ht : t.ordered) (p : Peer) :
    (t.Add p).2 = true ↔ ∃ e ∈ t.om.items, e.key = t.key p := by
  rw [(Add_items t p).2.1]
  obtain ⟨_, _, h3, h4⟩ := insertItem_spec { prio := t.getPrio p, p := p } _ ht
  cases hr : (btree.insertItem { prio := t.getPrio p, p := p } t.om.items).2 with
  | none =>
    simp only [Option.isSome_none, Bool.false_eq_true, false_iff, not_exists, not_and]
    intro e he hk
    exact (h4 hr).1 e he hk
  | some old =>
    simp only [Option.isSome_some, true_iff]
    exact ⟨old, (h3 old hr).1, (h3 old hr).2.1⟩

theorem Add_Len (t : peerPool) (ht : t.ordered) (p : Peer) :
    ((t.Add p).2 = true → (t.Add p).1.Len = t.Len)
    ∧ ((t.Add p).2 = false → (t.Add p).1.Len = t.Len + 1) := by
  unfold peerPool.Len btree.BTree.Len
  rw [(Add_items t p).2.1, (Add_items t p).1]
  obtain ⟨_, _, h3, h4⟩ := insertItem_spec { prio := t.getPrio p, p := p } _ ht
  cases hr : (btree.insertItem { prio := t.getPrio p, p := p } t.om.items).2 with
  | none => simp [(h4 hr).2]
  | some old => simp [(h3 old hr).2.2]

theorem pairwise_key_unique (l : List prioritizedPeer)
    (hl : l.Pairwise (fun a b => a.Less b = true)) :
    ∀ a ∈ l, ∀ b ∈ l, a.key = b.key → a = b := by
  induction l with
  | nil => intro a ha; exact absurd ha (List.not_mem_nil a)
  | cons x xs ih =>
    rw [List.pairwise_cons] at hl
    intro a ha b hb hk
    rcases List.mem_cons.1 ha with ha1 | ha1 <;> rcases List.mem_cons.1 hb with hb1 | hb1
    · rw [ha1, hb1]
    · rw [ha1] at hk
      exact absurd hk (key_ne_of_Less_left (hl.1 b hb1))
    · rw [hb1] at hk
      exact absurd hk (key_ne_of_Less_right (hl.1 a ha1))
    · exact ih hl.2 a ha1 b hb1 hk

theorem addAll_cons (t : peerPool) (p : Peer) (ps : List Peer) :
    t.addAll (p :: ps) = (t.Add p).1.addAll ps := rfl

theorem addAll_ordered (t : peerPool) (ht : t.ordered) (ps : List Peer) :
    (t.addAll ps).ordered ∧ (t.addAll ps).getPrio = t.getPrio := by
  induction ps generalizing t with
  | nil => exact ⟨ht, rfl⟩
  | cons p ps ih =>
    rw [addAll_cons]
    exact ⟨(ih _ (Add_ordered t ht p)).1, (ih _ (Add_ordered t ht p)).2⟩

theorem Add_hasKey (t : peerPool) (ht : t.ordered) (p : Peer) (k : Bool × Nat) :
    (∃ e ∈ (t.Add p).1.om.items, e.key = k) ↔ (k = t.key p ∨ ∃ e ∈ t.om.items, e.key = k) := by
  constructor
  · rintro ⟨e, he, hk⟩
    rcases (Add_mem t ht p e).1 he with rfl | ⟨he2, _⟩
    · exact Or.inl hk.symm
    · exact Or.inr ⟨e, he2, hk⟩
  · rintro (rfl | ⟨e, he, hk⟩)
    · exact ⟨_, (Add_mem t ht p _).2 (Or.inl rfl), rfl⟩
    · by_cases hkp : e.key = t.key p
      · exact ⟨_, (Add_mem t ht p _).2 (Or.inl rfl), by rw [← hk, hkp]; rfl⟩
      · exact ⟨e, (Add_mem t ht p e).2 (Or.inr ⟨he, hkp⟩), hk⟩

theorem addAll_hasKey (t : peerPool) (ht : t.ordered) (ps : List Peer) (k : Bool × Nat) :
    (∃ e ∈ (t.addAll ps).om.items, e.key = k)
      ↔ (k ∈ ps.map t.key ∨ ∃ e ∈ t.om.items, e.key = k) := by
  induction ps generalizing t with
  | nil => simp [peerPool.addAll]
  | cons p ps ih =>
    rw [addAll_cons, ih _ (Add_ordered t ht p), Add_hasKey t ht p k]
    have hkey : (t.Add p).1.key = t.key := rfl
    rw [hkey, List.map_cons, List.mem_cons]
    constructor
    · rintro (h | h | h)
      · exact Or.inl (Or.inr h)
      · exact Or.inl (Or.inl h)
      · exact Or.inr h
    · rintro ((h | h) | h)
      · exact Or.inr (Or.inl h)
      · exact Or.inl h
      · exact Or.inr (Or.inr h)

theorem addAll_Len_le (t : peerPool) (ht : t.ordered) (ps : List Peer) :
    (t.addAll ps).Len ≤ t.Len + ps.length ∧ t.Len ≤ (t.addAll ps).Len := by
  induction ps generalizing t with
  | nil => exact ⟨le_refl _, le_refl _⟩
  | cons p ps ih =>
    rw [addAll_cons]
    have h := ih _ (Add_ordered t ht p)
    have hl := Add_Len t ht p
    rw [List.length_cons]
    cases hr : (t.Add p).2
    · have := hl.2 hr; omega
    · have := hl.1 hr; omega

theorem addAll_Len_nodup (t : peerPool) (ht : t.ordered) (ps : List Peer)
    (hnd : (ps.map t.key).Nodup) (hfresh : ∀ p ∈ ps, ∀ e ∈ t.om.items, e.key ≠ t.key p) :
    (t.addAll ps).Len = t.Len + ps.length := by
  induction ps generalizing t with
  | nil => rfl
  | cons p ps ih =>
    rw [addAll_cons]
    rw [List.map_cons, List.nodup_cons] at hnd
    have hkey : (t.Add p).1.key = t.key := rfl
    have hfalse : (t.Add p).2 = false := by
      cases hr : (t.Add p).2
      · rfl
      · obtain ⟨e, he, hk⟩ := (Add_true_iff t ht p).1 hr
        exact absurd hk (hfresh p (List.mem_cons_self _ _) e he)
    have h := ih (t.Add p).1 (Add_ordered t ht p) (by rw [hkey]; exact hnd.2) (by
      intro q hq e he hk
      rw [hkey] at hk
      rcases (Add_mem t ht p e).1 he with rfl | ⟨he2, _⟩
      · apply hnd.1
        rw [List.mem_map]
        exact ⟨q, hq, hk.symm⟩
      · exact hfresh q (List.mem_cons_of_mem _ hq) e he2 hk)
    rw [h, (Add_Len t ht p).2 hfalse, List.length_cons]
    omega

end torrent

namespace torrent

/-- C8, as the code has it: the pool is not bounded by the argument n of
newPeerPool(n, prio), which is only the degree of the B-tree. For a pool
created by newPeerPool(n, prio) and every sequence of Add calls, Len() is at
most the number of Add calls and equals it when the added peers have
pairwise different keys (trust bit, priority), whatever n is; every key
added is still in the pool afterwards and the entries of the pool are filed
under added keys only. A further Add never makes the pool smaller: when no
entry has the key of the added peer it returns false and Len() grows by one,
when an entry has that key it returns true, Len() is unchanged and the pool
holds the added peer in place of that entry. Add never removes an entry
with a different key: the entries after the call are the added one and the
entries of before with another key, so the lowest entry stays in the pool
unless the added peer has its key. -/
theorem peerPool_Add_not_bounded (n : Int) (prio : Peer → Nat) (t0 : peerPool)
    (h0 : newPeerPool n prio = some t0) (ps : List Peer) :
    (t0.addAll ps).Len ≤ ps.length
    ∧ ((ps.map (fun p => (p.Trusted, prio p))).Nodup → (t0.addAll ps).Len = ps.length)
    ∧ (∀ p ∈ ps, ∃ e ∈ (t0.addAll ps).om.items, e.key = (p.Trusted, prio p))
    ∧ (∀ e ∈ (t0.addAll ps).om.items, ∃ p ∈ ps, e.key = (p.Trusted, prio p))
    ∧ (∀ p, (t0.addAll ps).Len ≤ ((t0.addAll ps).Add p).1.Len
        ∧ ((¬ ∃ e ∈ (t0.addAll ps).om.items, e.key = (p.Trusted, prio p)) →
            ((t0.addAll ps).Add p).2 = false
            ∧ ((t0.addAll ps).Add p).1.Len = (t0.addAll ps).Len + 1)
        ∧ ((∃ e ∈ (t0.addAll ps).om.items, e.key = (p.Trusted, prio p)) →
            ((t0.addAll ps).Add p).2 = true
            ∧ ((t0.addAll ps).Add p).1.Len = (t0.addAll ps).Len)
        ∧ (∀ x, x ∈ ((t0.addAll ps).Add p).1.om.items ↔
            (x = { prio := prio p, p := p }
              ∨ (x ∈ (t0.addAll ps).om.items ∧ x.key ≠ (p.Trusted, prio p))))
        ∧ (∀ e ∈ (t0.addAll ps).om.items,
            e.key ≠ (p.Trusted, prio p) → e ∈ ((t0.addAll ps).Add p).1.om.items)
        ∧ (∀ e, (t0.addAll ps).om.items.head? = some e →
            e ∉ ((t0.addAll ps).Add p).1.om.items → e.key = (p.Trusted, prio p))) := by
  obtain ⟨hnil, hprio, _, hord⟩ := newPeerPool_some n prio t0 h0
  have hkey : t0.key = fun p => (p.Trusted, prio p) := by
    funext p; unfold peerPool.key; rw [hprio]
  have hlen0 : t0.Len = 0 := by unfold peerPool.Len btree.BTree.Len; rw [hnil]; rfl
  have hord2 := addAll_ordered t0 hord ps
  have hgp : (t0.addAll ps).getPrio = prio := by rw [hord2.2, hprio]
  have hkey2 : ∀ p, (t0.addAll ps).key p = (p.Trusted, prio p) := by
    intro p; unfold peerPool.key; rw [hgp]
  refine ⟨?_, ?_, ?_, ?_, ?_⟩
  · have := (addAll_Len_le t0 hord ps).1
    omega
  · intro hnd
    have := addAll_Len_nodup t0 hord ps (by rw [hkey]; exact hnd) (by
      intro p _ e he
      rw [hnil] at he
      exact absurd he (List.not_mem_nil e))
    omega
  · intro p hp
    apply (addAll_hasKey t0 hord ps _).2
    left
    rw [hkey]
    exact List.mem_map.2 ⟨p, hp, rfl⟩
  · intro e he
    rcases (addAll_hasKey t0 hord ps e.key).1 ⟨e, he, rfl⟩ with h | ⟨x, hx, _⟩
    · rw [hkey] at h
      obtain ⟨p, hp, hpk⟩ := List.mem_map.1 h
      exact ⟨p, hp, hpk.symm⟩
    · rw [hnil] at hx
      exact absurd hx (List.not_mem_nil x)
  · intro p
    have hl := Add_Len (t0.addAll ps) hord2.1 p
    have ht := Add_true_iff (t0.addAll ps) hord2.1 p
    rw [hkey2 p] at ht
    have hmem := Add_mem (t0.addAll ps) hord2.1 p
    rw [hkey2 p, hgp] at hmem
    refine ⟨?_, ?_, ?_, hmem, ?_, ?_⟩
    · cases hr : ((t0.addAll ps).Add p).2
      · have := hl.2 hr; omega
      · have := hl.1 hr; omega
    · intro hno
      have hf : ((t0.addAll ps).Add p).2 = false := by
        cases hr : ((t0.addAll ps).Add p).2
        · rfl
        · exact absurd (ht.1 hr) hno
      exact ⟨hf, hl.2 hf⟩
    · intro hex
      exact ⟨ht.2 hex, hl.1 (ht.2 hex)⟩
    · intro e he hk
      exact (hmem e).2 (Or.inr ⟨he, hk⟩)
    · intro e hhead hnot
      by_contra hk
      exact hnot ((hmem e).2 (Or.inr ⟨List.mem_of_mem_head? hhead, hk⟩))

/-- Witness for C8: three untrusted peers with priorities 1, 2 and 3 added to
a pool made by newPeerPool(2, prio): the pool holds 3 entries. -/
theorem peerPool_Add_not_bounded_witness :
    newPeerPool 2 (fun p => p.Port.toNat)
        = some { om := { degree := 2, items := [] }, getPrio := fun p => p.Port.toNat }
    ∧ (peerPool.addAll { om := { degree := 2, items := [] }, getPrio := fun p => p.Port.toNat }
        [examplePeer 1 false, examplePeer 2 false, examplePeer 3 false]).Len
      = [examplePeer 1 false, examplePeer 2 false, examplePeer 3 false].length :=
  ⟨rfl, (peerPool_Add_not_bounded 2 (fun p => p.Port.toNat)
    { om := { degree := 2, items := [] }, getPrio := fun p => p.Port.toNat } rfl
    [examplePeer 1 false, examplePeer 2 false, examplePeer 3 false]).2.1 (by decide)⟩

/-- Counterexample to C8 as stated: a pool made by newPeerPool(2, prio) holds
three entries after three Add calls, more than its "bound" 2, and the entry
of lowest priority is still the first of the pool: the third Add grew the
pool and evicted nothing. -/
theorem peerPool_bound_counterexample :
    (newPeerPool 2 (fun p => p.Port.toNat)).map
        (fun t => (t.addAll [examplePeer 1 false, examplePeer 2 false]).Len) = some 2
    ∧ (newPeerPool 2 (fun p => p.Port.toNat)).map
        (fun t => (t.addAll [examplePeer 1 false, examplePeer 2 false,
          examplePeer 3 false]).Len) = some 3
    ∧ (newPeerPool 2 (fun p => p.Port.toNat)).map
        (fun t => (t.addAll [examplePeer 1 false, examplePeer 2 false,
          examplePeer 3 false]).Each)
        = some [examplePeer 1 false, examplePeer 2 false, examplePeer 3 false]
    ∧ ¬ ((3 : Int) ≤ 2) := by
  refine ⟨by decide, by decide, by decide, by decide⟩

/-- C9, as the code has it: Add(p) returns true exactly when the pool already
holds an entry with the key of p, that is with the same trust bit and the
same priority (the peer of that entry may be a different peer); in that case
that one entry is replaced by p and Len is unchanged; otherwise p is
inserted, Add returns false and Len grows by 1. Entries whose key differs
from the key of p are never treated as the same entry: they all stay in the
pool. -/
theorem peerPool_Add_spec (t : peerPool) (ht : t.ordered) (p : Peer) :
    ((t.Add p).2 = true ↔ ∃ e ∈ t.om.items, e.key = (p.Trusted, t.getPrio p))
    ∧ ((t.Add p).2 = true → (t.Add p).1.Len = t.Len)
    ∧ ((t.Add p).2 = false → (t.Add p).1.Len = t.Len + 1)
    ∧ ({ prio := t.getPrio p, p := p } ∈ (t.Add p).1.om.items)
    ∧ (∀ x ∈ t.om.items, x.key ≠ (p.Trusted, t.getPrio p) → x ∈ (t.Add p).1.om.items)
    ∧ (∀ x ∈ t.om.items, x.key = (p.Trusted, t.getPrio p) →
        x ≠ { prio := t.getPrio p, p := p } → x ∉ (t.Add p).1.om.items)
    ∧ (∀ x ∈ t.om.items, ∀ y ∈ t.om.items, x.key = (p.Trusted, t.getPrio p) →
        y.key = (p.Trusted, t.getPrio p) → x = y)
    ∧ (∀ x ∈ (t.Add p).1.om.items, x = { prio := t.getPrio p, p := p } ∨ x ∈ t.om.items)
    ∧ (t.Add p).1.ordered
    ∧ (t.Add p).1.getPrio = t.getPrio := by
  refine ⟨Add_true_iff t ht p, (Add_Len t ht p).1, (Add_Len t ht p).2, ?_, ?_, ?_, ?_, ?_,
    Add_ordered t ht p, rfl⟩
  · exact (Add_mem t ht p _).2 (Or.inl rfl)
  · intro x hx hk
    exact (Add_mem t ht p x).2 (Or.inr ⟨hx, hk⟩)
  · intro x _ hk hne hmem
    rcases (Add_mem t ht p x).1 hmem with h | ⟨_, h⟩
    · exact hne h
    · exact h hk
  · intro x hx y hy hkx hky
    exact pairwise_key_unique t.om.items ht x hx y hy (hkx.trans hky.symm)
  · intro x hx
    rcases (Add_mem t ht p x).1 hx with h | ⟨h, _⟩
    · exact Or.inl h
    · exact Or.inr h

/-- Witness for C9: adding an untrusted peer of priority 5 to the pool that
holds (untrusted, 9) and (trusted, 1) inserts it: the pool then has three
entries. -/
theorem peerPool_Add_spec_witness :
    examplePool.ordered ∧ (examplePool.Add (examplePeer 5 false)).2 = false
    ∧ (examplePool.Add (examplePeer 5 false)).1.Len = examplePool.Len + 1 :=
  ⟨examplePool_ordered, rfl,
    (peerPool_Add_spec examplePool examplePool_ordered (examplePeer 5 false)).2.2.1 rfl⟩

/-- Counterexample to C9 as stated: with a priority function that gives two
different peers (different IP and port, same trust bit) the same priority,
the pool that holds the first and no entry for the second answers true to
Add of the second and then holds the second peer only: the first was treated
as the same entry and removed. -/
theorem peerPool_Add_counterexample :
    examplePeerA.IP ≠ examplePeerB.IP
    ∧ examplePeerA.Port ≠ examplePeerB.Port
    ∧ (newPeerPool 2 (fun _ => 0)).map (fun t => (t.Add examplePeerA).1.Each)
        = some [examplePeerA]
    ∧ (newPeerPool 2 (fun _ => 0)).map (fun t => ((t.Add examplePeerA).1.Add examplePeerB).2)
        = some true
    ∧ (newPeerPool 2 (fun _ => 0)).map
        (fun t => ((t.Add examplePeerA).1.Add examplePeerB).1.Each) = some [examplePeerB]
    ∧ (newPeerPool 2 (fun _ => 0)).map
        (fun t => ((t.Add examplePeerA).1.Add examplePeerB).1.Len) = some 1 := by
  refine ⟨by decide, by decide, by decide, by decide, by decide, by decide⟩

end torrent

namespace tracker

theorem connected_iff (c : udpAnnounce) (now : Int) :
    c.connected now = true
      ↔ (c.connectionIdReceived ≠ 0 ∧ now - c.connectionIdReceived < 60 * time.Second) := by
  unfold udpAnnounce.connected time.Time.IsZero time.Time.Before time.Time.Add time.Minute
  simp only [Bool.and_eq_true, Bool.not_eq_true', decide_eq_false_iff_not, decide_eq_true_eq]
  constructor
  · rintro ⟨h1, h2⟩
    exact ⟨h1, by omega⟩
  · rintro ⟨h1, h2⟩
    exact ⟨h1, by omega⟩

/-- Counterexample to C10 as stated: exactly 60 s after the connection id 42
was received, connect does not return without I/O: it writes a Connect
request carrying the magic connection id, reads the response, and the stored
connection id becomes 7, the one of the response. -/
theorem udpAnnounce_connect_counterexample :
    (1060 * time.Second - exampleUdpAnnounce.connectionIdReceived = 60 * time.Second)
    ∧ exampleUdpAnnounce.connectionId = 42
    ∧ (exampleUdpAnnounce.connect exampleSplitHostMaybePort (1060 * time.Second)
        exampleNet).events
        = [IOEvent.write (bigEndian 8 0x41727101980 ++ bigEndian 4 0 ++ bigEndian 4 5),
           IOEvent.setReadDeadline (15 * time.Second),
           IOEvent.read (ReadResult.data (bigEndian 4 0 ++ bigEndian 4 5 ++ bigEndian 8 7))]
    ∧ (exampleUdpAnnounce.connect exampleSplitHostMaybePort (1060 * time.Second)
        exampleNet).result
        = some ({ exampleUdpAnnounce with connectionId := 7,
                                          connectionIdReceived := 1061 * time.Second }, none)
    ∧ (exampleUdpAnnounce.connect exampleSplitHostMaybePort (1060 * time.Second - 1)
        exampleNet)
        = { events := [], result := some (exampleUdpAnnounce, none) } := by
  refine ⟨by decide, by decide, by decide, by decide, by decide⟩

end tracker

namespace tracker

theorem requestLoop_some (tid cT : Int) (reads : List ReadResult) (n : Int)
    (buf : Option (List (Fin 256))) (err : Option Error)
    (h : (requestLoop tid cT reads).2 = some (n, buf, err)) :
    (∃ e, buf = none ∧ err = some (Error.Wrap e "reading from socket"))
    ∨ (∃ pre d rest, reads = pre ++ ReadResult.data d :: rest
        ∧ 8 ≤ (d.take 0x800).length
        ∧ decodeInt32 (((d.take 0x800).drop 4).take 4) = tid
        ∧ buf = some ((d.take 0x800).drop 8)
        ∧ n = 0
        ∧ err = (if decodeInt32 ((d.take 0x800).take 4) = ActionError
                  then some (Error.New ((d.take 0x800).drop 8)) else none)) := by
  induction reads with
  | nil => simp [requestLoop] at h
  | cons r rest ih =>
    cases r with
    | err e =>
      simp only [requestLoop, Option.some.injEq, Prod.mk.injEq] at h
      exact Or.inl ⟨e, h.2.1.symm, h.2.2.symm⟩
    | data bytes =>
      simp only [requestLoop] at h
      by_cases h1 : (List.take 0x800 bytes).length < 8
      · rw [if_pos h1] at h
        rcases ih h with hl | ⟨pre, d, rest2, hr, hrest⟩
        · exact Or.inl hl
        · exact Or.inr ⟨ReadResult.data bytes :: pre, d, rest2, by rw [hr]; rfl, hrest⟩
      · rw [if_neg h1] at h
        by_cases h2 : decodeInt32 (List.take 4 (List.drop 4 (List.take 0x800 bytes))) ≠ tid
        · rw [if_pos h2] at h
          rcases ih h with hl | ⟨pre, d, rest2, hr, hrest⟩
          · exact Or.inl hl
          · exact Or.inr ⟨ReadResult.data bytes :: pre, d, rest2, by rw [hr]; rfl, hrest⟩
        · rw [if_neg h2] at h
          simp only [Option.some.injEq, Prod.mk.injEq] at h
          refine Or.inr ⟨[], bytes, rest, rfl, by omega, not_not.1 h2, h.2.1.symm, h.1.symm, ?_⟩
          exact h.2.2.symm

theorem request_events (c : udpAnnounce) (action : Action) (net : Net) :
    ∃ tl, (c.request action none [] net).events
      = IOEvent.write (RequestHeader.encode
          { ConnectionId := c.connectionId, Action := action, TransactionId := net.tid }) :: tl := by
  unfold udpAnnounce.request udpAnnounce.write errorsx.Wrap
  cases net.writeErr with
  | none =>
    exact ⟨IOEvent.setReadDeadline (timeout c.contiguousTimeouts)
      :: (requestLoop net.tid c.contiguousTimeouts net.reads).1, by simp⟩
  | some e => exact ⟨[], by simp⟩

theorem request_write_first (c : udpAnnounce) (action : Action)
    (args : Option (List (Fin 256))) (options : List (Fin 256)) (net : Net) :
    (c.request action args options net).events.head?
      = some (IOEvent.write (RequestHeader.encode
          { ConnectionId := c.connectionId, Action := action, TransactionId := net.tid }
          ++ (match args with | none => [] | some b => b) ++ options)) := by
  unfold udpAnnounce.request udpAnnounce.write errorsx.Wrap
  cases net.writeErr <;> simp

theorem request_result (c : udpAnnounce) (action : Action) (net : Net) (c1 : udpAnnounce)
    (buf : Option (List (Fin 256))) (err : Option Error)
    (h : (c.request action none [] net).result = some (c1, buf, err)) :
    (buf = none ∧ err ≠ none)
    ∨ (net.writeErr = none ∧ c1 = { c with contiguousTimeouts := 0 }
        ∧ ∃ pre d rest, net.reads = pre ++ ReadResult.data d :: rest
        ∧ 8 ≤ (d.take 0x800).length
        ∧ decodeInt32 (((d.take 0x800).drop 4).take 4) = net.tid
        ∧ buf = some ((d.take 0x800).drop 8)
        ∧ err = (if decodeInt32 ((d.take 0x800).take 4) = ActionError
                  then some (Error.New ((d.take 0x800).drop 8)) else none)) := by
  unfold udpAnnounce.request udpAnnounce.write errorsx.Wrap at h
  cases hw : net.writeErr with
  | some e =>
    rw [hw] at h
    simp only [Option.some.injEq, Prod.mk.injEq] at h
    exact Or.inl ⟨h.2.1.symm, by rw [← h.2.2]; simp⟩
  | none =>
    rw [hw] at h
    simp only at h
    cases hr : (requestLoop net.tid c.contiguousTimeouts net.reads).2 with
    | none => rw [hr] at h; simp at h
    | some v =>
      obtain ⟨n, b, e⟩ := v
      rw [hr] at h
      simp only [Option.some.injEq, Prod.mk.injEq] at h
      obtain ⟨hc, hb, he⟩ := h
      subst hb he
      rcases requestLoop_some _ _ _ _ _ _ hr with ⟨e2, hb2, he2⟩ | ⟨pre, d, rest, a1, a2, a3, a4, a5, a6⟩
      · exact Or.inl ⟨hb2, by rw [he2]; simp⟩
      · refine Or.inr ⟨rfl, ?_, pre, d, rest, a1, a2, a3, a4, a6⟩
        rw [← hc, a5]

end tracker

namespace tracker

theorem connectRequest_events (c : udpAnnounce) (net : Net) :
    (udpAnnounce.connectRequest c net).events = (c.request ActionConnect none [] net).events := by
  unfold udpAnnounce.connectRequest
  simp only
  split
  · rfl
  · rfl
  · rfl
  · split
    · rfl
    · split <;> rfl

theorem connectRequest_success (c : udpAnnounce) (net : Net) (c2 : udpAnnounce)
    (h : (udpAnnounce.connectRequest c net).result = some (c2, none)) :
    net.writeErr = none
    ∧ ∃ pre d rest, net.reads = pre ++ ReadResult.data d :: rest
      ∧ 16 ≤ (d.take 0x800).length
      ∧ decodeInt32 (((d.take 0x800).drop 4).take 4) = net.tid
      ∧ decodeInt32 ((d.take 0x800).take 4) ≠ ActionError
      ∧ c2 = { c with contiguousTimeouts := 0,
                      connectionId := decodeInt64 (((d.take 0x800).drop 8).take 8),
                      connectionIdReceived := net.nowReceived } := by
  unfold udpAnnounce.connectRequest at h
  simp only at h
  cases hr : (c.request ActionConnect none [] net).result with
  | none => rw [hr] at h; simp at h
  | some v =>
    obtain ⟨c1, buf, err⟩ := v
    rw [hr] at h
    rcases request_result c ActionConnect net c1 buf err hr with
      ⟨hb, he⟩ | ⟨hw, hc1, pre, d, rest, a1, a2, a3, a4, a5⟩
    · subst hb
      cases err with
      | none => exact absurd rfl he
      | some e => simp at h
    · subst a4
      cases err with
      | some e => simp at h
      | none =>
        simp only at h
        have hne : decodeInt32 ((d.take 0x800).take 4) ≠ ActionError := by
          intro hact
          rw [if_pos hact] at a5
          exact absurd a5 (by simp)
        by_cases hz : ((d.take 0x800).drop 8).length = 0
        · rw [if_pos hz] at h; simp at h
        · rw [if_neg hz] at h
          by_cases h8 : ((d.take 0x800).drop 8).length < 8
          · rw [if_pos h8] at h; simp at h
          · rw [if_neg h8] at h
            simp only [Option.some.injEq, Prod.mk.injEq, and_true] at h
            refine ⟨hw, pre, d, rest, a1, ?_, a3, hne, ?_⟩
            · rw [List.length_drop] at h8
              omega
            · rw [← h, hc1]

theorem connectRequest_progress (c : udpAnnounce) (net : Net) (d : List (Fin 256))
    (rest : List ReadResult) (hw : net.writeErr = none)
    (hreads : net.reads = ReadResult.data d :: rest)
    (hlen : 16 ≤ (d.take 0x800).length)
    (htid : decodeInt32 (((d.take 0x800).drop 4).take 4) = net.tid)
    (hact : decodeInt32 ((d.take 0x800).take 4) ≠ ActionError) :
    (udpAnnounce.connectRequest c net).result
      = some ({ c with contiguousTimeouts := 0,
                       connectionId := decodeInt64 (((d.take 0x800).drop 8).take 8),
                       connectionIdReceived := net.nowReceived }, none) := by
  have h8 : ¬ ((d.take 0x800).length < 8) := by omega
  have hd0 : ¬ (((d.take 0x800).drop 8).length = 0) := by rw [List.length_drop]; omega
  have hd8 : ¬ (((d.take 0x800).drop 8).length < 8) := by rw [List.length_drop]; omega
  have hreq : (c.request ActionConnect none [] net).result
      = some ({ c with contiguousTimeouts := 0 }, some ((d.take 0x800).drop 8), none) := by
    unfold udpAnnounce.request udpAnnounce.write errorsx.Wrap
    rw [hw, hreads]
    simp only [requestLoop]
    rw [if_neg h8, if_neg (not_not.2 htid), if_neg hact]
  unfold udpAnnounce.connectRequest
  simp only
  rw [hreq]
  simp only
  rw [if_neg hd0, if_neg hd8]

end tracker

namespace tracker

theorem connect_connected (S : String → missinggo.HostMaybePort) (c : udpAnnounce)
    (now : Int) (net : Net) (h : c.connected now = true) :
    c.connect S now net = { events := [], result := some (c, none) } := by
  unfold udpAnnounce.connect
  rw [if_pos h]

theorem connect_socket (S : String → missinggo.HostMaybePort) (c : udpAnnounce) (now : Int)
    (net : Net) (s : Socket) (h : c.connected now = false) (hs : c.socket = some s) :
    c.connect S now net
      = udpAnnounce.connectRequest { c with connectionId := connectRequestConnectionId } net := by
  unfold udpAnnounce.connect
  rw [h]
  simp only [Bool.false_eq_true, if_false, hs]

/-- The address that connect dials, written out: the host of the split and
its port, or 80 when the split found no port, joined by a colon, the host in
square brackets when it contains a colon. -/
theorem dial_address (hmp : missinggo.HostMaybePort) :
    (if hmp.NoPort then { hmp with NoPort := false, Port := 80 } else hmp).String
      = (if hmp.Host.data.contains ':'
          then "[" ++ hmp.Host ++ "]:" ++ (if hmp.NoPort then "80" else toString hmp.Port)
          else hmp.Host ++ ":" ++ (if hmp.NoPort then "80" else toString hmp.Port)) := by
  unfold missinggo.HostMaybePort.String net.JoinHostPort
  cases hn : hmp.NoPort with
  | true => simp only [if_true, Bool.false_eq_true, if_false]; rfl
  | false => simp only [Bool.false_eq_true, if_false, hn]

theorem connect_dial_ok (S : String → missinggo.HostMaybePort) (c : udpAnnounce) (now : Int)
    (net : Net) (s : Socket)
    (h : c.connected now = false) (hs : c.socket = none) (hd : net.dial = .ok s) :
    (c.connect S now net).events
        = IOEvent.dial "udp"
            (if (S c.url.Host).NoPort then { S c.url.Host with NoPort := false, Port := 80 }
              else S c.url.Host).String
          :: (udpAnnounce.connectRequest
              { c with connectionId := connectRequestConnectionId, socket := some s } net).events
    ∧ (c.connect S now net).result
        = (udpAnnounce.connectRequest
            { c with connectionId := connectRequestConnectionId, socket := some s } net).result := by
  unfold udpAnnounce.connect
  rw [h]
  simp only [Bool.false_eq_true, if_false, hs, hd]
  exact ⟨rfl, trivial⟩

theorem connect_dial_error (S : String → missinggo.HostMaybePort) (c : udpAnnounce) (now : Int)
    (net : Net) (e : Error)
    (h : c.connected now = false) (hs : c.socket = none) (hd : net.dial = .error e) :
    c.connect S now net
      = { events := [IOEvent.dial "udp"
            (if (S c.url.Host).NoPort then { S c.url.Host with NoPort := false, Port := 80 }
              else S c.url.Host).String],
          result := some ({ c with connectionId := connectRequestConnectionId }, some e) } := by
  unfold udpAnnounce.connect
  rw [h]
  simp only [Bool.false_eq_true, if_false, hs, hd]
  rfl

theorem connectRequest_write (c : udpAnnounce) (net : Net) :
    ∃ tl, (udpAnnounce.connectRequest c net).events
      = IOEvent.write (RequestHeader.encode
          { ConnectionId := c.connectionId, Action := ActionConnect,
            TransactionId := net.tid }) :: tl := by
  rw [connectRequest_events]
  exact request_events c ActionConnect net

theorem requestLoop_events_read (tid cT : Int) (reads : List ReadResult) :
    ∀ ev ∈ (requestLoop tid cT reads).1, ∃ r, ev = IOEvent.read r := by
  induction reads with
  | nil => intro ev hev; simp [requestLoop] at hev
  | cons r rest ih =>
    intro ev hev
    cases r with
    | err e =>
      simp only [requestLoop, List.mem_singleton] at hev
      exact ⟨_, hev⟩
    | data bytes =>
      simp only [requestLoop] at hev
      by_cases h1 : (List.take 0x800 bytes).length < 8
      · rw [if_pos h1] at hev
        rcases List.mem_cons.1 hev with h | h
        · exact ⟨_, h⟩
        · exact ih ev h
      · rw [if_neg h1] at hev
        by_cases h2 : decodeInt32 (List.take 4 (List.drop 4 (List.take 0x800 bytes))) ≠ tid
        · rw [if_pos h2] at hev
          rcases List.mem_cons.1 hev with h | h
          · exact ⟨_, h⟩
          · exact ih ev h
        · rw [if_neg h2] at hev
          simp only [List.mem_singleton] at hev
          exact ⟨_, hev⟩

theorem connectRequest_no_dial (c : udpAnnounce) (net : Net) (network address : String) :
    IOEvent.dial network address ∉ (udpAnnounce.connectRequest c net).events := by
  rw [connectRequest_events]
  unfold udpAnnounce.request udpAnnounce.write errorsx.Wrap
  cases net.writeErr with
  | some e => simp
  | none =>
    simp only [List.append_assoc, List.mem_append, List.mem_singleton, List.mem_cons, not_or]
    refine ⟨by simp, by simp, ?_⟩
    intro hmem
    obtain ⟨r, hr⟩ := requestLoop_events_read _ _ _ _ hmem
    exact absurd hr (by simp)

theorem request_keeps_socket (c : udpAnnounce) (action : Action)
    (args : Option (List (Fin 256))) (options : List (Fin 256)) (net : Net) (c1 : udpAnnounce)
    (v : Option (List (Fin 256)) × Option Error)
    (h : (c.request action args options net).result = some (c1, v)) :
    c1.socket = c.socket := by
  unfold udpAnnounce.request udpAnnounce.write errorsx.Wrap at h
  cases hw : net.writeErr with
  | some e =>
    rw [hw] at h
    simp only [Option.some.injEq, Prod.mk.injEq] at h
    rw [← h.1]
  | none =>
    rw [hw] at h
    simp only at h
    cases hr : (requestLoop net.tid c.contiguousTimeouts net.reads).2 with
    | none => rw [hr] at h; simp at h
    | some w =>
      obtain ⟨n, b, e⟩ := w
      rw [hr] at h
      simp only [Option.some.injEq, Prod.mk.injEq] at h
      rw [← h.1]

theorem connectRequest_keeps_socket (c : udpAnnounce) (net : Net) (c2 : udpAnnounce)
    (err : Option Error) (h : (udpAnnounce.connectRequest c net).result = some (c2, err)) :
    c2.socket = c.socket := by
  unfold udpAnnounce.connectRequest at h
  simp only at h
  cases hr : (c.request ActionConnect none [] net).result with
  | none => rw [hr] at h; simp at h
  | some v =>
    obtain ⟨c1, buf, e⟩ := v
    have hs := request_keeps_socket c ActionConnect none [] net c1 (buf, e) hr
    rw [hr] at h
    cases e with
    | some e1 =>
      simp only [Option.some.injEq, Prod.mk.injEq] at h
      rw [← h.1, hs]
    | none =>
      cases buf with
      | none =>
        simp only [Option.some.injEq, Prod.mk.injEq] at h
        rw [← h.1, hs]
      | some b =>
        simp only at h
        by_cases hz : b.length = 0
        · rw [if_pos hz] at h
          simp only [Option.some.injEq, Prod.mk.injEq] at h
          rw [← h.1, hs]
        · rw [if_neg hz] at h
          by_cases h8 : b.length < 8
          · rw [if_pos h8] at h
            simp only [Option.some.injEq, Prod.mk.injEq] at h
            rw [← h.1, hs]
          · rw [if_neg h8] at h
            simp only [Option.some.injEq, Prod.mk.injEq] at h
            rw [← h.1]
            exact hs

/-- An example of the dial: a state without connection id and socket whose
URL has the host tracker.example, which names no port, dials
tracker.example:80 and then sends the Connect request; the state with a
socket at the host tracker.example:6969 sends the Connect request without
dialing. -/
theorem connect_dial_example :
    (exampleUdpAnnounceNew.connect exampleSplitHostMaybePort 0 exampleNet).events
        = [IOEvent.dial "udp" "tracker.example:80",
           IOEvent.write (bigEndian 8 0x41727101980 ++ bigEndian 4 0 ++ bigEndian 4 5),
           IOEvent.setReadDeadline (15 * time.Second),
           IOEvent.read (ReadResult.data (bigEndian 4 0 ++ bigEndian 4 5 ++ bigEndian 8 7))]
    ∧ (exampleUdpAnnounceNew.connect exampleSplitHostMaybePort 0 exampleNet).result
        = some ({ exampleUdpAnnounceNew with socket := some 1,
                                             connectionId := 7,
                                             connectionIdReceived := 1061 * time.Second }, none)
    ∧ (exampleUdpAnnounceNew.connect exampleSplitHostMaybePort 0 exampleNetUnreachable).events
        = [IOEvent.dial "udp" "tracker.example:80"]
    ∧ (exampleUdpAnnounceNew.connect exampleSplitHostMaybePort 0 exampleNetUnreachable).result
        = some ({ exampleUdpAnnounceNew with connectionId := 0x41727101980 },
            some (Error.other "no route")) := by
  refine ⟨by decide, by decide, by decide, by decide⟩

/-- C10, as the code has it: connect returns nil without any I/O and leaves
the state (the stored connection id included) unchanged exactly when a
connection id has been received and less than 60 s have elapsed since; when
none has been received or at least 60 s have elapsed (so also at exactly
60 s) it does I/O; after a return without I/O the Announce request that
follows carries the stored connection id. Without a socket it dials first:
the first event is the dial, over udp, of the host and port that
SplitHostMaybePort finds in the host of the URL, with port 80 when it finds
no port, and no later event is a dial; a dial that fails is the only event
and its error is returned; after a dial that succeeds the next event is the
Connect request carrying the magic connection id, and the state returned
has the dialed socket. With a socket it does not dial and the first event is
that Connect request. When connect then succeeds, the stored connection id is the one of a response whose
transaction id is that of the request and the receive time is reset; and it
does succeed when the first datagram read is such a response. -/
theorem udpAnnounce_connect_spec (S : String → missinggo.HostMaybePort) (c : udpAnnounce)
    (now : Int) (net : Net) :
    (c.connected now = true
        ↔ (c.connectionIdReceived ≠ 0 ∧ now - c.connectionIdReceived < 60 * time.Second))
    ∧ (c.connected now = true →
        c.connect S now net = { events := [], result := some (c, none) })
    ∧ (c.connected now = true → ∀ (body options : List (Fin 256)) (net2 : Net),
        ∃ c2, (c.connect S now net).result = some (c2, none)
          ∧ c2.connectionId = c.connectionId
          ∧ (c2.request ActionAnnounce (some body) options net2).events.head?
              = some (IOEvent.write (RequestHeader.encode
                  { ConnectionId := c.connectionId, Action := ActionAnnounce,
                    TransactionId := net2.tid } ++ body ++ options)))
    ∧ (c.connected now = false → (c.connect S now net).events ≠ [])
    ∧ (IOEvent.write (RequestHeader.encode
          { ConnectionId := connectRequestConnectionId, Action := ActionConnect,
            TransactionId := net.tid }) ∈ (c.connect S now net).events
        ↔ (c.connected now = false ∧ (c.socket ≠ none ∨ ∃ s, net.dial = .ok s)))
    ∧ (∀ c2, c.connected now = false → (c.connect S now net).result = some (c2, none) →
        c2.connectionIdReceived = net.nowReceived
        ∧ ∃ pre d rest, net.reads = pre ++ ReadResult.data d :: rest
          ∧ 16 ≤ (d.take 0x800).length
          ∧ decodeInt32 (((d.take 0x800).drop 4).take 4) = net.tid
          ∧ c2.connectionId = decodeInt64 (((d.take 0x800).drop 8).take 8))
    ∧ (∀ d rest, c.connected now = false → (c.socket ≠ none ∨ ∃ s, net.dial = .ok s) →
        net.writeErr = none → net.reads = ReadResult.data d :: rest →
        16 ≤ (d.take 0x800).length →
        decodeInt32 (((d.take 0x800).drop 4).take 4) = net.tid →
        decodeInt32 ((d.take 0x800).take 4) ≠ ActionError →
        ∃ c2, (c.connect S now net).result = some (c2, none)
          ∧ c2.connectionId = decodeInt64 (((d.take 0x800).drop 8).take 8)
          ∧ c2.connectionIdReceived = net.nowReceived)
    ∧ (c.connected now = false → c.socket = none →
        ∃ tl, (c.connect S now net).events
            = IOEvent.dial "udp"
                (if (S c.url.Host).Host.data.contains ':'
                  then "[" ++ (S c.url.Host).Host ++ "]:"
                    ++ (if (S c.url.Host).NoPort then "80" else toString (S c.url.Host).Port)
                  else (S c.url.Host).Host ++ ":"
                    ++ (if (S c.url.Host).NoPort then "80" else toString (S c.url.Host).Port))
              :: tl
          ∧ (∀ network address, IOEvent.dial network address ∉ tl)
          ∧ (∀ e, net.dial = .error e →
              tl = []
              ∧ (c.connect S now net).result
                  = some ({ c with connectionId := connectRequestConnectionId }, some e))
          ∧ (∀ s, net.dial = .ok s →
              (∃ tl2, tl = IOEvent.write (RequestHeader.encode
                  { ConnectionId := connectRequestConnectionId, Action := ActionConnect,
                    TransactionId := net.tid }) :: tl2)
              ∧ ∀ c2 err, (c.connect S now net).result = some (c2, err) →
                  c2.socket = some s))
    ∧ (c.connected now = false → c.socket ≠ none →
        (∀ network address, IOEvent.dial network address ∉ (c.connect S now net).events)
        ∧ (∃ tl, (c.connect S now net).events
            = IOEvent.write (RequestHeader.encode
                { ConnectionId := connectRequestConnectionId, Action := ActionConnect,
                  TransactionId := net.tid }) :: tl)
        ∧ ∀ c2 err, (c.connect S now net).result = some (c2, err) → c2.socket = c.socket) := by
  refine ⟨connected_iff c now, connect_connected S c now net, ?_, ?_, ?_, ?_, ?_, ?_, ?_⟩
  · intro hc body options net2
    rw [connect_connected S c now net hc]
    exact ⟨c, rfl, rfl, request_write_first c ActionAnnounce (some body) options net2⟩
  · intro hc
    cases hs : c.socket with
    | some s =>
      rw [connect_socket S c now net s hc hs]
      obtain ⟨tl, htl⟩ := connectRequest_write
        { c with connectionId := connectRequestConnectionId } net
      rw [htl]; simp
    | none =>
      cases hd : net.dial with
      | error e => rw [connect_dial_error S c now net e hc hs hd]; simp
      | ok s => rw [(connect_dial_ok S c now net s hc hs hd).1]; simp
  · cases hc : c.connected now with
    | true => rw [connect_connected S c now net hc]; simp
    | false =>
      cases hs : c.socket with
      | some s =>
        rw [connect_socket S c now net s hc hs]
        obtain ⟨tl, htl⟩ := connectRequest_write
          { c with connectionId := connectRequestConnectionId } net
        rw [htl]; simp
      | none =>
        cases hd : net.dial with
        | error e =>
          rw [connect_dial_error S c now net e hc hs hd]
          simp
        | ok s =>
          rw [(connect_dial_ok S c now net s hc hs hd).1]
          obtain ⟨tl, htl⟩ := connectRequest_write
            { c with connectionId := connectRequestConnectionId, socket := some s } net
          rw [htl]; simp
  · intro c2 hc hres
    have key : ∀ c1 : udpAnnounce, (udpAnnounce.connectRequest c1 net).result = some (c2, none) →
        c2.connectionIdReceived = net.nowReceived
        ∧ ∃ pre d rest, net.reads = pre ++ ReadResult.data d :: rest
          ∧ 16 ≤ (d.take 0x800).length
          ∧ decodeInt32 (((d.take 0x800).drop 4).take 4) = net.tid
          ∧ c2.connectionId = decodeInt64 (((d.take 0x800).drop 8).take 8) := by
      intro c1 h1
      obtain ⟨_, pre, d, rest, a1, a2, a3, _, a5⟩ := connectRequest_success c1 net c2 h1
      exact ⟨by rw [a5], pre, d, rest, a1, a2, a3, by rw [a5]⟩
    cases hs : c.socket with
    | some s =>
      rw [connect_socket S c now net s hc hs] at hres
      exact key _ hres
    | none =>
      cases hd : net.dial with
      | error e =>
        rw [connect_dial_error S c now net e hc hs hd] at hres
        simp at hres
      | ok s =>
        rw [(connect_dial_ok S c now net s hc hs hd).2] at hres
        exact key _ hres
  · intro d rest hc hsock hw hreads hlen htid hact
    cases hs : c.socket with
    | some s =>
      rw [connect_socket S c now net s hc hs,
        connectRequest_progress _ net d rest hw hreads hlen htid hact]
      exact ⟨_, rfl, rfl, rfl⟩
    | none =>
      rcases hsock with h | ⟨s, hd⟩
      · exact absurd hs h
      · rw [(connect_dial_ok S c now net s hc hs hd).2,
          connectRequest_progress _ net d rest hw hreads hlen htid hact]
        exact ⟨_, rfl, rfl, rfl⟩
  · intro hc hs
    rw [← dial_address (S c.url.Host)]
    cases hd : net.dial with
    | error e =>
      refine ⟨[], ?_, ?_, ?_, ?_⟩
      · rw [connect_dial_error S c now net e hc hs hd]
      · intro network address hmem
        exact absurd hmem (List.not_mem_nil _)
      · intro e2 he2
        rw [connect_dial_error S c now net e hc hs hd]
        have : e = e2 := by
          have h2 : (Except.error e : Except Error Socket) = Except.error e2 := he2
          exact Except.error.inj h2
        rw [this]
        exact ⟨rfl, rfl⟩
      · intro s hs2
        exact absurd hs2 (by simp)
    | ok s =>
      refine ⟨_, (connect_dial_ok S c now net s hc hs hd).1, ?_, ?_, ?_⟩
      · intro network address
        exact connectRequest_no_dial _ net network address
      · intro e he
        exact absurd he (by simp)
      · intro s2 hs2
        have hss : s = s2 := by
          have h2 : (Except.ok s : Except Error Socket) = Except.ok s2 := hs2
          exact Except.ok.inj h2
        subst hss
        refine ⟨connectRequest_write
          { c with connectionId := connectRequestConnectionId, socket := some s } net, ?_⟩
        intro c2 err hres
        rw [(connect_dial_ok S c now net s hc hs hd).2] at hres
        exact connectRequest_keeps_socket _ net c2 err hres
  · intro hc hs
    cases hsk : c.socket with
    | none => exact absurd hsk hs
    | some s =>
      rw [connect_socket S c now net s hc hsk]
      refine ⟨fun network address => connectRequest_no_dial _ net network address,
        connectRequest_write { c with connectionId := connectRequestConnectionId } net, ?_⟩
      intro c2 err hres
      rw [connectRequest_keeps_socket _ net c2 err hres]
      exact hsk

end tracker

namespace torrent

theorem chunk_floor (r C : Int) (hr : 0 ≤ r) (hC : 0 < C) :
    0 ≤ r / C * C ∧ r / C * C ≤ r ∧ r < r / C * C + C := by
  have h1 := Int.ediv_add_emod r C
  have h2 := Int.emod_nonneg r (ne_of_gt hC)
  have h3 := Int.emod_lt_of_pos r hC
  have h4 : r / C * C = C * (r / C) := mul_comm _ _
  have h5 : 0 ≤ r / C * C := mul_nonneg (Int.ediv_nonneg hr (le_of_lt hC)) (le_of_lt hC)
  refine ⟨h5, ?_, ?_⟩ <;> omega

/-- C11: for every offset off into a torrent of total length T with piece
length P and chunk length C (all positive), torrentOffsetRequest(T, P, C, off)
is ok iff 0 <= off < T; when ok it returns piece = off / P,
begin = ((off mod P) / C) * C and length = min(C, P - begin,
T - (piece * P + begin)), a chunk of positive length that holds the offset
and ends within its piece and within the torrent; when not ok it returns the
zero request. For T = 472183431, P = 2^18, C = 16384: off -1 and 472 * 2^20
are not ok, off 0, 1 and 16383 give (0, 0, 16384), off 16384 gives
(0, 16384, 16384), off 2^18 - 1 gives (0, 2^18 - 16384, 16384), and off T - 1
gives (1801, 49152, 12935). -/
theorem torrentOffsetRequest_spec (T P C off : Int) (hP : 0 < P) (hC : 0 < C) :
    ((torrentOffsetRequest T P C off).2 = true ↔ (0 ≤ off ∧ off < T))
    ∧ (0 ≤ off → off < T →
        (torrentOffsetRequest T P C off).1
          = { Index := off / P
              Begin := off % P / C * C
              Length := min C (min (P - off % P / C * C)
                          (T - (off / P * P + off % P / C * C))) })
    ∧ (¬ (0 ≤ off ∧ off < T) → torrentOffsetRequest T P C off = (request.zero, false))
    ∧ (0 ≤ off → off < T →
        0 < (torrentOffsetRequest T P C off).1.Length
        ∧ (torrentOffsetRequest T P C off).1.Length ≤ C
        ∧ 0 ≤ (torrentOffsetRequest T P C off).1.Begin
        ∧ (torrentOffsetRequest T P C off).1.Begin
            + (torrentOffsetRequest T P C off).1.Length ≤ P
        ∧ (torrentOffsetRequest T P C off).1.Index * P
            + (torrentOffsetRequest T P C off).1.Begin ≤ off
        ∧ off < (torrentOffsetRequest T P C off).1.Index * P
            + (torrentOffsetRequest T P C off).1.Begin
            + (torrentOffsetRequest T P C off).1.Length
        ∧ (torrentOffsetRequest T P C off).1.Index * P
            + (torrentOffsetRequest T P C off).1.Begin
            + (torrentOffsetRequest T P C off).1.Length ≤ T)
    ∧ torrentOffsetRequest 472183431 (2 ^ 18) 16384 (-1) = (request.zero, false)
    ∧ torrentOffsetRequest 472183431 (2 ^ 18) 16384 (472 * 2 ^ 20) = (request.zero, false)
    ∧ torrentOffsetRequest 472183431 (2 ^ 18) 16384 0 = (newRequest 0 0 16384, true)
    ∧ torrentOffsetRequest 472183431 (2 ^ 18) 16384 1 = (newRequest 0 0 16384, true)
    ∧ torrentOffsetRequest 472183431 (2 ^ 18) 16384 16383 = (newRequest 0 0 16384, true)
    ∧ torrentOffsetRequest 472183431 (2 ^ 18) 16384 16384 = (newRequest 0 16384 16384, true)
    ∧ torrentOffsetRequest 472183431 (2 ^ 18) 16384 (2 ^ 18 - 1)
        = (newRequest 0 (2 ^ 18 - 16384) 16384, true)
    ∧ torrentOffsetRequest 472183431 (2 ^ 18) 16384 (472183431 - 1)
        = (newRequest 1801 49152 12935, true) := by
  have hval : ∀ (h0 : 0 ≤ off) (h1 : off < T),
      torrentOffsetRequest T P C off
        = ({ Index := off / P
             Begin := off % P / C * C
             Length := min C (min (P - off % P / C * C)
                         (T - (off / P * P + off % P / C * C))) }, true) := by
    intro h0 h1
    unfold torrentOffsetRequest
    rw [if_neg (by omega)]
    simp only [Prod.mk.injEq, request.mk.injEq, true_and, and_true]
    generalize off % P / C * C = b
    generalize off / P * P = a
    split_ifs <;> omega
  have hr0 := Int.emod_nonneg off (ne_of_gt hP)
  have hr1 := Int.emod_lt_of_pos off hP
  have hq := Int.ediv_add_emod off P
  have hqc : off / P * P = P * (off / P) := mul_comm _ _
  have hb := chunk_floor (off % P) C hr0 hC
  refine ⟨?_, ?_, ?_, ?_, by decide, by decide, by decide, by decide, by decide, by decide,
    by decide, by decide⟩
  · constructor
    · intro h
      by_contra hn
      unfold torrentOffsetRequest at h
      rw [if_pos (by omega)] at h
      exact absurd h (by decide)
    · rintro ⟨h0, h1⟩
      rw [hval h0 h1]
  · intro h0 h1
    rw [hval h0 h1]
  · intro hn
    unfold torrentOffsetRequest
    rw [if_pos (by omega)]
  · intro h0 h1
    rw [hval h0 h1]
    simp only
    generalize off % P / C * C = b at hb ⊢
    generalize off / P * P = a at hqc ⊢
    omega

/-- Witness for C11: the torrent of the test, at the offset one before its
end. -/
theorem torrentOffsetRequest_spec_witness :
    torrentOffsetRequest 472183431 (2 ^ 18) 16384 (472183431 - 1)
      = (newRequest 1801 49152 12935, true) :=
  (torrentOffsetRequest_spec 472183431 (2 ^ 18) 16384 0 (by decide)
    (by decide)).2.2.2.2.2.2.2.2.2.2.2

end torrent

namespace tracker

theorem bigEndian_length (n : Nat) (x : Int) : (bigEndian n x).length = n := by
  induction n generalizing x with
  | zero => rfl
  | succ n ih => simp [bigEndian, ih]

theorem emod_mul_256 (x m : Int) (hm : 0 < m) :
    x % (m * 256) = (x / 256 % m) * 256 + x % 256 := by
  have h1 := Int.ediv_add_emod x 256
  have h2 := Int.ediv_add_emod (x / 256) m
  have h3 := Int.emod_nonneg (x / 256) (ne_of_gt hm)
  have h4 := Int.emod_lt_of_pos (x / 256) hm
  have h5 := Int.emod_nonneg x (by decide : (256 : Int) ≠ 0)
  have h6 := Int.emod_lt_of_pos x (by decide : (0 : Int) < 256)
  have hx : x = (x / 256 % m) * 256 + x % 256 + (x / 256 / m) * (m * 256) := by
    linear_combination (-1 : Int) * h1 - 256 * h2
  have hmod : x % (m * 256) = ((x / 256 % m) * 256 + x % 256) % (m * 256) := by
    conv_lhs => rw [hx]
    exact Int.add_mul_emod_self
  rw [hmod]
  exact Int.emod_eq_of_lt (by omega) (by omega)

theorem fromBigEndian_concat (l : List (Fin 256)) (b : Fin 256) :
    fromBigEndian (l ++ [b]) = fromBigEndian l * 256 + b.val := by
  unfold fromBigEndian
  rw [List.foldl_append]
  rfl

theorem fromBigEndian_bigEndian (n : Nat) (x : Int) :
    (fromBigEndian (bigEndian n x) : Int) = x % 256 ^ n := by
  induction n generalizing x with
  | zero => simp [bigEndian, fromBigEndian]
  | succ n ih =>
    have h5 := Int.emod_nonneg x (by decide : (256 : Int) ≠ 0)
    have h6 := Int.emod_lt_of_pos x (by decide : (0 : Int) < 256)
    have hval : ((Fin.ofNat (x % 256).toNat : Fin 256).val : Int) = x % 256 := by
      show (((x % 256).toNat % 256 : Nat) : Int) = x % 256
      omega
    rw [bigEndian, fromBigEndian_concat, pow_succ,
      emod_mul_256 x (256 ^ n) (pow_pos (by decide) n)]
    push_cast
    rw [ih (x / 256), hval]

theorem RequestHeader_encode_length (h : RequestHeader) : h.encode.length = 16 := by
  simp [RequestHeader.encode, bigEndian_length]

theorem AnnounceRequest_encode_length (r : AnnounceRequest) : r.encode.length = 82 := by
  simp [AnnounceRequest.encode, bigEndian_length, r.InfoHash.property, r.PeerId.property]

end tracker

namespace tracker

theorem slice_append {α : Type} (pre mid post : List α) (a b : Nat) (ha : pre.length = a)
    (hb : mid.length = b) : ((pre ++ (mid ++ post)).drop a).take b = mid := by
  rw [List.drop_left' ha]
  exact List.take_left' hb

theorem AnnounceRequest_encode_fields (r : AnnounceRequest) (post : List (Fin 256)) :
    (r.encode ++ post).take 20 = r.InfoHash.val
    ∧ ((r.encode ++ post).drop 20).take 20 = r.PeerId.val
    ∧ ((r.encode ++ post).drop 40).take 8 = bigEndian 8 r.Downloaded
    ∧ ((r.encode ++ post).drop 48).take 8 = bigEndian 8 r.Left
    ∧ ((r.encode ++ post).drop 56).take 8 = bigEndian 8 r.Uploaded
    ∧ ((r.encode ++ post).drop 64).take 4 = bigEndian 4 r.Event
    ∧ ((r.encode ++ post).drop 68).take 4 = bigEndian 4 r.IPAddress
    ∧ ((r.encode ++ post).drop 72).take 4 = bigEndian 4 r.Key
    ∧ ((r.encode ++ post).drop 76).take 4 = bigEndian 4 r.NumWant
    ∧ ((r.encode ++ post).drop 80).take 2 = bigEndian 2 r.Port := by
  have hI := r.InfoHash.property
  have hP := r.PeerId.property
  unfold AnnounceRequest.encode
  refine ⟨?_, ?_, ?_, ?_, ?_, ?_, ?_, ?_, ?_, ?_⟩
  · simp only [List.append_assoc]
    exact List.take_left' hI
  · simp only [List.append_assoc]
    exact slice_append _ _ _ 20 20 hI hP
  · simp only [List.append_assoc]
    rw [← List.append_assoc r.InfoHash.val]
    exact slice_append _ _ _ 40 8 (by simp [hI, hP]) (bigEndian_length _ _)
  · simp only [List.append_assoc]
    rw [← List.append_assoc r.InfoHash.val, ← List.append_assoc (r.InfoHash.val ++ _)]
    exact slice_append _ _ _ 48 8 (by simp [hI, hP, bigEndian_length]) (bigEndian_length _ _)
  · simp only [List.append_assoc]
    rw [← List.append_assoc r.InfoHash.val, ← List.append_assoc (r.InfoHash.val ++ _),
      ← List.append_assoc (r.InfoHash.val ++ _ ++ _)]
    exact slice_append _ _ _ 56 8 (by simp [hI, hP, bigEndian_length]) (bigEndian_length _ _)
  · simp only [List.append_assoc]
    rw [← List.append_assoc r.InfoHash.val, ← List.append_assoc (r.InfoHash.val ++ _),
      ← List.append_assoc (r.InfoHash.val ++ _ ++ _),
      ← List.append_assoc (r.InfoHash.val ++ _ ++ _ ++ _)]
    exact slice_append _ _ _ 64 4 (by simp [hI, hP, bigEndian_length]) (bigEndian_length _ _)
  · simp only [List.append_assoc]
    rw [← List.append_assoc r.InfoHash.val, ← List.append_assoc (r.InfoHash.val ++ _),
      ← List.append_assoc (r.InfoHash.val ++ _ ++ _),
      ← List.append_assoc (r.InfoHash.val ++ _ ++ _ ++ _),
      ← List.append_assoc (r.InfoHash.val ++ _ ++ _ ++ _ ++ _)]
    exact slice_append _ _ _ 68 4 (by simp [hI, hP, bigEndian_length]) (bigEndian_length _ _)
  · simp only [List.append_assoc]
    rw [← List.append_assoc r.InfoHash.val, ← List.append_assoc (r.InfoHash.val ++ _),
      ← List.append_assoc (r.InfoHash.val ++ _ ++ _),
      ← List.append_assoc (r.InfoHash.val ++ _ ++ _ ++ _),
      ← List.append_assoc (r.InfoHash.val ++ _ ++ _ ++ _ ++ _),
      ← List.append_assoc (r.InfoHash.val ++ _ ++ _ ++ _ ++ _ ++ _)]
    exact slice_append _ _ _ 72 4 (by simp [hI, hP, bigEndian_length]) (bigEndian_length _ _)
  · simp only [List.append_assoc]
    rw [← List.append_assoc r.InfoHash.val, ← List.append_assoc (r.InfoHash.val ++ _),
      ← List.append_assoc (r.InfoHash.val ++ _ ++ _),
      ← List.append_assoc (r.InfoHash.val ++ _ ++ _ ++ _),
      ← List.append_assoc (r.InfoHash.val ++ _ ++ _ ++ _ ++ _),
      ← List.append_assoc (r.InfoHash.val ++ _ ++ _ ++ _ ++ _ ++ _),
      ← List.append_assoc (r.InfoHash.val ++ _ ++ _ ++ _ ++ _ ++ _ ++ _)]
    exact slice_append _ _ _ 76 4 (by simp [hI, hP, bigEndian_length]) (bigEndian_length _ _)
  · simp only [List.append_assoc]
    rw [← List.append_assoc r.InfoHash.val, ← List.append_assoc (r.InfoHash.val ++ _),
      ← List.append_assoc (r.InfoHash.val ++ _ ++ _),
      ← List.append_assoc (r.InfoHash.val ++ _ ++ _ ++ _),
      ← List.append_assoc (r.InfoHash.val ++ _ ++ _ ++ _ ++ _),
      ← List.append_assoc (r.InfoHash.val ++ _ ++ _ ++ _ ++ _ ++ _),
      ← List.append_assoc (r.InfoHash.val ++ _ ++ _ ++ _ ++ _ ++ _ ++ _),
      ← List.append_assoc (r.InfoHash.val ++ _ ++ _ ++ _ ++ _ ++ _ ++ _ ++ _)]
    exact slice_append _ _ _ 80 2 (by simp [hI, hP, bigEndian_length]) (bigEndian_length _ _)

theorem datagram_body_slice (hd body trailer : List (Fin 256)) (n k m : Nat)
    (hh : hd.length = 16) (hn : n = 16 + k) :
    ((hd ++ body ++ trailer).drop n).take m = (((body ++ trailer).drop k).take m) := by
  subst hn
  rw [List.append_assoc, ← List.drop_drop, List.drop_left' hh]

/-- C12: the Announce datagram that udpAnnounce.write produces is the 16-byte
request header (8-byte connection id, 4-byte action, 4-byte transaction id,
each big-endian; the action is 1 for an Announce) followed by the big-endian
encoding of the AnnounceRequest, followed by the option trailer. The
encoding of the request is exactly 82 bytes for every request value: the 20
bytes of InfoHash, the 20 bytes of PeerId, then Downloaded, Left and
Uploaded in 8 bytes each, Event, IPAddress, Key and NumWant in 4 bytes each
and Port in 2 bytes, every integer big-endian (the bytes at its offset read
as a big-endian number give the field modulo 2^64, 2^32 or 2^16, and for a
field in the range of its type the field itself). The total length is
98 + len(trailer) bytes, and the datagram is the first thing the announce
request writes. -/
theorem announce_datagram_spec (h : RequestHeader) (req : AnnounceRequest)
    (trailer : List (Fin 256)) (net : Net) (c : udpAnnounce) :
    (udpAnnounce.write h (some req.encode) trailer net).1
        = [IOEvent.write (h.encode ++ req.encode ++ trailer)]
    ∧ h.encode.length = 16
    ∧ req.encode.length = 82
    ∧ (h.encode ++ req.encode ++ trailer).length = 98 + trailer.length
    ∧ (h.encode ++ req.encode ++ trailer).take 16 = h.encode
    ∧ ((h.encode ++ req.encode ++ trailer).drop 16).take 82 = req.encode
    ∧ (h.encode ++ req.encode ++ trailer).drop 98 = trailer
    ∧ (fromBigEndian ((h.encode ++ req.encode ++ trailer).take 8) : Int)
        = h.ConnectionId % 2 ^ 64
    ∧ (fromBigEndian (((h.encode ++ req.encode ++ trailer).drop 8).take 4) : Int)
        = h.Action % 2 ^ 32
    ∧ (fromBigEndian (((h.encode ++ req.encode ++ trailer).drop 12).take 4) : Int)
        = h.TransactionId % 2 ^ 32
    ∧ (h.Action = ActionAnnounce →
        decodeInt32 (((h.encode ++ req.encode ++ trailer).drop 8).take 4) = 1)
    ∧ ((h.encode ++ req.encode ++ trailer).drop 16).take 20 = req.InfoHash.val
    ∧ ((h.encode ++ req.encode ++ trailer).drop 36).take 20 = req.PeerId.val
    ∧ (fromBigEndian (((h.encode ++ req.encode ++ trailer).drop 56).take 8) : Int)
        = req.Downloaded % 2 ^ 64
    ∧ (fromBigEndian (((h.encode ++ req.encode ++ trailer).drop 64).take 8) : Int)
        = req.Left % 2 ^ 64
    ∧ (fromBigEndian (((h.encode ++ req.encode ++ trailer).drop 72).take 8) : Int)
        = req.Uploaded % 2 ^ 64
    ∧ (fromBigEndian (((h.encode ++ req.encode ++ trailer).drop 80).take 4) : Int)
        = req.Event % 2 ^ 32
    ∧ (fromBigEndian (((h.encode ++ req.encode ++ trailer).drop 84).take 4) : Int)
        = req.IPAddress % 2 ^ 32
    ∧ (fromBigEndian (((h.encode ++ req.encode ++ trailer).drop 88).take 4) : Int)
        = req.Key % 2 ^ 32
    ∧ (fromBigEndian (((h.encode ++ req.encode ++ trailer).drop 92).take 4) : Int)
        = req.NumWant % 2 ^ 32
    ∧ (fromBigEndian (((h.encode ++ req.encode ++ trailer).drop 96).take 2) : Int)
        = req.Port % 2 ^ 16
    ∧ (-2 ^ 63 ≤ req.Downloaded ∧ req.Downloaded < 2 ^ 63 →
        decodeInt64 (((h.encode ++ req.encode ++ trailer).drop 56).take 8) = req.Downloaded)
    ∧ (-2 ^ 63 ≤ req.Left ∧ req.Left < 2 ^ 63 →
        decodeInt64 (((h.encode ++ req.encode ++ trailer).drop 64).take 8) = req.Left)
    ∧ (-2 ^ 63 ≤ req.Uploaded ∧ req.Uploaded < 2 ^ 63 →
        decodeInt64 (((h.encode ++ req.encode ++ trailer).drop 72).take 8) = req.Uploaded)
    ∧ (-2 ^ 31 ≤ req.Event ∧ req.Event < 2 ^ 31 →
        decodeInt32 (((h.encode ++ req.encode ++ trailer).drop 80).take 4) = req.Event)
    ∧ (0 ≤ req.IPAddress ∧ req.IPAddress < 2 ^ 32 →
        (fromBigEndian (((h.encode ++ req.encode ++ trailer).drop 84).take 4) : Int)
          = req.IPAddress)
    ∧ (-2 ^ 31 ≤ req.Key ∧ req.Key < 2 ^ 31 →
        decodeInt32 (((h.encode ++ req.encode ++ trailer).drop 88).take 4) = req.Key)
    ∧ (-2 ^ 31 ≤ req.NumWant ∧ req.NumWant < 2 ^ 31 →
        decodeInt32 (((h.encode ++ req.encode ++ trailer).drop 92).take 4) = req.NumWant)
    ∧ (0 ≤ req.Port ∧ req.Port < 2 ^ 16 →
        (fromBigEndian (((h.encode ++ req.encode ++ trailer).drop 96).take 2) : Int)
          = req.Port)
    ∧ (c.request ActionAnnounce (some req.encode) trailer net).events.head?
        = some (IOEvent.write (RequestHeader.encode
            { ConnectionId := c.connectionId, Action := 1, TransactionId := net.tid }
            ++ req.encode ++ trailer)) := by
  have hh := RequestHeader_encode_length h
  have hr := AnnounceRequest_encode_length req
  have l8 : (bigEndian 8 h.ConnectionId).length = 8 := bigEndian_length _ _
  have l4a : (bigEndian 4 h.Action).length = 4 := bigEndian_length _ _
  have l4t : (bigEndian 4 h.TransactionId).length = 4 := bigEndian_length _ _
  have e8 : (h.encode ++ req.encode ++ trailer).take 8 = bigEndian 8 h.ConnectionId := by
    unfold RequestHeader.encode
    simp only [List.append_assoc]
    exact List.take_left' l8
  have e4a : ((h.encode ++ req.encode ++ trailer).drop 8).take 4 = bigEndian 4 h.Action := by
    unfold RequestHeader.encode
    simp only [List.append_assoc]
    rw [List.drop_left' l8]
    exact List.take_left' l4a
  have e4t : ((h.encode ++ req.encode ++ trailer).drop 12).take 4
      = bigEndian 4 h.TransactionId := by
    unfold RequestHeader.encode
    have l12 : (bigEndian 8 h.ConnectionId ++ bigEndian 4 h.Action).length = 12 := by
      simp [l8, l4a]
    rw [List.append_assoc (bigEndian 8 h.ConnectionId ++ bigEndian 4 h.Action),
      List.append_assoc (bigEndian 8 h.ConnectionId ++ bigEndian 4 h.Action),
      List.drop_left' l12]
    exact List.take_left' l4t
  obtain ⟨f0, f1, f2, f3, f4, f5, f6, f7, f8, f9⟩ := AnnounceRequest_encode_fields req trailer
  have b0 : ((h.encode ++ req.encode ++ trailer).drop 16).take 20 = req.InfoHash.val := by
    rw [datagram_body_slice _ _ _ 16 0 20 hh rfl, List.drop_zero, f0]
  have b1 : ((h.encode ++ req.encode ++ trailer).drop 36).take 20 = req.PeerId.val := by
    rw [datagram_body_slice _ _ _ 36 20 20 hh rfl, f1]
  have b2 : ((h.encode ++ req.encode ++ trailer).drop 56).take 8
      = bigEndian 8 req.Downloaded := by
    rw [datagram_body_slice _ _ _ 56 40 8 hh rfl, f2]
  have b3 : ((h.encode ++ req.encode ++ trailer).drop 64).take 8 = bigEndian 8 req.Left := by
    rw [datagram_body_slice _ _ _ 64 48 8 hh rfl, f3]
  have b4 : ((h.encode ++ req.encode ++ trailer).drop 72).take 8
      = bigEndian 8 req.Uploaded := by
    rw [datagram_body_slice _ _ _ 72 56 8 hh rfl, f4]
  have b5 : ((h.encode ++ req.encode ++ trailer).drop 80).take 4 = bigEndian 4 req.Event := by
    rw [datagram_body_slice _ _ _ 80 64 4 hh rfl, f5]
  have b6 : ((h.encode ++ req.encode ++ trailer).drop 84).take 4
      = bigEndian 4 req.IPAddress := by
    rw [datagram_body_slice _ _ _ 84 68 4 hh rfl, f6]
  have b7 : ((h.encode ++ req.encode ++ trailer).drop 88).take 4 = bigEndian 4 req.Key := by
    rw [datagram_body_slice _ _ _ 88 72 4 hh rfl, f7]
  have b8 : ((h.encode ++ req.encode ++ trailer).drop 92).take 4 = bigEndian 4 req.NumWant := by
    rw [datagram_body_slice _ _ _ 92 76 4 hh rfl, f8]
  have b9 : ((h.encode ++ req.encode ++ trailer).drop 96).take 2 = bigEndian 2 req.Port := by
    rw [datagram_body_slice _ _ _ 96 80 2 hh rfl, f9]
  have d64 : ∀ x : Int, -2 ^ 63 ≤ x ∧ x < 2 ^ 63 → decodeInt64 (bigEndian 8 x) = x := by
    intro x hx
    have hfb := fromBigEndian_bigEndian 8 x
    have hp : (256 : Int) ^ 8 = 2 ^ 64 := by norm_num
    rw [hp] at hfb
    unfold decodeInt64
    have hlt : (fromBigEndian (bigEndian 8 x) < 2 ^ 63)
        ↔ ((fromBigEndian (bigEndian 8 x) : Int) < 2 ^ 63) := by
      constructor
      · intro hl; exact_mod_cast hl
      · intro hl; exact_mod_cast hl
    by_cases hc : fromBigEndian (bigEndian 8 x) < 2 ^ 63
    · rw [if_pos hc]
      have := hlt.1 hc
      omega
    · rw [if_neg hc]
      have : ¬ ((fromBigEndian (bigEndian 8 x) : Int) < 2 ^ 63) := fun hl => hc (hlt.2 hl)
      omega
  have d32 : ∀ x : Int, -2 ^ 31 ≤ x ∧ x < 2 ^ 31 → decodeInt32 (bigEndian 4 x) = x := by
    intro x hx
    have hfb := fromBigEndian_bigEndian 4 x
    have hp : (256 : Int) ^ 4 = 2 ^ 32 := by norm_num
    rw [hp] at hfb
    unfold decodeInt32
    have hlt : (fromBigEndian (bigEndian 4 x) < 2 ^ 31)
        ↔ ((fromBigEndian (bigEndian 4 x) : Int) < 2 ^ 31) := by
      constructor
      · intro hl; exact_mod_cast hl
      · intro hl; exact_mod_cast hl
    by_cases hc : fromBigEndian (bigEndian 4 x) < 2 ^ 31
    · rw [if_pos hc]
      have := hlt.1 hc
      omega
    · rw [if_neg hc]
      have : ¬ ((fromBigEndian (bigEndian 4 x) : Int) < 2 ^ 31) := fun hl => hc (hlt.2 hl)
      omega
  refine ⟨rfl, hh, hr, ?_, ?_, ?_, ?_, ?_, ?_, ?_, ?_, b0, b1, ?_, ?_, ?_, ?_, ?_, ?_, ?_, ?_,
    ?_, ?_, ?_, ?_, ?_, ?_, ?_, ?_, ?_⟩
  · simp only [List.length_append, hh, hr]
  · rw [List.append_assoc]
    exact List.take_left' hh
  · rw [List.append_assoc, List.drop_left' hh]
    exact List.take_left' hr
  · have : (h.encode ++ req.encode).length = 98 := by simp [hh, hr]
    exact List.drop_left' this
  · rw [e8, fromBigEndian_bigEndian]; norm_num
  · rw [e4a, fromBigEndian_bigEndian]; norm_num
  · rw [e4t, fromBigEndian_bigEndian]; norm_num
  · intro ha
    rw [e4a, ha]
    decide
  · rw [b2, fromBigEndian_bigEndian]; norm_num
  · rw [b3, fromBigEndian_bigEndian]; norm_num
  · rw [b4, fromBigEndian_bigEndian]; norm_num
  · rw [b5, fromBigEndian_bigEndian]; norm_num
  · rw [b6, fromBigEndian_bigEndian]; norm_num
  · rw [b7, fromBigEndian_bigEndian]; norm_num
  · rw [b8, fromBigEndian_bigEndian]; norm_num
  · rw [b9, fromBigEndian_bigEndian]; norm_num
  · intro hx; rw [b2]; exact d64 _ hx
  · intro hx; rw [b3]; exact d64 _ hx
  · intro hx; rw [b4]; exact d64 _ hx
  · intro hx; rw [b5]; exact d32 _ hx
  · intro hx
    rw [b6, fromBigEndian_bigEndian]
    have hp : (256 : Int) ^ 4 = 2 ^ 32 := by norm_num
    rw [hp]
    exact Int.emod_eq_of_lt hx.1 hx.2
  · intro hx; rw [b7]; exact d32 _ hx
  · intro hx; rw [b8]; exact d32 _ hx
  · intro hx
    rw [b9, fromBigEndian_bigEndian]
    have hp : (256 : Int) ^ 2 = 2 ^ 16 := by norm_num
    rw [hp]
    exact Int.emod_eq_of_lt hx.1 hx.2
  · exact request_write_first c ActionAnnounce (some req.encode) trailer net

end tracker

namespace tracker

theorem requestLoop_ignored (tid cT : Int) (d : List (Fin 256)) (rest : List ReadResult)
    (h : ignoredDatagram tid d) :
    requestLoop tid cT (ReadResult.data d :: rest)
      = (IOEvent.read (ReadResult.data d) :: (requestLoop tid cT rest).1,
          (requestLoop tid cT rest).2) := by
  unfold ignoredDatagram at h
  by_cases h1 : (List.take 0x800 d).length < 8
  · simp only [requestLoop, if_pos h1]
  · have h2 : decodeInt32 (List.take 4 (List.drop 4 (List.take 0x800 d))) ≠ tid := by
      rcases h with h | h
      · exact absurd h h1
      · exact h
    simp only [requestLoop, if_neg h1, if_pos h2]

theorem requestLoop_skip (tid cT : Int) (pre : List (List (Fin 256))) (rest : List ReadResult)
    (hpre : ∀ p ∈ pre, ignoredDatagram tid p) :
    requestLoop tid cT (pre.map ReadResult.data ++ rest)
      = (pre.map (fun p => IOEvent.read (ReadResult.data p)) ++ (requestLoop tid cT rest).1,
          (requestLoop tid cT rest).2) := by
  induction pre with
  | nil => rfl
  | cons p ps ih =>
    rw [List.map_cons, List.cons_append,
      requestLoop_ignored tid cT p _ (hpre p (List.mem_cons_self _ _)),
      ih (fun q hq => hpre q (List.mem_cons_of_mem _ hq))]
    rfl

theorem requestLoop_accept (tid cT : Int) (d : List (Fin 256)) (rest : List ReadResult)
    (h8 : 8 ≤ (d.take 0x800).length)
    (htid : decodeInt32 (((d.take 0x800).drop 4).take 4) = tid) :
    requestLoop tid cT (ReadResult.data d :: rest)
      = ([IOEvent.read (ReadResult.data d)],
          some (0, some ((d.take 0x800).drop 8),
            if decodeInt32 ((d.take 0x800).take 4) = ActionError
              then some (Error.New ((d.take 0x800).drop 8)) else none)) := by
  have h1 : ¬ ((List.take 0x800 d).length < 8) := by omega
  simp only [requestLoop, if_neg h1, if_neg (not_not.2 htid)]

theorem requestLoop_found (tid cT : Int) (reads : List ReadResult) (n : Int)
    (buf : List (Fin 256)) (err : Option Error)
    (h : (requestLoop tid cT reads).2 = some (n, some buf, err)) :
    ∃ (pre : List (List (Fin 256))) (d : List (Fin 256)) (rest : List ReadResult),
      reads = pre.map ReadResult.data ++ ReadResult.data d :: rest
      ∧ (∀ p ∈ pre, ignoredDatagram tid p)
      ∧ 8 ≤ (d.take 0x800).length
      ∧ decodeInt32 (((d.take 0x800).drop 4).take 4) = tid
      ∧ buf = (d.take 0x800).drop 8 := by
  induction reads with
  | nil => simp [requestLoop] at h
  | cons r rest ih =>
    cases r with
    | err e =>
      simp only [requestLoop, Option.some.injEq, Prod.mk.injEq] at h
      exact absurd h.2.1 (by simp)
    | data bytes =>
      by_cases hig : ignoredDatagram tid bytes
      · rw [requestLoop_ignored tid cT bytes rest hig] at h
        obtain ⟨pre, d, rest2, a1, a2, a3⟩ := ih h
        refine ⟨bytes :: pre, d, rest2, by rw [a1]; rfl, ?_, a3⟩
        intro p hp
        rcases List.mem_cons.1 hp with hp1 | hp1
        · rw [hp1]; exact hig
        · exact a2 p hp1
      · unfold ignoredDatagram at hig
        have h8 : 8 ≤ (bytes.take 0x800).length := by omega
        have htid : decodeInt32 (((bytes.take 0x800).drop 4).take 4) = tid := by
          by_contra hne
          exact hig (Or.inr hne)
        rw [requestLoop_accept tid cT bytes rest h8 htid] at h
        simp only [Option.some.injEq, Prod.mk.injEq] at h
        exact ⟨[], bytes, rest, rfl, fun p hp => absurd hp (List.not_mem_nil p), h8, htid,
          h.2.1.symm⟩

end tracker

namespace tracker

theorem request_result_eq (c : udpAnnounce) (action : Action)
    (args : Option (List (Fin 256))) (options : List (Fin 256)) (net : Net)
    (hw : net.writeErr = none) :
    (c.request action args options net).result
      = (match (requestLoop net.tid c.contiguousTimeouts net.reads).2 with
          | none => none
          | some (n, buf, err) => some ({ c with contiguousTimeouts := n }, buf, err))
    ∧ (c.request action args options net).events
      = [IOEvent.write (RequestHeader.encode
            { ConnectionId := c.connectionId, Action := action, TransactionId := net.tid }
            ++ (match args with | none => [] | some b => b) ++ options),
          IOEvent.setReadDeadline (timeout c.contiguousTimeouts)]
        ++ (requestLoop net.tid c.contiguousTimeouts net.reads).1 := by
  unfold udpAnnounce.request udpAnnounce.write errorsx.Wrap
  rw [hw]
  exact ⟨rfl, by simp⟩

theorem connectRequest_of_loop_err (c : udpAnnounce) (net : Net) (hw : net.writeErr = none)
    (n : Int) (b : List (Fin 256)) (e : Error)
    (hloop : (requestLoop net.tid c.contiguousTimeouts net.reads).2
      = some (n, some b, some e)) :
    (udpAnnounce.connectRequest c net).result
      = some ({ c with contiguousTimeouts := n }, some e) := by
  have hreq := (request_result_eq c ActionConnect none [] net hw).1
  rw [hloop] at hreq
  unfold udpAnnounce.connectRequest
  simp only
  rw [hreq]

theorem connectRequest_of_loop_ok (c : udpAnnounce) (net : Net) (hw : net.writeErr = none)
    (n : Int) (b : List (Fin 256))
    (hloop : (requestLoop net.tid c.contiguousTimeouts net.reads).2 = some (n, some b, none)) :
    (udpAnnounce.connectRequest c net).result
      = (if b.length = 0 then some ({ c with contiguousTimeouts := n }, some Error.EOF)
          else if b.length < 8 then
            some ({ c with contiguousTimeouts := n }, some Error.ErrUnexpectedEOF)
          else some ({ c with contiguousTimeouts := n,
                              connectionId := decodeInt64 (b.take 8),
                              connectionIdReceived := net.nowReceived }, none)) := by
  have hreq := (request_result_eq c ActionConnect none [] net hw).1
  rw [hloop] at hreq
  unfold udpAnnounce.connectRequest
  simp only
  rw [hreq]
  simp only
  split_ifs <;> rfl

theorem connectRequest_first_match (c : udpAnnounce) (net : Net)
    (pre : List (List (Fin 256))) (d : List (Fin 256)) (rest : List ReadResult)
    (hw : net.writeErr = none)
    (hreads : net.reads = pre.map ReadResult.data ++ ReadResult.data d :: rest)
    (hpre : ∀ p ∈ pre, ignoredDatagram net.tid p)
    (h8 : 8 ≤ (d.take 0x800).length)
    (htid : decodeInt32 (((d.take 0x800).drop 4).take 4) = net.tid) :
    (decodeInt32 ((d.take 0x800).take 4) = ActionError →
        (udpAnnounce.connectRequest c net).result
          = some ({ c with contiguousTimeouts := 0 },
              some (Error.New ((d.take 0x800).drop 8))))
    ∧ (decodeInt32 ((d.take 0x800).take 4) ≠ ActionError → 16 ≤ (d.take 0x800).length →
        (udpAnnounce.connectRequest c net).result
          = some ({ c with contiguousTimeouts := 0,
                           connectionId := decodeInt64 (((d.take 0x800).drop 8).take 8),
                           connectionIdReceived := net.nowReceived }, none))
    ∧ (decodeInt32 ((d.take 0x800).take 4) ≠ ActionError → (d.take 0x800).length < 16 →
        (udpAnnounce.connectRequest c net).result
          = some ({ c with contiguousTimeouts := 0 },
              some (if (d.take 0x800).length = 8 then Error.EOF
                    else Error.ErrUnexpectedEOF)))
    ∧ (udpAnnounce.connectRequest c net).events
        = [IOEvent.write (RequestHeader.encode
              { ConnectionId := c.connectionId, Action := ActionConnect,
                TransactionId := net.tid }),
            IOEvent.setReadDeadline (timeout c.contiguousTimeouts)]
          ++ pre.map (fun p => IOEvent.read (ReadResult.data p))
          ++ [IOEvent.read (ReadResult.data d)] := by
  have hloop : requestLoop net.tid c.contiguousTimeouts net.reads
      = (pre.map (fun p => IOEvent.read (ReadResult.data p))
            ++ [IOEvent.read (ReadResult.data d)],
          some (0, some ((d.take 0x800).drop 8),
            if decodeInt32 ((d.take 0x800).take 4) = ActionError
              then some (Error.New ((d.take 0x800).drop 8)) else none)) := by
    rw [hreads, requestLoop_skip net.tid _ pre _ hpre, requestLoop_accept net.tid _ d rest h8 htid]
  have hlen : ((d.take 0x800).drop 8).length = (d.take 0x800).length - 8 := List.length_drop _ _
  refine ⟨?_, ?_, ?_, ?_⟩
  · intro ha
    rw [if_pos ha] at hloop
    exact connectRequest_of_loop_err c net hw 0 _ _ (by rw [hloop])
  · intro ha h16
    rw [if_neg ha] at hloop
    rw [connectRequest_of_loop_ok c net hw 0 _ (by rw [hloop]),
      if_neg (by omega), if_neg (by omega)]
  · intro ha h16
    rw [if_neg ha] at hloop
    rw [connectRequest_of_loop_ok c net hw 0 _ (by rw [hloop])]
    by_cases hz : (d.take 0x800).length = 8
    · rw [if_pos (by omega), if_pos hz]
    · rw [if_neg (by omega), if_pos (by omega), if_neg hz]
  · rw [connectRequest_events, (request_result_eq c ActionConnect none [] net hw).2, hloop]
    simp

end tracker

namespace tracker

theorem connectRequest_accept_only (c : udpAnnounce) (net : Net) (c2 : udpAnnounce)
    (h : (udpAnnounce.connectRequest c net).result = some (c2, none)) :
    ∃ (pre : List (List (Fin 256))) (d : List (Fin 256)) (rest : List ReadResult),
      net.reads = pre.map ReadResult.data ++ ReadResult.data d :: rest
      ∧ (∀ p ∈ pre, ignoredDatagram net.tid p)
      ∧ 16 ≤ (d.take 0x800).length
      ∧ decodeInt32 (((d.take 0x800).drop 4).take 4) = net.tid
      ∧ decodeInt32 ((d.take 0x800).take 4) ≠ ActionError
      ∧ c2 = { c with contiguousTimeouts := 0,
                      connectionId := decodeInt64 (((d.take 0x800).drop 8).take 8),
                      connectionIdReceived := net.nowReceived } := by
  have hw := (connectRequest_success c net c2 h).1
  have hreq := (request_result_eq c ActionConnect none [] net hw).1
  cases hl : (requestLoop net.tid c.contiguousTimeouts net.reads).2 with
  | none =>
    rw [hl] at hreq
    unfold udpAnnounce.connectRequest at h
    simp only at h
    rw [hreq] at h
    simp at h
  | some v =>
    obtain ⟨n, buf, err⟩ := v
    cases buf with
    | none =>
      rcases requestLoop_some _ _ _ _ _ _ hl with ⟨e, _, he⟩ | ⟨_, _, _, _, _, _, hb, _⟩
      · rw [hl, he] at hreq
        unfold udpAnnounce.connectRequest at h
        simp only at h
        rw [hreq] at h
        simp at h
      · exact absurd hb (by simp)
    | some b =>
      obtain ⟨pre, d, rest, a1, a2, a3, a4, _⟩ := requestLoop_found _ _ _ _ _ _ hl
      have hm := connectRequest_first_match c net pre d rest hw a1 a2 a3 a4
      by_cases ha : decodeInt32 ((d.take 0x800).take 4) = ActionError
      · rw [hm.1 ha] at h
        simp at h
      · by_cases h16 : 16 ≤ (d.take 0x800).length
        · rw [hm.2.1 ha h16] at h
          simp only [Option.some.injEq, Prod.mk.injEq, and_true] at h
          exact ⟨pre, d, rest, a1, a2, h16, a4, ha, h.symm⟩
        · rw [hm.2.2.1 ha (by omega)] at h
          simp at h

/-- C13, as the code has it: a datagram is accepted as the response to a
Connect request if and only if it is the first datagram read that has a
complete 8-byte header carrying the transaction id of the request, its
action is not error (the action is not compared with Connect: any other
action is accepted), and at least 8 bytes follow the header (16 bytes or
more in all), the first 8 of which become the connection id. A datagram with
a different transaction id or a truncated header is ignored and reading
continues (and never ends if every datagram is such); a response with
action = error yields an error whose message is the response body; a
response of fewer than 16 bytes yields io.EOF or io.ErrUnexpectedEOF. -/
theorem connect_response_spec (c : udpAnnounce) (net : Net) :
    (∀ c2, (udpAnnounce.connectRequest c net).result = some (c2, none) →
      ∃ (pre : List (List (Fin 256))) (d : List (Fin 256)) (rest : List ReadResult),
        net.reads = pre.map ReadResult.data ++ ReadResult.data d :: rest
        ∧ (∀ p ∈ pre, ignoredDatagram net.tid p)
        ∧ 16 ≤ (d.take 0x800).length
        ∧ decodeInt32 (((d.take 0x800).drop 4).take 4) = net.tid
        ∧ decodeInt32 ((d.take 0x800).take 4) ≠ ActionError
        ∧ c2 = { c with contiguousTimeouts := 0,
                        connectionId := decodeInt64 (((d.take 0x800).drop 8).take 8),
                        connectionIdReceived := net.nowReceived })
    ∧ (∀ (pre : List (List (Fin 256))) (d : List (Fin 256)) (rest : List ReadResult),
        net.writeErr = none →
        net.reads = pre.map ReadResult.data ++ ReadResult.data d :: rest →
        (∀ p ∈ pre, ignoredDatagram net.tid p) →
        8 ≤ (d.take 0x800).length →
        decodeInt32 (((d.take 0x800).drop 4).take 4) = net.tid →
        (decodeInt32 ((d.take 0x800).take 4) = ActionError →
            (udpAnnounce.connectRequest c net).result
              = some ({ c with contiguousTimeouts := 0 },
                  some (Error.New ((d.take 0x800).drop 8))))
        ∧ (decodeInt32 ((d.take 0x800).take 4) ≠ ActionError →
            16 ≤ (d.take 0x800).length →
            (udpAnnounce.connectRequest c net).result
              = some ({ c with contiguousTimeouts := 0,
                               connectionId := decodeInt64 (((d.take 0x800).drop 8).take 8),
                               connectionIdReceived := net.nowReceived }, none))
        ∧ (decodeInt32 ((d.take 0x800).take 4) ≠ ActionError →
            (d.take 0x800).length < 16 →
            (udpAnnounce.connectRequest c net).result
              = some ({ c with contiguousTimeouts := 0 },
                  some (if (d.take 0x800).length = 8 then Error.EOF
                        else Error.ErrUnexpectedEOF)))
        ∧ (udpAnnounce.connectRequest c net).events
            = [IOEvent.write (RequestHeader.encode
                  { ConnectionId := c.connectionId, Action := ActionConnect,
                    TransactionId := net.tid }),
                IOEvent.setReadDeadline (timeout c.contiguousTimeouts)]
              ++ pre.map (fun p => IOEvent.read (ReadResult.data p))
              ++ [IOEvent.read (ReadResult.data d)])
    ∧ (∀ (pre : List (List (Fin 256))), net.writeErr = none →
        net.reads = pre.map ReadResult.data →
        (∀ p ∈ pre, ignoredDatagram net.tid p) →
        (udpAnnounce.connectRequest c net).result = none
        ∧ (udpAnnounce.connectRequest c net).events
            = [IOEvent.write (RequestHeader.encode
                  { ConnectionId := c.connectionId, Action := ActionConnect,
                    TransactionId := net.tid }),
                IOEvent.setReadDeadline (timeout c.contiguousTimeouts)]
              ++ pre.map (fun p => IOEvent.read (ReadResult.data p))) := by
  refine ⟨connectRequest_accept_only c net, ?_, ?_⟩
  · intro pre d rest hw hreads hpre h8 htid
    exact connectRequest_first_match c net pre d rest hw hreads hpre h8 htid
  · intro pre hw hreads hpre
    have hloop : requestLoop net.tid c.contiguousTimeouts net.reads
        = (pre.map (fun p => IOEvent.read (ReadResult.data p)), none) := by
      have := requestLoop_skip net.tid c.contiguousTimeouts pre [] hpre
      rw [List.append_nil] at this
      rw [hreads, this]
      simp [requestLoop]
    have hreq := request_result_eq c ActionConnect none [] net hw
    rw [hloop] at hreq
    constructor
    · unfold udpAnnounce.connectRequest
      simp only
      rw [hreq.1]
    · rw [connectRequest_events, hreq.2]
      simp

/-- Counterexample to C13 as stated: the tracker answers the Connect request
of transaction id 5 with a datagram whose action is 1 (Announce), not 0;
connect accepts it and stores its connection id 7. -/
theorem connect_response_counterexample :
    exampleNetAnnounceAction.reads
        = [ReadResult.data (bigEndian 4 1 ++ bigEndian 4 5 ++ bigEndian 8 7)]
    ∧ decodeInt32 ((bigEndian 4 1 ++ bigEndian 4 5 ++ bigEndian 8 7).take 4) = 1
    ∧ (1 : Int) ≠ ActionConnect
    ∧ (exampleUdpAnnounce.connect exampleSplitHostMaybePort (1060 * time.Second)
        exampleNetAnnounceAction).result
        = some ({ exampleUdpAnnounce with connectionId := 7,
                                          connectionIdReceived := 1061 * time.Second }, none) := by
  refine ⟨by decide, by decide, by decide, by decide⟩

end tracker

namespace torrent

/-- C14: for every connection (its other fields play no part),
pexPeerFlags() has the PexOutgoingConn bit set iff the connection is outgoing
and the PexPrefersEncryption bit set iff PeerPrefersEncryption is true, and
no other bit set, whenever the two constants are two different single bits;
and for any values of the constants (false, false) gives 0, (false, true)
gives PexPrefersEncryption, (true, false) gives PexOutgoingConn and
(true, true) gives PexOutgoingConn | PexPrefersEncryption. -/
theorem pexPeerFlags_spec (i j : Nat) (hij : i ≠ j) (cn : connection) :
    ((cn.pexPeerFlags (2 ^ i) (2 ^ j)).testBit j = cn.outgoing)
    ∧ ((cn.pexPeerFlags (2 ^ i) (2 ^ j)).testBit i = cn.PeerPrefersEncryption)
    ∧ (∀ k, k ≠ i → k ≠ j → (cn.pexPeerFlags (2 ^ i) (2 ^ j)).testBit k = false)
    ∧ (∀ E O : Nat,
        connection.pexPeerFlags E O { outgoing := false, PeerPrefersEncryption := false } = 0
        ∧ connection.pexPeerFlags E O { outgoing := false, PeerPrefersEncryption := true } = E
        ∧ connection.pexPeerFlags E O { outgoing := true, PeerPrefersEncryption := false } = O
        ∧ connection.pexPeerFlags E O { outgoing := true, PeerPrefersEncryption := true }
            = O ||| E) := by
  have hji : j ≠ i := fun h => hij h.symm
  refine ⟨?_, ?_, ?_, ?_⟩
  · unfold connection.pexPeerFlags
    cases cn.outgoing <;> cases cn.PeerPrefersEncryption <;>
      simp [Nat.testBit_two_pow, hij, hji]
  · unfold connection.pexPeerFlags
    cases cn.outgoing <;> cases cn.PeerPrefersEncryption <;>
      simp [Nat.testBit_two_pow, hij, hji]
  · intro k hki hkj
    have h1 : i ≠ k := fun h => hki h.symm
    have h2 : j ≠ k := fun h => hkj h.symm
    unfold connection.pexPeerFlags
    cases cn.outgoing <;> cases cn.PeerPrefersEncryption <;>
      simp [Nat.testBit_two_pow, h1, h2]
  · intro E O
    unfold connection.pexPeerFlags
    refine ⟨by simp, by simp, by simp, ?_⟩
    simp [Nat.lor_comm]

/-- Witness for C14: with PexPrefersEncryption = 0x01 and
PexOutgoingConn = 0x10, an outgoing connection to a peer that does not prefer
encryption has the outgoing bit set. -/
theorem pexPeerFlags_spec_witness :
    (connection.pexPeerFlags (2 ^ 0) (2 ^ 4)
      { outgoing := true, PeerPrefersEncryption := false }).testBit 4 = true :=
  (pexPeerFlags_spec 0 4 (by decide) { outgoing := true, PeerPrefersEncryption := false }).1

end torrent

namespace backoffx

theorem New_append (s : Strategy) (options : List Option) (opt : Option) :
    New s (options ++ [opt]) = opt (New s options) := by
  unfold New
  rw [List.foldl_append]
  rfl

/-- C15: Maximum sets an upper bound and Minimum a lower bound, and New
applies options left to right: for every strategy s, durations lo and hi and
attempt a, New(s, Minimum(lo), Maximum(hi)).Backoff(a)
= min(max(s.Backoff(a), lo), hi); hence the result is never above hi, and
lies in [lo, hi] whenever lo <= hi. New(s) with no options is s. -/
theorem New_Minimum_Maximum (s : Strategy) (lo hi a : Int) :
    (New s [Minimum lo, Maximum hi]).Backoff a = min (max (s.Backoff a) lo) hi
    ∧ (New s [Minimum lo, Maximum hi]).Backoff a ≤ hi
    ∧ (lo ≤ hi → lo ≤ (New s [Minimum lo, Maximum hi]).Backoff a)
    ∧ New s [] = s
    ∧ ((Maximum hi s).Backoff a = min (s.Backoff a) hi)
    ∧ ((Minimum lo s).Backoff a = max (s.Backoff a) lo)
    ∧ (∀ (options : List Option) (opt : Option),
        New s (options ++ [opt]) = opt (New s options))
    ∧ New s [Minimum lo, Maximum hi] = Maximum hi (Minimum lo s) := by
  have hmax : (Maximum hi s).Backoff a = min (s.Backoff a) hi := by
    show (if s.Backoff a < hi then s.Backoff a else hi) = min (s.Backoff a) hi
    split_ifs <;> omega
  have hmin : (Minimum lo s).Backoff a = max (s.Backoff a) lo := by
    show (if s.Backoff a > lo then s.Backoff a else lo) = max (s.Backoff a) lo
    split_ifs <;> omega
  have hnew : (New s [Minimum lo, Maximum hi]).Backoff a = min (max (s.Backoff a) lo) hi := by
    show (if (if s.Backoff a > lo then s.Backoff a else lo) < hi
          then (if s.Backoff a > lo then s.Backoff a else lo) else hi)
        = min (max (s.Backoff a) lo) hi
    split_ifs <;> omega
  refine ⟨hnew, ?_, ?_, rfl, hmax, hmin, New_append s, rfl⟩
  · rw [hnew]; omega
  · intro h; rw [hnew]; omega

end backoffx

namespace backoffx

theorem and_two_pow_63 (lo : Nat) (h : lo < 2 ^ 64) :
    lo &&& 2 ^ 63 = 2 ^ 63 ↔ 2 ^ 63 ≤ lo := by
  have ht : lo.testBit 63 = decide (lo / 2 ^ 63 % 2 = 1) := Nat.testBit_to_div_mod
  have hbit : lo &&& 2 ^ 63 = 2 ^ 63 ↔ lo.testBit 63 = true := by
    constructor
    · intro he
      have h1 : (lo &&& 2 ^ 63).testBit 63 = (2 ^ 63).testBit 63 := by rw [he]
      rw [Nat.testBit_and, Nat.testBit_two_pow_self, Bool.and_true] at h1
      exact h1
    · intro hb
      apply Nat.eq_of_testBit_eq
      intro i
      rw [Nat.testBit_and, Nat.testBit_two_pow]
      by_cases hi : 63 = i
      · subst hi; simp [hb]
      · simp [hi]
  rw [hbit, ht]
  simp only [decide_eq_true_eq]
  norm_num at h ⊢
  omega

theorem Mul64_overflow_iff (x y : Nat) :
    ((bits.Mul64 x y).1 ≠ 0 ∨ (bits.Mul64 x y).2 &&& 2 ^ 63 = 2 ^ 63) ↔ 2 ^ 63 ≤ x * y := by
  unfold bits.Mul64
  simp only
  rw [and_two_pow_63 _ (Nat.mod_lt _ (by norm_num))]
  generalize x * y = p
  norm_num
  omega

end backoffx

namespace backoffx

theorem wrapInt64_id (x : Int) (h0 : -2 ^ 63 ≤ x) (h1 : x < 2 ^ 63) : wrapInt64 x = x := by
  unfold wrapInt64
  omega

theorem exponential_Backoff_eq (t : exponential) (a : Int) :
    t.Backoff a
      = if shiftLeftInt64 1 (toUint64 a) ≤ 0 then MaxInt64
        else if 2 ^ 63 ≤ (toUint64 (shiftLeftInt64 1 (toUint64 a))).toNat
                  * (toUint64 t.scale).toNat then MaxInt64
        else (((toUint64 (shiftLeftInt64 1 (toUint64 a))).toNat
                  * (toUint64 t.scale).toNat : Nat) : Int) := by
  unfold exponential.Backoff
  simp only
  by_cases h : shiftLeftInt64 1 (toUint64 a) ≤ 0
  · rw [if_pos h, if_pos h]
  · rw [if_neg h, if_neg h]
    by_cases hov : 2 ^ 63 ≤ (toUint64 (shiftLeftInt64 1 (toUint64 a))).toNat
        * (toUint64 t.scale).toNat
    · rw [if_pos ((Mul64_overflow_iff _ _).2 hov), if_pos hov]
    · rw [if_neg (fun hc => hov ((Mul64_overflow_iff _ _).1 hc)), if_neg hov]
      unfold bits.Mul64
      simp only
      generalize (toUint64 (shiftLeftInt64 1 (toUint64 a))).toNat * (toUint64 t.scale).toNat
        = p at hov
      have hp : p < 2 ^ 63 := by omega
      have hmod : p % 2 ^ 64 = p := Nat.mod_eq_of_lt (by omega)
      rw [hmod]
      exact wrapInt64_id _ (by omega) (by omega)

theorem two_pow_bounds (k : Nat) (hk : k ≤ 62) : (1 : Int) ≤ 2 ^ k ∧ (2 : Int) ^ k ≤ 2 ^ 62 :=
  ⟨one_le_pow₀ (by decide), pow_le_pow_right₀ (by decide) hk⟩

theorem shift_small (a : Int) (h0 : 0 ≤ a) (h1 : a < 63) :
    shiftLeftInt64 1 (toUint64 a) = 2 ^ a.toNat := by
  have hu : toUint64 a = a := by unfold toUint64; omega
  have hb := two_pow_bounds a.toNat (by omega)
  unfold shiftLeftInt64
  rw [hu, if_neg (by omega), one_mul]
  exact wrapInt64_id _ (by omega) (by omega)

theorem shift_large (a : Int) (h0 : 63 ≤ a) (h1 : a < 2 ^ 63) :
    shiftLeftInt64 1 (toUint64 a) ≤ 0 := by
  have hu : toUint64 a = a := by unfold toUint64; omega
  unfold shiftLeftInt64
  rw [hu]
  by_cases h : a ≥ 64
  · rw [if_pos h]
  · have ha : a = 63 := by omega
    subst ha
    decide

theorem shift_neg (a : Int) (h0 : -2 ^ 63 ≤ a) (h1 : a < 0) :
    shiftLeftInt64 1 (toUint64 a) = 0 := by
  have hu : toUint64 a = a + 2 ^ 64 := by unfold toUint64; omega
  unfold shiftLeftInt64
  rw [hu, if_pos (by omega)]

end backoffx

namespace backoffx

theorem exponential_small (scale a : Int) (h0 : 0 ≤ a) (h1 : a < 63) :
    (exponential.mk scale).Backoff a
      = if 2 ^ 63 ≤ toUint64 scale * 2 ^ a.toNat then MaxInt64
        else toUint64 scale * 2 ^ a.toNat := by
  rw [exponential_Backoff_eq, shift_small a h0 h1]
  have hb := two_pow_bounds a.toNat (by omega)
  dsimp only
  generalize (2 : Int) ^ a.toNat = e at hb ⊢
  rw [if_neg (by omega)]
  have hue : toUint64 e = e := by unfold toUint64; omega
  have hus : 0 ≤ toUint64 scale := by unfold toUint64; omega
  have hX : ((toUint64 e).toNat : Int) = e := by rw [hue]; exact Int.toNat_of_nonneg (by omega)
  have hY : ((toUint64 scale).toNat : Int) = toUint64 scale := Int.toNat_of_nonneg hus
  have hXY : (((toUint64 e).toNat * (toUint64 scale).toNat : Nat) : Int)
      = toUint64 scale * e := by
    push_cast
    rw [hX, hY]
    ring
  generalize (toUint64 e).toNat * (toUint64 scale).toNat = p at hXY ⊢
  generalize toUint64 scale * e = q at hXY ⊢
  split_ifs <;> omega

theorem exponential_large (scale a : Int) (h0 : 63 ≤ a) (h1 : a < 2 ^ 63) :
    (exponential.mk scale).Backoff a = MaxInt64 := by
  rw [exponential_Backoff_eq, if_pos (shift_large a h0 h1)]

theorem exponential_negative (scale a : Int) (h0 : -2 ^ 63 ≤ a) (h1 : a < 0) :
    (exponential.mk scale).Backoff a = MaxInt64 := by
  rw [exponential_Backoff_eq, shift_neg a h0 h1, if_pos (le_refl 0)]

theorem exponential_closed (scale a : Int) (hs0 : 0 < scale) (hs2 : scale < 2 ^ 63)
    (h0 : 0 ≤ a) (h1 : a < 2 ^ 63) :
    (exponential.mk scale).Backoff a
      = if scale * 2 ^ a.toNat < 2 ^ 63 then scale * 2 ^ a.toNat else MaxInt64 := by
  have hu : toUint64 scale = scale := by unfold toUint64; omega
  by_cases h63 : a < 63
  · rw [exponential_small scale a h0 h63, hu]
    split_ifs <;> first | rfl | omega
  · rw [exponential_large scale a (by omega) h1]
    have hp : (2 : Int) ^ 63 ≤ 2 ^ a.toNat := pow_le_pow_right₀ (by decide) (by omega)
    have hq : (2 : Int) ^ a.toNat ≤ scale * 2 ^ a.toNat := by nlinarith
    rw [if_neg (by omega)]

end backoffx

namespace backoffx

/-- C16: exponential backoff saturates instead of wrapping around: for every
scale > 0 and attempt a >= 0, Exponential(scale).Backoff(a) = scale * 2^a
when that product is below 2^63, and math.MaxInt64 otherwise (so for every
a >= 63); for every non-zero scale and every attempt, negative ones included,
the result is strictly positive, and for scale > 0 it is non-decreasing in a
over a >= 0. Exponential(0) panics. -/
theorem exponential_Backoff_spec (scale : Int) (hs1 : -2 ^ 63 ≤ scale) (hs2 : scale < 2 ^ 63) :
    (∀ a : Int, 0 ≤ a → a < 2 ^ 63 → 0 < scale →
        (exponential.mk scale).Backoff a
          = if scale * 2 ^ a.toNat < 2 ^ 63 then scale * 2 ^ a.toNat else MaxInt64)
    ∧ (∀ a : Int, 63 ≤ a → a < 2 ^ 63 → (exponential.mk scale).Backoff a = MaxInt64)
    ∧ (∀ a : Int, -2 ^ 63 ≤ a → a < 2 ^ 63 → scale ≠ 0 →
        0 < (exponential.mk scale).Backoff a)
    ∧ (∀ a b : Int, 0 ≤ a → a ≤ b → b < 2 ^ 63 → 0 < scale →
        (exponential.mk scale).Backoff a ≤ (exponential.mk scale).Backoff b)
    ∧ Exponential 0 = none
    ∧ (scale ≠ 0 →
        (Exponential scale).map (fun s => s.Backoff) = some (exponential.mk scale).Backoff)
    ∧ MaxInt64 = 2 ^ 63 - 1 := by
  have hmax : MaxInt64 = 2 ^ 63 - 1 := by decide
  refine ⟨?_, ?_, ?_, ?_, rfl, ?_, hmax⟩
  · intro a h0 h1 hs0
    exact exponential_closed scale a hs0 hs2 h0 h1
  · intro a h0 h1
    exact exponential_large scale a h0 h1
  · intro a h0 h1 hne
    by_cases hneg : a < 0
    · rw [exponential_negative scale a h0 hneg, hmax]; decide
    · by_cases h63 : a < 63
      · rw [exponential_small scale a (by omega) h63]
        have hb := two_pow_bounds a.toNat (by omega)
        have hu : 1 ≤ toUint64 scale := by unfold toUint64; omega
        have hq : 0 < toUint64 scale * 2 ^ a.toNat :=
          mul_pos (by omega) (by omega)
        split_ifs
        · rw [hmax]; decide
        · exact hq
      · rw [exponential_large scale a (by omega) h1, hmax]; decide
  · intro a b h0 hab hb hs0
    rw [exponential_closed scale a hs0 hs2 h0 (by omega),
      exponential_closed scale b hs0 hs2 (by omega) hb, hmax]
    have hpow : (2 : Int) ^ a.toNat ≤ 2 ^ b.toNat := pow_le_pow_right₀ (by decide) (by omega)
    have hmul : scale * 2 ^ a.toNat ≤ scale * 2 ^ b.toNat :=
      mul_le_mul_of_nonneg_left hpow (le_of_lt hs0)
    generalize scale * 2 ^ a.toNat = qa at hmul ⊢
    generalize scale * 2 ^ b.toNat = qb at hmul ⊢
    split_ifs <;> omega
  · intro hne
    unfold Exponential
    rw [if_neg hne]
    rfl

/-- Witness for C16: with a scale of 15 s the third attempt waits 120 s. -/
theorem exponential_Backoff_spec_witness :
    (exponential.mk (15 * time.Second)).Backoff 3 = 120 * time.Second
    ∧ (exponential.mk (15 * time.Second)).Backoff 3
        = (if 15 * time.Second * 2 ^ (3 : Int).toNat < 2 ^ 63
            then 15 * time.Second * 2 ^ (3 : Int).toNat else MaxInt64) :=
  ⟨by decide, (exponential_Backoff_spec (15 * time.Second) (by decide) (by decide)).1 3
    (by decide) (by decide) (by decide)⟩

end backoffx

namespace backoffx

theorem Cycle_Backoff_eq (delays : List Int) (hne : delays ≠ []) (b : Int) (h0 : 0 ≤ b) :
    (Cycle delays).Backoff b = delays[(b % delays.length).toNat]? := by
  have hlen : 0 < delays.length := List.length_pos.2 hne
  unfold Cycle explicit.Backoff
  dsimp only
  rw [if_neg (by omega), Int.tmod_eq_emod h0 (by omega)]
  have := Int.emod_nonneg b (by omega : (delays.length : Int) ≠ 0)
  rw [if_neg (by omega)]

/-- C17: Cycle restarts at the first delay when the attempt runs past the
number of values: for every non-empty list of delays and every attempt
a >= 0, Cycle(delays...).Backoff(a) = delays[a mod len(delays)] without
panicking, so Backoff(a + len(delays)) = Backoff(a) and
Backoff(len(delays)) = delays[0]. -/
theorem Cycle_Backoff_spec (delays : List Int) (hne : delays ≠ []) (a : Int) (h0 : 0 ≤ a) :
    (Cycle delays).Backoff a = delays[(a % delays.length).toNat]?
    ∧ (∃ d, (Cycle delays).Backoff a = some d ∧ d ∈ delays)
    ∧ (Cycle delays).Backoff (a + delays.length) = (Cycle delays).Backoff a
    ∧ (Cycle delays).Backoff delays.length = delays[0]?
    ∧ (∃ d, delays[0]? = some d)
    ∧ (a < delays.length → (Cycle delays).Backoff a = delays[a.toNat]?) := by
  have hlen : 0 < delays.length := List.length_pos.2 hne
  have hmod0 := Int.emod_nonneg a (by omega : (delays.length : Int) ≠ 0)
  have hmod1 := Int.emod_lt_of_pos a (by omega : (0 : Int) < delays.length)
  have hidx : (a % delays.length).toNat < delays.length := by omega
  refine ⟨Cycle_Backoff_eq delays hne a h0, ?_, ?_, ?_, ?_, ?_⟩
  · refine ⟨delays[(a % delays.length).toNat], ?_, List.getElem_mem hidx⟩
    rw [Cycle_Backoff_eq delays hne a h0, List.getElem?_eq_getElem hidx]
  · rw [Cycle_Backoff_eq delays hne _ (by omega), Cycle_Backoff_eq delays hne a h0,
      Int.add_emod_self]
  · rw [Cycle_Backoff_eq delays hne _ (by omega), Int.emod_self]
    rfl
  · exact ⟨delays[0], List.getElem?_eq_getElem hlen⟩
  · intro hlt
    rw [Cycle_Backoff_eq delays hne a h0, Int.emod_eq_of_lt h0 hlt]

/-- Witness for C17: the delays 1 s, 2 s, 5 s; attempt 4 gives the second
delay. -/
theorem Cycle_Backoff_spec_witness :
    (Cycle [1 * time.Second, 2 * time.Second, 5 * time.Second]).Backoff 4
      = [1 * time.Second, 2 * time.Second, 5 * time.Second][((4 : Int)
          % ([1 * time.Second, 2 * time.Second, 5 * time.Second].length : Int)).toNat]? :=
  (Cycle_Backoff_spec [1 * time.Second, 2 * time.Second, 5 * time.Second] (by simp) 4
    (by decide)).1

theorem LittleEndian_lt (bs : List (Fin 256)) :
    bs.foldr (fun x acc => x.val + 256 * acc) 0 < 256 ^ bs.length := by
  induction bs with
  | nil => simp
  | cons b bs ih =>
    simp only [List.foldr_cons, List.length_cons, pow_succ]
    have := b.isLt
    omega

theorem LittleEndian_Uint64_lt (b : List (Fin 256)) : LittleEndian.Uint64 b < 2 ^ 64 := by
  unfold LittleEndian.Uint64
  have h1 := LittleEndian_lt (b.take 8)
  have h2 : (b.take 8).length ≤ 8 := by simp
  have h3 : 256 ^ (b.take 8).length ≤ 256 ^ 8 := Nat.pow_le_pow_right (by decide) h2
  have h4 : (256 : Nat) ^ 8 = 2 ^ 64 := by norm_num
  omega

/-- C18: DynamicHashDuration generates a consistent duration within the
provided window: for every window > 0 and every string i,
0 <= DynamicHashDuration(window, i) < window (it is the first 8 bytes of the
MD5 digest of i, read little-endian, modulo the window), and two calls with
the same (window, i) return the same value; for window = 0 the result is 0,
and for no window does a division by zero occur. -/
theorem DynamicHashDuration_spec (md5Sum : String → Bytes16) (window : Int) (i : String)
    (hw1 : -2 ^ 63 ≤ window) (hw2 : window < 2 ^ 63) :
    (0 < window → ∃ d, DynamicHashDuration md5Sum window i = some d ∧ 0 ≤ d ∧ d < window
        ∧ d = (LittleEndian.Uint64 (md5Sum i).val : Int) % window)
    ∧ (∀ (w2 : Int) (i2 : String), w2 = window → i2 = i →
        DynamicHashDuration md5Sum w2 i2 = DynamicHashDuration md5Sum window i)
    ∧ DynamicHashDuration md5Sum 0 i = some 0
    ∧ DynamicHashDuration md5Sum window i ≠ none := by
  have hnz : window ≠ 0 → (toUint64 window).toNat ≠ 0 := by
    intro h; unfold toUint64; omega
  refine ⟨?_, ?_, rfl, ?_⟩
  · intro hpos
    have hu : toUint64 window = window := by unfold toUint64; omega
    have hn : ((toUint64 window).toNat : Int) = window := by
      rw [hu]; exact Int.toNat_of_nonneg (by omega)
    have hcast : ((LittleEndian.Uint64 (md5Sum i).val % (toUint64 window).toNat : Nat) : Int)
        = (LittleEndian.Uint64 (md5Sum i).val : Int) % window := by
      rw [Int.natCast_mod, hn]
    have hm0 := Int.emod_nonneg (LittleEndian.Uint64 (md5Sum i).val : Int) (by omega : window ≠ 0)
    have hm1 := Int.emod_lt_of_pos (LittleEndian.Uint64 (md5Sum i).val : Int) hpos
    refine ⟨(LittleEndian.Uint64 (md5Sum i).val : Int) % window, ?_, hm0, hm1, rfl⟩
    unfold DynamicHashDuration DynamicHashWindow
    rw [if_neg (by omega)]
    dsimp only
    rw [if_neg (hnz (by omega))]
    dsimp only
    rw [hcast, wrapInt64_id _ (by omega) (by omega)]
  · intro w2 i2 hw hi
    rw [hw, hi]
  · unfold DynamicHashDuration DynamicHashWindow
    by_cases hz : window = 0
    · rw [if_pos hz]; simp
    · rw [if_neg hz]
      dsimp only
      rw [if_neg (hnz hz)]
      simp

end backoffx

namespace backoffx

/-- Witness for C18: a window of one hour. -/
theorem DynamicHashDuration_spec_witness :
    ∃ d, DynamicHashDuration exampleMd5Sum (60 * time.Minute) "peer" = some d ∧ 0 ≤ d
      ∧ d < 60 * time.Minute
      ∧ d = (LittleEndian.Uint64 (exampleMd5Sum "peer").val : Int) % (60 * time.Minute) :=
  (DynamicHashDuration_spec exampleMd5Sum (60 * time.Minute) "peer" (by decide)
    (by decide)).1 (by decide)

end backoffx

namespace torrent

theorem DeleteMin_cons (t : btree.BTree) (e : prioritizedPeer) (l : List prioritizedPeer)
    (h : t.items = e :: l) : t.DeleteMin = ({ t with items := l }, some e) := by
  unfold btree.BTree.DeleteMin
  rw [h]

/-- C19: eviction removes the lowest entry: for every non-empty pool,
DeleteMin removes and returns the entry that is least under the pool key
(untrusted before trusted, then lowest priority): it is smaller than every
remaining entry, and Len decreases by exactly 1; on an empty pool it returns
ok = false. Consequently a trusted peer is never evicted while an untrusted
peer remains in the pool. -/
theorem peerPool_DeleteMin_spec (t : peerPool) (ht : t.ordered) :
    (t.Len = 0 → t.DeleteMin = (t, prioritizedPeer.zero, false))
    ∧ (t.Len ≠ 0 → ∃ e : prioritizedPeer,
        e ∈ t.om.items
        ∧ t.DeleteMin.2 = (e, true)
        ∧ e :: t.DeleteMin.1.om.items = t.om.items
        ∧ t.DeleteMin.1.Len + 1 = t.Len
        ∧ (∀ x ∈ t.DeleteMin.1.om.items, e.Less x = true ∧ x.Less e = false)
        ∧ (∀ x ∈ t.om.items, x.p.Trusted = false → e.p.Trusted = false)
        ∧ (e.p.Trusted = true → ∀ x ∈ t.DeleteMin.1.om.items, x.p.Trusted = true)
        ∧ (∀ x ∈ t.om.items, x.p.Trusted = e.p.Trusted → e.prio ≤ x.prio)
        ∧ t.DeleteMin.1.ordered
        ∧ t.DeleteMin.1.getPrio = t.getPrio) := by
  constructor
  · intro h0
    have hnil : t.om.items = [] := List.length_eq_zero.1 h0
    unfold peerPool.DeleteMin btree.BTree.DeleteMin
    rw [hnil]
  · intro hne
    cases hl : t.om.items with
    | nil => exact absurd (by rw [peerPool.Len, btree.BTree.Len, hl]; rfl) hne
    | cons e l =>
      have hp : t.DeleteMin = ({ t with om := { t.om with items := l } }, e, true) := by
        unfold peerPool.DeleteMin
        rw [DeleteMin_cons t.om e l hl]
      have hord : (e :: l).Pairwise (fun a b => a.Less b = true) := by
        have := ht
        unfold peerPool.ordered at this
        rwa [hl] at this
      rw [List.pairwise_cons] at hord
      obtain ⟨hlt, hl1⟩ := hord
      have huntrusted : ∀ x ∈ l, x.p.Trusted = false → e.p.Trusted = false := by
        intro x hx hxt
        have := hlt x hx
        rw [Less_iff] at this
        rcases this with ⟨h1, _⟩ | ⟨h1, _⟩
        · exact h1
        · rw [h1]; exact hxt
      refine ⟨e, List.mem_cons_self _ _, ?_, ?_, ?_, ?_, ?_, ?_, ?_, ?_, ?_⟩
      · rw [hp]
      · rw [hp]
      · rw [hp]
        show l.length + 1 = t.om.items.length
        rw [hl]; rfl
      · rw [hp]
        intro x hx
        exact ⟨hlt x hx, Less_asymm (hlt x hx)⟩
      · intro x hx hxt
        rcases List.mem_cons.1 hx with hx1 | hx1
        · rw [← hx1]; exact hxt
        · exact huntrusted x hx1 hxt
      · rw [hp]
        intro het x hx
        cases hxt : x.p.Trusted with
        | true => rfl
        | false =>
          have := huntrusted x hx hxt
          rw [het] at this
          exact absurd this (by decide)
      · intro x hx hxt
        rcases List.mem_cons.1 hx with hx1 | hx1
        · rw [hx1]
        · have := hlt x hx1
          rw [Less_iff_rank] at this
          rw [hxt] at this
          omega
      · rw [hp]; exact hl1
      · rw [hp]

/-- Witness for C19: the pool that holds an untrusted peer of priority 9 and
a trusted peer of priority 1: DeleteMin evicts the untrusted one. -/
theorem peerPool_DeleteMin_spec_witness :
    examplePool.ordered
    ∧ examplePool.DeleteMin.2 = ({ prio := 9, p := examplePeer 9 false }, true)
    ∧ ∃ e : prioritizedPeer,
        e ∈ examplePool.om.items
        ∧ examplePool.DeleteMin.2 = (e, true)
        ∧ e :: examplePool.DeleteMin.1.om.items = examplePool.om.items
        ∧ examplePool.DeleteMin.1.Len + 1 = examplePool.Len
        ∧ (∀ x ∈ examplePool.DeleteMin.1.om.items, e.Less x = true ∧ x.Less e = false)
        ∧ (∀ x ∈ examplePool.om.items, x.p.Trusted = false → e.p.Trusted = false)
        ∧ (e.p.Trusted = true → ∀ x ∈ examplePool.DeleteMin.1.om.items, x.p.Trusted = true)
        ∧ (∀ x ∈ examplePool.om.items, x.p.Trusted = e.p.Trusted → e.prio ≤ x.prio)
        ∧ examplePool.DeleteMin.1.ordered
        ∧ examplePool.DeleteMin.1.getPrio = examplePool.getPrio :=
  ⟨examplePool_ordered, rfl,
    (peerPool_DeleteMin_spec examplePool examplePool_ordered).2 (by decide)⟩

end torrent

namespace cstate

end cstate

namespace dht

theorem fromBigEndian_lt (bs : List (Fin 256)) :
    tracker.fromBigEndian bs < 256 ^ bs.length := by
  induction bs using List.reverseRecOn with
  | nil => simp [tracker.fromBigEndian]
  | append_singleton l b ih =>
    rw [tracker.fromBigEndian_concat, List.length_append, List.length_singleton, pow_succ]
    have := b.isLt
    omega

theorem bigEndian_fromBigEndian (bs : List (Fin 256)) :
    tracker.bigEndian bs.length (tracker.fromBigEndian bs : Int) = bs := by
  induction bs using List.reverseRecOn with
  | nil => rfl
  | append_singleton l b ih =>
    rw [tracker.fromBigEndian_concat, List.length_append, List.length_singleton,
      tracker.bigEndian]
    have hb := b.isLt
    have hdiv : (((tracker.fromBigEndian l * 256 + b.val : Nat) : Int)) / 256
        = (tracker.fromBigEndian l : Int) := by
      push_cast; omega
    have hmod : (((tracker.fromBigEndian l * 256 + b.val : Nat) : Int)) % 256
        = (b.val : Int) := by
      push_cast; omega
    rw [hdiv, hmod, ih]
    congr 2
    apply Fin.ext
    show (Int.toNat (b.val : Int)) % 256 = b.val
    rw [Int.toNat_ofNat]
    exact Nat.mod_eq_of_lt hb

theorem toNat_lt (a : tracker.int160.T) : int160.toNat a < 2 ^ 160 := by
  have h := fromBigEndian_lt a.bits.val
  rw [a.bits.property] at h
  have e : (256 : Nat) ^ 20 = 2 ^ 160 := by norm_num
  unfold int160.toNat
  omega

theorem toNat_injective (a b : tracker.int160.T) (h : int160.toNat a = int160.toNat b) :
    a = b := by
  have ha := bigEndian_fromBigEndian a.bits.val
  have hb := bigEndian_fromBigEndian b.bits.val
  unfold int160.toNat at h
  rw [a.bits.property, h] at ha
  rw [b.bits.property] at hb
  have hv : a.bits.val = b.bits.val := ha.symm.trans hb
  rcases a with ⟨⟨av, ap⟩⟩
  rcases b with ⟨⟨bv, bp⟩⟩
  simp only at hv
  subst hv
  rfl

theorem toNat_ofNat (x : Nat) (hx : x < 2 ^ 160) : int160.toNat (int160.ofNat x) = x := by
  unfold int160.toNat int160.ofNat
  have h := tracker.fromBigEndian_bigEndian 20 (x : Int)
  have e : (256 : Int) ^ 20 = 2 ^ 160 := by norm_num
  rw [e] at h
  have hx2 : ((x : Nat) : Int) % 2 ^ 160 = x := Int.emod_eq_of_lt (by omega) (by exact_mod_cast hx)
  rw [hx2] at h
  exact_mod_cast h

theorem toNat_Xor (a b : tracker.int160.T) :
    int160.toNat (int160.Xor a b) = int160.toNat a ^^^ int160.toNat b := by
  unfold int160.Xor
  exact toNat_ofNat _ (Nat.xor_lt_two_pow (toNat_lt a) (toNat_lt b))

theorem bitLenUpTo_spec (N x : Nat) (hx : x < 2 ^ N) :
    bitLenUpTo N x ≤ N ∧ x < 2 ^ bitLenUpTo N x
    ∧ (bitLenUpTo N x ≠ 0 → 2 ^ (bitLenUpTo N x - 1) ≤ x)
    ∧ (bitLenUpTo N x = 0 ↔ x = 0) := by
  induction N with
  | zero =>
    have h0 : x = 0 := by simpa using hx
    simp [bitLenUpTo, h0]
  | succ n ih =>
    unfold bitLenUpTo
    by_cases h : x < 2 ^ n
    · rw [if_pos h]
      obtain ⟨a1, a2, a3, a4⟩ := ih h
      exact ⟨Nat.le_succ_of_le a1, a2, a3, a4⟩
    · rw [if_neg h]
      have hpos : 0 < 2 ^ n := Nat.two_pow_pos n
      refine ⟨le_refl _, hx, ?_, ?_⟩
      · intro _
        simp only [Nat.add_sub_cancel]
        omega
      · constructor
        · intro hc; exact absurd hc (Nat.succ_ne_zero n)
        · intro hc; omega

end dht

namespace dht

theorem testBit_top (a L : Nat) (hL : 1 ≤ L) (h1 : 2 ^ (L - 1) ≤ a) (h2 : a < 2 ^ L) :
    a.testBit (L - 1) = true := by
  have hpow : 2 ^ L = 2 * 2 ^ (L - 1) := by
    have : L = (L - 1) + 1 := by omega
    conv_lhs => rw [this, pow_succ]
    ring
  have hdiv : a / 2 ^ (L - 1) = 1 :=
    Nat.div_eq_of_lt_le (by omega) (by omega)
  rw [Nat.testBit_to_div_mod, hdiv]
  decide

theorem BitLen_Xor (root id : tracker.int160.T) (hne : id ≠ root) :
    1 ≤ int160.BitLen (int160.Xor root id)
    ∧ int160.BitLen (int160.Xor root id) ≤ 160
    ∧ (∀ p, int160.BitLen (int160.Xor root id) ≤ p →
        (int160.toNat root).testBit p = (int160.toNat id).testBit p)
    ∧ (int160.toNat root).testBit (int160.BitLen (int160.Xor root id) - 1)
        ≠ (int160.toNat id).testBit (int160.BitLen (int160.Xor root id) - 1) := by
  have hx : int160.toNat (int160.Xor root id) = int160.toNat root ^^^ int160.toNat id :=
    toNat_Xor root id
  have hlt : int160.toNat (int160.Xor root id) < 2 ^ 160 := toNat_lt _
  have hnz : int160.toNat (int160.Xor root id) ≠ 0 := by
    rw [hx]
    intro h0
    exact hne (toNat_injective id root (Nat.xor_eq_zero.1 h0).symm)
  obtain ⟨a1, a2, a3, a4⟩ := bitLenUpTo_spec 160 _ hlt
  have hL0 : int160.BitLen (int160.Xor root id) ≠ 0 := fun h => hnz (a4.1 h)
  have hbit : ∀ p, ((int160.toNat root).testBit p ^^ (int160.toNat id).testBit p)
      = (int160.toNat (int160.Xor root id)).testBit p := by
    intro p; rw [hx, Nat.testBit_xor]
  refine ⟨Nat.one_le_iff_ne_zero.2 hL0, a1, ?_, ?_⟩
  · intro p hp
    have hle : 2 ^ int160.BitLen (int160.Xor root id) ≤ 2 ^ p :=
      Nat.pow_le_pow_right (by decide) hp
    have hfalse : (int160.toNat (int160.Xor root id)).testBit p = false :=
      Nat.testBit_lt_two_pow (lt_of_lt_of_le a2 hle)
    have := hbit p
    rw [hfalse] at this
    revert this
    cases (int160.toNat root).testBit p <;> cases (int160.toNat id).testBit p <;> simp
  · have htrue := testBit_top _ _ (Nat.one_le_iff_ne_zero.2 hL0) (a3 hL0) a2
    have := hbit (int160.BitLen (int160.Xor root id) - 1)
    rw [htrue] at this
    revert this
    cases (int160.toNat root).testBit (int160.BitLen (int160.Xor root id) - 1) <;>
      cases (int160.toNat id).testBit (int160.BitLen (int160.Xor root id) - 1) <;> simp

theorem bucketAt_some (tbl : table) (i : Int) (h0 : 0 ≤ i) (h1 : i < 160) :
    tbl.bucketAt i = some (tbl.buckets ⟨i.toNat, by omega⟩) := by
  unfold table.bucketAt
  rw [dif_pos ⟨h0, h1⟩]

theorem bucketForID_some (tbl : table) (id : tracker.int160.T) (hne : id ≠ tbl.rootID) :
    ∃ (i : Int) (h0 : 0 ≤ i) (h1 : i < 160),
      i = 160 - (int160.BitLen (int160.Xor tbl.rootID id) : Int)
      ∧ tbl.bucketIndex id = some i
      ∧ tbl.bucketForID id = some (i, tbl.buckets ⟨i.toNat, by omega⟩) := by
  obtain ⟨b1, b2, _, _⟩ := BitLen_Xor tbl.rootID id hne
  have hidx : tbl.bucketIndex id
      = some (160 - (int160.BitLen (int160.Xor tbl.rootID id) : Int)) := by
    unfold table.bucketIndex
    rw [if_neg hne]
  refine ⟨160 - (int160.BitLen (int160.Xor tbl.rootID id) : Int), by omega, by omega, rfl,
    hidx, ?_⟩
  unfold table.bucketForID
  rw [hidx]
  simp only
  rw [bucketAt_some tbl _ (by omega) (by omega)]

/-- C22: for every 160-bit id different from the table's root id,
bucketIndex(id) = 160 - bitlen(rootID XOR id); the bits of id and of the root
id agree at every position from bitlen upwards and differ at position
bitlen - 1, so the index is the number of leading bits id shares with the
root id; it always lies in [0, 159], so indexing the 160-element bucket
array with it never goes out of range; the only input on which bucketIndex
fails is id = rootID, and getNode returns nil for the root id without calling
it (and never fails). -/
theorem bucketIndex_spec (tbl : table) (id : tracker.int160.T) (addr : String) :
    (id ≠ tbl.rootID →
      ∃ L : Nat, L = int160.BitLen (int160.Xor tbl.rootID id)
        ∧ 1 ≤ L ∧ L ≤ 160
        ∧ tbl.bucketIndex id = some (160 - (L : Int))
        ∧ (0 : Int) ≤ 160 - (L : Int) ∧ 160 - (L : Int) ≤ 159
        ∧ (∀ p, L ≤ p → (int160.toNat tbl.rootID).testBit p = (int160.toNat id).testBit p)
        ∧ (int160.toNat tbl.rootID).testBit (L - 1) ≠ (int160.toNat id).testBit (L - 1)
        ∧ (tbl.bucketAt (160 - (L : Int))).isSome = true
        ∧ (tbl.bucketForID id).isSome = true)
    ∧ (tbl.bucketIndex id = none ↔ id = tbl.rootID)
    ∧ tbl.getNode addr tbl.rootID = some none
    ∧ (tbl.getNode addr id).isSome = true := by
  refine ⟨?_, ?_, ?_, ?_⟩
  · intro hne
    obtain ⟨b1, b2, b3, b4⟩ := BitLen_Xor tbl.rootID id hne
    obtain ⟨i, h0, h1, hi, hidx, hfor⟩ := bucketForID_some tbl id hne
    refine ⟨_, rfl, b1, b2, ?_, by omega, by omega, b3, b4, ?_, ?_⟩
    · rw [hidx, hi]
    · rw [bucketAt_some tbl _ (by omega) (by omega)]; rfl
    · rw [hfor]; rfl
  · constructor
    · intro h
      by_contra hne
      obtain ⟨i, _, _, _, hidx, _⟩ := bucketForID_some tbl id hne
      rw [hidx] at h
      exact absurd h (by simp)
    · intro h
      unfold table.bucketIndex
      rw [if_pos h]
  · unfold table.getNode
    rw [if_pos rfl]
  · unfold table.getNode
    by_cases h : id = tbl.rootID
    · rw [if_pos h]; rfl
    · rw [if_neg h]
      obtain ⟨i, _, _, _, _, hfor⟩ := bucketForID_some tbl id h
      rw [hfor]
      rfl

end dht

namespace dht

theorem bucketAt_fin (tbl : table) (j : Fin 160) :
    tbl.bucketAt (j.val : Int) = some (tbl.buckets j) := by
  have h := bucketAt_some tbl (j.val : Int) (by omega) (by omega)
  rw [h]
  congr 2

theorem setBucket_fin (tbl : table) (j : Fin 160) (b : bucket) :
    tbl.setBucket (j.val : Int) b
      = { tbl with buckets := Function.update tbl.buckets j b } := by
  unfold table.setBucket
  rw [dif_pos ⟨by omega, by omega⟩]
  congr 2

theorem bucketForID_fin (tbl : table) (id : tracker.int160.T) (hne : id ≠ tbl.rootID) :
    ∃ j : Fin 160,
      ((j.val : Nat) : Int) = 160 - (int160.BitLen (int160.Xor tbl.rootID id) : Int)
      ∧ tbl.bucketIndex id = some (j.val : Int)
      ∧ tbl.bucketForID id = some ((j.val : Int), tbl.buckets j) := by
  obtain ⟨i, h0, h1, hi, hidx, hfor⟩ := bucketForID_some tbl id hne
  have hj : ((⟨i.toNat, by omega⟩ : Fin 160).val : Int) = i := Int.toNat_of_nonneg h0
  refine ⟨⟨i.toNat, by omega⟩, by rw [hj, hi], by rw [hj, hidx], ?_⟩
  rw [hfor]
  simp only [Option.some.injEq, Prod.mk.injEq, and_true]
  exact hj.symm

theorem GetNode_isSome (b : bucket) (addr : String) (id : tracker.int160.T) :
    (b.GetNode addr id).isSome = true ↔ ∃ m ∈ b.nodes, m.Addr = addr ∧ m.Id = id := by
  unfold bucket.GetNode
  rw [List.find?_isSome]
  simp

theorem AddNode_new (b : bucket) (n : node) (k : Int)
    (h : ¬ ∃ m ∈ b.nodes, m.Addr = n.Addr ∧ m.Id = n.Id) :
    b.AddNode n k = { nodes := b.nodes ++ [n] } := by
  unfold bucket.AddNode
  rw [if_neg (fun hmem => h ⟨n, hmem, rfl, rfl⟩)]

theorem Remove_Len (b : bucket) (n : node) : (b.Remove n).Len ≤ b.Len := by
  unfold bucket.Remove bucket.Len
  exact List.length_filter_le _ _

end dht

namespace dht

theorem addNode_root (tbl : table) (n : node) (h : n.Id = tbl.rootID) :
    tbl.addNode n = some (tbl, some "is root id") := by
  unfold table.addNode
  rw [if_pos h]

theorem addNode_present (tbl : table) (n : node) (j : Fin 160) (hne : n.Id ≠ tbl.rootID)
    (hfor : tbl.bucketForID n.Id = some ((j.val : Int), tbl.buckets j))
    (hp : ∃ m ∈ (tbl.buckets j).nodes, m.Addr = n.Addr ∧ m.Id = n.Id) :
    tbl.addNode n = some (tbl, some "already present") := by
  unfold table.addNode
  rw [if_neg hne, hfor]
  simp only
  rw [if_pos ((GetNode_isSome _ _ _).2 hp)]

theorem addNode_full (tbl : table) (n : node) (j : Fin 160) (hne : n.Id ≠ tbl.rootID)
    (hfor : tbl.bucketForID n.Id = some ((j.val : Int), tbl.buckets j))
    (hp : ¬ ∃ m ∈ (tbl.buckets j).nodes, m.Addr = n.Addr ∧ m.Id = n.Id)
    (hfull : ((tbl.buckets j).Len : Int) ≥ tbl.k) :
    tbl.addNode n = some (tbl, some "bucket is full") := by
  unfold table.addNode
  rw [if_neg hne, hfor]
  simp only
  rw [if_neg (fun h => hp ((GetNode_isSome _ _ _).1 h)), if_pos hfull]

theorem addNode_insert (tbl : table) (n : node) (j : Fin 160) (hne : n.Id ≠ tbl.rootID)
    (hfor : tbl.bucketForID n.Id = some ((j.val : Int), tbl.buckets j))
    (hp : ¬ ∃ m ∈ (tbl.buckets j).nodes, m.Addr = n.Addr ∧ m.Id = n.Id)
    (hroom : ((tbl.buckets j).Len : Int) < tbl.k) :
    tbl.addNode n
      = some ({ tbl with
                  buckets := Function.update tbl.buckets j
                    { nodes := (tbl.buckets j).nodes ++ [n] }
                  addrs := Function.update tbl.addrs n.Addr
                    (if n.Id ∈ tbl.addrs n.Addr then tbl.addrs n.Addr
                      else tbl.addrs n.Addr ++ [n.Id]) }, none) := by
  unfold table.addNode
  rw [if_neg hne, hfor]
  simp only
  rw [if_neg (fun h => hp ((GetNode_isSome _ _ _).1 h)), if_neg (by omega),
    setBucket_fin, AddNode_new _ _ _ hp]

theorem addNode_total (tbl : table) (n : node) : ∃ r, tbl.addNode n = some r := by
  by_cases hroot : n.Id = tbl.rootID
  · exact ⟨_, addNode_root tbl n hroot⟩
  · obtain ⟨j, _, _, hfor⟩ := bucketForID_fin tbl n.Id hroot
    by_cases hp : ∃ m ∈ (tbl.buckets j).nodes, m.Addr = n.Addr ∧ m.Id = n.Id
    · exact ⟨_, addNode_present tbl n j hroot hfor hp⟩
    · by_cases hfull : ((tbl.buckets j).Len : Int) ≥ tbl.k
      · exact ⟨_, addNode_full tbl n j hroot hfor hp hfull⟩
      · exact ⟨_, addNode_insert tbl n j hroot hfor hp (by omega)⟩

theorem addNode_inv (tbl : table) (n : node) (r : table × Option String)
    (h : tbl.addNode n = some r)
    (hinv : ∀ j, ((tbl.buckets j).Len : Int) ≤ max tbl.k 0) :
    (∀ j, ((r.1.buckets j).Len : Int) ≤ max r.1.k 0) ∧ r.1.k = tbl.k
      ∧ r.1.rootID = tbl.rootID := by
  by_cases hroot : n.Id = tbl.rootID
  · rw [addNode_root tbl n hroot] at h
    cases h
    exact ⟨hinv, rfl, rfl⟩
  · obtain ⟨j, _, _, hfor⟩ := bucketForID_fin tbl n.Id hroot
    by_cases hp : ∃ m ∈ (tbl.buckets j).nodes, m.Addr = n.Addr ∧ m.Id = n.Id
    · rw [addNode_present tbl n j hroot hfor hp] at h
      cases h
      exact ⟨hinv, rfl, rfl⟩
    · by_cases hfull : ((tbl.buckets j).Len : Int) ≥ tbl.k
      · rw [addNode_full tbl n j hroot hfor hp hfull] at h
        cases h
        exact ⟨hinv, rfl, rfl⟩
      · rw [addNode_insert tbl n j hroot hfor hp (by omega)] at h
        cases h
        refine ⟨?_, rfl, rfl⟩
        intro i
        show (((Function.update tbl.buckets j
          { nodes := (tbl.buckets j).nodes ++ [n] } i).Len : Nat) : Int) ≤ max tbl.k 0
        by_cases hij : i = j
        · subst hij
          rw [Function.update_same]
          have hlen : (bucket.Len { nodes := (tbl.buckets i).nodes ++ [n] })
              = (tbl.buckets i).Len + 1 := by
            simp [bucket.Len]
          rw [hlen]
          push_cast
          omega
        · rw [Function.update_noteq hij]
          exact hinv i

theorem dropNode_inv (tbl : table) (n : node) (t : table) (h : tbl.dropNode n = some t)
    (hinv : ∀ j, ((tbl.buckets j).Len : Int) ≤ max tbl.k 0) :
    (∀ j, ((t.buckets j).Len : Int) ≤ max t.k 0) ∧ t.k = tbl.k ∧ t.rootID = tbl.rootID := by
  unfold table.dropNode at h
  simp only at h
  by_cases hmem : n.Id ∉ tbl.addrs n.Addr
  · rw [if_pos hmem] at h
    exact absurd h (by simp)
  · rw [if_neg hmem] at h
    obtain ⟨tbl1, h1, h1b, h1r, h1k⟩ : ∃ tbl1 : table,
        (match tbl1.bucketForID n.Id with
            | none => none
            | some (i, b) => some (tbl1.setBucket i (b.Remove n))) = some t
        ∧ tbl1.buckets = tbl.buckets ∧ tbl1.rootID = tbl.rootID ∧ tbl1.k = tbl.k :=
      ⟨_, h, rfl, rfl, rfl⟩
    by_cases hroot : n.Id = tbl1.rootID
    · have hnone : tbl1.bucketForID n.Id = none := by
        unfold table.bucketForID table.bucketIndex
        rw [if_pos hroot]
      rw [hnone] at h1
      exact absurd h1 (by simp)
    · obtain ⟨j, _, _, hfor⟩ := bucketForID_fin tbl1 n.Id hroot
      rw [hfor] at h1
      simp only at h1
      rw [setBucket_fin] at h1
      cases h1
      refine ⟨?_, h1k, h1r⟩
      intro i
      show (((Function.update tbl1.buckets j ((tbl1.buckets j).Remove n) i).Len : Nat) : Int)
        ≤ max tbl1.k 0
      rw [h1b, h1k]
      by_cases hij : i = j
      · subst hij
        rw [Function.update_same]
        have := Remove_Len (tbl.buckets i) n
        have := hinv i
        omega
      · rw [Function.update_noteq hij]
        exact hinv i

theorem run_inv (calls : List Call) :
    ∀ (tbl t : table), tbl.run calls = some t →
      (∀ j, ((tbl.buckets j).Len : Int) ≤ max tbl.k 0) →
      (∀ j, ((t.buckets j).Len : Int) ≤ max t.k 0) ∧ t.k = tbl.k ∧ t.rootID = tbl.rootID := by
  induction calls with
  | nil =>
    intro tbl t h hinv
    simp only [table.run, Option.some.injEq] at h
    subst h
    exact ⟨hinv, rfl, rfl⟩
  | cons c rest ih =>
    intro tbl t h hinv
    cases c with
    | addNode n =>
      obtain ⟨r, hr⟩ := addNode_total tbl n
      simp only [table.run, hr] at h
      obtain ⟨a1, a2, a3⟩ := addNode_inv tbl n r hr hinv
      obtain ⟨b1, b2, b3⟩ := ih r.1 t h a1
      exact ⟨b1, b2.trans a2, b3.trans a3⟩
    | dropNode n =>
      cases hd : tbl.dropNode n with
      | none => simp only [table.run, hd] at h; exact absurd h (by simp)
      | some t2 =>
        simp only [table.run, hd] at h
        obtain ⟨a1, a2, a3⟩ := dropNode_inv tbl n t2 hd hinv
        obtain ⟨b1, b2, b3⟩ := ih t2 t h a1
        exact ⟨b1, b2.trans a2, b3.trans a3⟩

theorem foldl_sum_le (f : Fin 160 → Nat) (K : Nat) (hf : ∀ i, f i ≤ K) (l : List (Fin 160)) :
    ∀ init : Nat, l.foldl (fun num i => num + f i) init ≤ init + l.length * K := by
  induction l with
  | nil => intro init; simp
  | cons x xs ih =>
    intro init
    rw [List.foldl_cons, List.length_cons]
    have h1 := ih (init + f x)
    have h2 := hf x
    have h3 : (xs.length + 1) * K = xs.length * K + K := by ring
    omega

theorem numNodes_le (tbl : table) (K : Nat) (h : ∀ j, (tbl.buckets j).Len ≤ K) :
    tbl.numNodes ≤ 160 * K := by
  unfold table.numNodes
  have := foldl_sum_le (fun i => (tbl.buckets i).Len) K h (List.finRange 160) 0
  rw [List.length_finRange] at this
  omega

end dht

namespace dht

/-- C21: for a DHT table created by newTable(k) (with any root id) and every
sequence of addNode and dropNode calls that runs through, every bucket holds
at most k nodes when k >= 0 (and none at all when k is negative), so
numNodes() <= 160 * k. addNode never panics; it returns an error and leaves
the table (buckets and address index) unchanged when the node's id is the
root id, when a node with the same address and id is already in its bucket,
or when its bucket already holds k nodes; otherwise it appends the node to
bucket bucketIndex(id), leaves the other buckets alone, and records its id
under its address. -/
theorem table_bucket_bound (k : Int) (root : tracker.int160.T) (calls : List Call) :
    (∀ t, table.run { newTable k with rootID := root } calls = some t →
      (∀ j, ((t.buckets j).Len : Int) ≤ max k 0)
      ∧ (0 ≤ k → ∀ j, ((t.buckets j).Len : Int) ≤ k)
      ∧ (0 ≤ k → (t.numNodes : Int) ≤ 160 * k)
      ∧ t.k = k ∧ t.rootID = root)
    ∧ (∀ (tbl : table) (n : node),
      (∃ r, tbl.addNode n = some r)
      ∧ (n.Id = tbl.rootID → tbl.addNode n = some (tbl, some "is root id"))
      ∧ (n.Id ≠ tbl.rootID → ∃ j : Fin 160,
          tbl.bucketIndex n.Id = some (j.val : Int)
          ∧ ((∃ m ∈ (tbl.buckets j).nodes, m.Addr = n.Addr ∧ m.Id = n.Id) →
              tbl.addNode n = some (tbl, some "already present"))
          ∧ (((tbl.buckets j).Len : Int) ≥ tbl.k → ∃ e, tbl.addNode n = some (tbl, some e))
          ∧ ((¬ ∃ m ∈ (tbl.buckets j).nodes, m.Addr = n.Addr ∧ m.Id = n.Id) →
              ((tbl.buckets j).Len : Int) ≥ tbl.k →
              tbl.addNode n = some (tbl, some "bucket is full"))
          ∧ ((¬ ∃ m ∈ (tbl.buckets j).nodes, m.Addr = n.Addr ∧ m.Id = n.Id) →
              ((tbl.buckets j).Len : Int) < tbl.k →
              ∃ t2, tbl.addNode n = some (t2, none)
                ∧ t2.buckets j = { nodes := (tbl.buckets j).nodes ++ [n] }
                ∧ n ∈ (t2.buckets j).nodes
                ∧ (t2.buckets j).Len = (tbl.buckets j).Len + 1
                ∧ (∀ i, i ≠ j → t2.buckets i = tbl.buckets i)
                ∧ n.Id ∈ t2.addrs n.Addr
                ∧ (∀ x ∈ tbl.addrs n.Addr, x ∈ t2.addrs n.Addr)
                ∧ (∀ a, a ≠ n.Addr → t2.addrs a = tbl.addrs a)
                ∧ t2.rootID = tbl.rootID ∧ t2.k = tbl.k))) := by
  constructor
  · intro t hrun
    have hinit : ∀ j, (((({ newTable k with rootID := root } : table).buckets j).Len : Nat) : Int)
        ≤ max ({ newTable k with rootID := root } : table).k 0 := by
      intro j
      show ((0 : Nat) : Int) ≤ max k 0
      omega
    obtain ⟨a1, a2, a3⟩ := run_inv calls _ t hrun hinit
    have hk : t.k = k := a2
    rw [hk] at a1
    refine ⟨a1, ?_, ?_, hk, a3⟩
    · intro h0 j
      have := a1 j
      omega
    · intro h0
      have hb : ∀ j, (t.buckets j).Len ≤ k.toNat := by
        intro j
        have := a1 j
        omega
      have := numNodes_le t k.toNat hb
      omega
  · intro tbl n
    refine ⟨addNode_total tbl n, addNode_root tbl n, ?_⟩
    intro hne
    obtain ⟨j, _, hidx, hfor⟩ := bucketForID_fin tbl n.Id hne
    refine ⟨j, hidx, addNode_present tbl n j hne hfor, ?_, addNode_full tbl n j hne hfor, ?_⟩
    · intro hfull
      by_cases hp : ∃ m ∈ (tbl.buckets j).nodes, m.Addr = n.Addr ∧ m.Id = n.Id
      · exact ⟨_, addNode_present tbl n j hne hfor hp⟩
      · exact ⟨_, addNode_full tbl n j hne hfor hp hfull⟩
    · intro hp hroom
      refine ⟨_, addNode_insert tbl n j hne hfor hp hroom, ?_, ?_, ?_, ?_, ?_, ?_, ?_, rfl, rfl⟩
      · show Function.update tbl.buckets j _ j = _
        rw [Function.update_same]
      · show n ∈ (Function.update tbl.buckets j _ j).nodes
        rw [Function.update_same]
        simp
      · show (Function.update tbl.buckets j _ j).Len = _
        rw [Function.update_same]
        simp [bucket.Len]
      · intro i hij
        show Function.update tbl.buckets j _ i = _
        rw [Function.update_noteq hij]
      · show n.Id ∈ Function.update tbl.addrs n.Addr _ n.Addr
        rw [Function.update_same]
        split_ifs with hmem
        · exact hmem
        · simp
      · intro x hx
        show x ∈ Function.update tbl.addrs n.Addr _ n.Addr
        rw [Function.update_same]
        split_ifs
        · exact hx
        · exact List.mem_append_left _ hx
      · intro a ha
        show Function.update tbl.addrs n.Addr _ a = _
        rw [Function.update_noteq ha]

end dht

namespace dht

set_option maxRecDepth 100000 in
/-- An example for C21: in a table made by newTable(1), whose root id is the
zero id, the ids 1 and 2 belong to the buckets 159 and 158; of two nodes of
bucket 159 the second is refused, so after three addNode calls the table
holds two nodes. -/
theorem table_example :
    (newTable 1).bucketIndex exampleNode1.Id = some 159
    ∧ (newTable 1).bucketIndex exampleNode2.Id = some 159
    ∧ (newTable 1).bucketIndex exampleNode3.Id = some 158
    ∧ ((newTable 1).addNode exampleNode1).map (fun r => r.2) = some none
    ∧ (table.run (newTable 1) [Call.addNode exampleNode1]).bind
        (fun t => (t.addNode exampleNode2).map (fun r => r.2)) = some (some "bucket is full")
    ∧ (table.run (newTable 1)
        [Call.addNode exampleNode1, Call.addNode exampleNode2, Call.addNode exampleNode3]).map
          table.numNodes = some 2 := by
  refine ⟨by decide, by decide, by decide, by decide, by decide, by decide⟩

theorem candidates_zero (tbl : table) (filter : node → Bool) :
    tbl.candidates filter 0 = [] := rfl

theorem candidates_succ (tbl : table) (filter : node → Bool) (m : Nat) :
    tbl.candidates filter (m + 1)
      = (match tbl.bucketAt m with
          | none => []
          | some b => b.NodeIter.filter filter) ++ tbl.candidates filter m := rfl

theorem closestLoop_zero (tbl : table) (k : Int) (filter : node → Bool) (ret : List node) :
    tbl.closestLoop k filter 0 ret = some ret := rfl

set_option maxRecDepth 10000 in
theorem closestLoop_succ (tbl : table) (k : Int) (filter : node → Bool) (m : Nat)
    (ret : List node) :
    tbl.closestLoop k filter (m + 1) ret
      = if (ret.length : Int) < k then
          match tbl.bucketAt m with
          | none => none
          | some b => tbl.closestLoop k filter m (ret ++ b.NodeIter.filter filter)
        else some ret := by
  rfl

theorem candidates_mem (tbl : table) (filter : node → Bool) (m : Nat) (hm : m ≤ 160)
    (x : node) :
    x ∈ tbl.candidates filter m
      ↔ ∃ j : Fin 160, j.val < m ∧ x ∈ (tbl.buckets j).nodes ∧ filter x = true := by
  induction m with
  | zero =>
    rw [candidates_zero]
    simp
  | succ m ih =>
    have hm1 : m < 160 := hm
    have hb : tbl.bucketAt (m : Int) = some (tbl.buckets ⟨m, hm1⟩) :=
      bucketAt_fin tbl ⟨m, hm1⟩
    rw [candidates_succ, hb]
    simp only [List.mem_append, bucket.NodeIter, List.mem_filter, ih (Nat.le_of_lt hm1)]
    constructor
    · rintro (⟨h1, h2⟩ | ⟨j, hj, h1, h2⟩)
      · exact ⟨⟨m, hm1⟩, Nat.lt_succ_self m, h1, h2⟩
      · exact ⟨j, Nat.lt_succ_of_lt hj, h1, h2⟩
    · rintro ⟨j, hj, h1, h2⟩
      by_cases hjm : j.val = m
      · left
        have hj2 : j = ⟨m, hm1⟩ := Fin.ext hjm
        rw [← hj2]
        exact ⟨h1, h2⟩
      · right
        exact ⟨j, Nat.lt_of_le_of_ne (Nat.le_of_lt_succ hj) hjm, h1, h2⟩

theorem closestLoop_prefix (tbl : table) (k : Int) (filter : node → Bool) (m : Nat)
    (hm : m ≤ 160) :
    ∀ ret : List node, ∃ pre : List node,
      tbl.closestLoop k filter m ret = some (ret ++ pre)
      ∧ pre <+: tbl.candidates filter m
      ∧ (((ret ++ pre).length : Int) < k → pre = tbl.candidates filter m) := by
  induction m with
  | zero =>
    intro ret
    refine ⟨[], ?_, ?_, ?_⟩
    · rw [closestLoop_zero, List.append_nil]
    · rw [candidates_zero]
    · intro _; rw [candidates_zero]
  | succ m ih =>
    intro ret
    have hm1 : m < 160 := hm
    have hb : tbl.bucketAt (m : Int) = some (tbl.buckets ⟨m, hm1⟩) :=
      bucketAt_fin tbl ⟨m, hm1⟩
    by_cases hlt : (ret.length : Int) < k
    · obtain ⟨pre, h1, h2, h3⟩ :=
        ih (Nat.le_of_lt hm1) (ret ++ (tbl.buckets ⟨m, hm1⟩).NodeIter.filter filter)
      refine ⟨(tbl.buckets ⟨m, hm1⟩).NodeIter.filter filter ++ pre, ?_, ?_, ?_⟩
      · rw [closestLoop_succ, if_pos hlt, hb]
        simp only
        rw [h1, List.append_assoc]
      · rw [candidates_succ, hb]
        exact (List.prefix_append_right_inj _).2 h2
      · intro hlen
        rw [candidates_succ, hb]
        simp only
        rw [h3 (by rw [List.append_assoc]; exact hlen)]
    · refine ⟨[], ?_, List.nil_prefix, ?_⟩
      · rw [closestLoop_succ, if_neg hlt, List.append_nil]
      · intro hlen
        rw [List.append_nil] at hlen
        exact absurd hlen hlt

end dht

namespace dht

theorem closestNodes_start (tbl : table) (k : Int) (target : tracker.int160.T)
    (filter : node → Bool) :
    ∃ N : Nat, N ≤ 160
      ∧ (target = tbl.rootID → N = 160)
      ∧ (target ≠ tbl.rootID →
          (N : Int) = 160 - (int160.BitLen (int160.Xor tbl.rootID target) : Int) + 1)
      ∧ tbl.closestNodes k target filter
          = (match tbl.closestLoop k filter N [] with
              | none => none
              | some ret =>
                if (ret.length : Int) > k then
                  if k < 0 then none else some (ret.take k.toNat)
                else some ret) := by
  by_cases hroot : target = tbl.rootID
  · refine ⟨160, le_refl _, fun _ => rfl, fun h => absurd hroot h, ?_⟩
    unfold table.closestNodes
    simp only [if_pos hroot]
    rfl
  · obtain ⟨j, hj, hidx, _⟩ := bucketForID_fin tbl target hroot
    refine ⟨j.val + 1, j.isLt, fun h => absurd h hroot, ?_, ?_⟩
    · intro _
      push_cast
      rw [hj]
    · unfold table.closestNodes
      simp only [if_neg hroot, hidx]
      have hN : ((j.val : Int) + 1).toNat = j.val + 1 := by omega
      rw [hN]

/-- C23: for every table, every k >= 0, every target id (the root id
included) and every filter, closestNodes(k, target, filter) terminates
without a panic and returns at most k nodes, each of which is stored in the
table in a bucket with index <= the target's bucket index (any bucket when
the target is the root id) and satisfies the filter; the result is an
initial part of the list of the nodes of those buckets that satisfy the
filter, and when it has fewer than k nodes it is that whole list, which then
has fewer than k nodes. -/
theorem closestNodes_spec (tbl : table) (k : Int) (hk : 0 ≤ k) (target : tracker.int160.T)
    (filter : node → Bool) :
    ∃ (res : List node) (N : Nat),
      tbl.closestNodes k target filter = some res
      ∧ N ≤ 160
      ∧ (target = tbl.rootID → N = 160)
      ∧ (target ≠ tbl.rootID →
          (N : Int) = 160 - (int160.BitLen (int160.Xor tbl.rootID target) : Int) + 1
          ∧ tbl.bucketIndex target = some ((N : Int) - 1))
      ∧ (res.length : Int) ≤ k
      ∧ res <+: tbl.candidates filter N
      ∧ (∀ x ∈ res, filter x = true
          ∧ ∃ j : Fin 160, j.val < N ∧ x ∈ (tbl.buckets j).nodes)
      ∧ ((res.length : Int) < k → res = tbl.candidates filter N)
      ∧ ((res.length : Int) < k → ((tbl.candidates filter N).length : Int) < k)
      ∧ ((res.length : Int) < k → ∀ j : Fin 160, j.val < N →
          ∀ x ∈ (tbl.buckets j).nodes, filter x = true → x ∈ res) := by
  obtain ⟨N, hN, hN1, hN2, heq⟩ := closestNodes_start tbl k target filter
  obtain ⟨pre, h1, h2, h3⟩ := closestLoop_prefix tbl k filter N hN []
  rw [List.nil_append] at h1 h3
  rw [h1] at heq
  simp only at heq
  have hidx : target ≠ tbl.rootID →
      (N : Int) = 160 - (int160.BitLen (int160.Xor tbl.rootID target) : Int) + 1
      ∧ tbl.bucketIndex target = some ((N : Int) - 1) := by
    intro hne
    refine ⟨hN2 hne, ?_⟩
    unfold table.bucketIndex
    rw [if_neg hne]
    simp only [Option.some.injEq]
    have := hN2 hne
    omega
  have hmem : ∀ res : List node, res <+: tbl.candidates filter N →
      ∀ x ∈ res, filter x = true ∧ ∃ j : Fin 160, j.val < N ∧ x ∈ (tbl.buckets j).nodes := by
    intro res hres x hx
    obtain ⟨j, hj, hx1, hx2⟩ := (candidates_mem tbl filter N hN x).1 (hres.subset hx)
    exact ⟨hx2, j, hj, hx1⟩
  by_cases hgt : (pre.length : Int) > k
  · rw [if_pos hgt, if_neg (by omega)] at heq
    have hlen : (pre.take k.toNat).length = k.toNat := by
      rw [List.length_take]
      omega
    have hpre : pre.take k.toNat <+: tbl.candidates filter N :=
      (List.take_prefix _ _).trans h2
    refine ⟨pre.take k.toNat, N, heq, hN, hN1, hidx, by omega, hpre, hmem _ hpre, ?_, ?_, ?_⟩
    · intro hlt; omega
    · intro hlt; omega
    · intro hlt; omega
  · rw [if_neg hgt] at heq
    refine ⟨pre, N, heq, hN, hN1, hidx, by omega, h2, hmem _ h2, h3, ?_, ?_⟩
    · intro hlt
      rw [← h3 hlt]
      exact hlt
    · intro hlt j hj x hx hf
      rw [h3 hlt]
      exact (candidates_mem tbl filter N hN x).2 ⟨j, hj, hx, hf⟩

/-- Witness for C23: the empty table made by newTable(8), at most 3 nodes
asked for, the target the root id, every node accepted. -/
theorem closestNodes_spec_witness :
    ∃ (res : List node) (N : Nat),
      (newTable 8).closestNodes 3 (newTable 8).rootID (fun _ => true) = some res
      ∧ N ≤ 160
      ∧ ((newTable 8).rootID = (newTable 8).rootID → N = 160)
      ∧ ((newTable 8).rootID ≠ (newTable 8).rootID →
          (N : Int) = 160 - (int160.BitLen
              (int160.Xor (newTable 8).rootID (newTable 8).rootID) : Int) + 1
          ∧ (newTable 8).bucketIndex (newTable 8).rootID = some ((N : Int) - 1))
      ∧ (res.length : Int) ≤ 3
      ∧ res <+: (newTable 8).candidates (fun _ => true) N
      ∧ (∀ x ∈ res, (fun _ => true) x = true
          ∧ ∃ j : Fin 160, j.val < N ∧ x ∈ ((newTable 8).buckets j).nodes)
      ∧ ((res.length : Int) < 3 → res = (newTable 8).candidates (fun _ => true) N)
      ∧ ((res.length : Int) < 3 →
          (((newTable 8).candidates (fun _ => true) N).length : Int) < 3)
      ∧ ((res.length : Int) < 3 → ∀ j : Fin 160, j.val < N →
          ∀ x ∈ ((newTable 8).buckets j).nodes, (fun _ => true) x = true → x ∈ res) :=
  closestNodes_spec (newTable 8) 3 (by decide) (newTable 8).rootID (fun _ => true)

end dht
